import Mathlib

/-!
# BMP reader: a shallow embedding of `bmp_image.cpp`

The development models `BMPImage::load`, `BMPImage::save`,
`BMPImage::drawLine` and `BMPImage::createTestBMP` on explicit state, and
proves properties of the model.

* A file is the list of its bytes; `std::ifstream::read` is `streamRead`.
  Files can be opened, writes go through, and memory is unbounded (every
  `std::vector` allocation succeeds).
* `uint8_t` is `Fin 256`.  `uint16_t` / `uint32_t` / `size_t` values are
  natural numbers, reduced modulo `2^16` / `2^32` / `2^64` wherever the
  source computes in the unsigned type.
* `int` / `int32_t` values are integers.  Signed overflow is undefined
  behaviour in C++; every signed operation of the source whose result can
  leave the 32-bit range is guarded by `int32`, and the operation that
  overflows ends the run with the status `undefined`.
* `operator[]` on a `std::vector` outside its bounds is undefined behaviour
  too: element reads and writes are checked (`vecGet`, `vecSet`) and end the
  run with `undefined` when they are out of range.
* The diagnostics written to `std::cerr` identify the failing check; the
  model returns them as `LoadError` / `SaveError` values.
* The loop `while (true)` of `drawLine` is run for a number of iterations
  given as an argument; the theorems say how many suffice.
-/

namespace BMP

/-! ## Machine integers -/

/-- The type `uint8_t`. -/
abbrev Byte := Fin 256

/-- The values an `int` (32-bit two's complement) can hold. -/
def isInt32 (v : Int) : Prop := -2147483648 ≤ v ∧ v ≤ 2147483647

instance (v : Int) : Decidable (isInt32 v) := by
  unfold isInt32; infer_instance

/-- The result of a signed 32-bit operation whose mathematical value is `v`:
`none` when `v` does not fit (signed overflow, undefined behaviour). -/
def int32 (v : Int) : Option Int := if isInt32 v then some v else none

/-- The conversion `static_cast<uint32_t>(i)` of an `int`. -/
def toU32 (i : Int) : Nat := (i % 4294967296).toNat

/-- The conversion `static_cast<int32_t>(u)` of a `uint32_t`. -/
def toI32 (u : Nat) : Int := if u < 2147483648 then (u : Int) else (u : Int) - 4294967296

/-- The conversion `static_cast<size_t>(i)` of an `int` (64-bit `size_t`). -/
def toSizeT (i : Int) : Nat := (i % 18446744073709551616).toNat

/-- The conversion `static_cast<uint8_t>(v)`. -/
def toU8 (v : Nat) : Byte := Fin.ofNat v

/-- Byte `k` of an unsigned value: `static_cast<uint8_t>((v >> (8*k)) & 0xFF)`. -/
def byteOf (v k : Nat) : Byte := toU8 ((v / 256 ^ k) % 256)

/-- The function `readU16`: `buf[0] | buf[1] << 8`, read at offset `o` of `buf`. -/
def readU16 (buf : List Byte) (o : Nat) : Nat :=
  (buf.getD o 0).val + (buf.getD (o + 1) 0).val * 256

/-- The function `readU32`: four bytes, little-endian, read at offset `o` of `buf`. -/
def readU32 (buf : List Byte) (o : Nat) : Nat :=
  (buf.getD o 0).val + (buf.getD (o + 1) 0).val * 256
    + (buf.getD (o + 2) 0).val * 65536 + (buf.getD (o + 3) 0).val * 16777216

/-! ## Vectors and streams -/

/-- A checked `v[i]` read. -/
def vecGet (v : List Byte) (i : Nat) : Option Byte := v[i]?

/-- A checked `v[i] = a` write. -/
def vecSet (v : List Byte) (i : Nat) (a : Byte) : Option (List Byte) :=
  if i < v.length then some (v.set i a) else none

/-- The call `in.read(buf, n)` at stream position `pos`: the `n` bytes when
the file holds them, `none` when the read comes up short (the stream then
fails, and `gcount() != n`). -/
def streamRead (file : List Byte) (pos n : Nat) : Option (List Byte) :=
  if pos + n ≤ file.length then some ((file.drop pos).take n) else none

/-- The call `in.seekg(off, std::ios::beg)` on a readable file stream in a
good state: the new position.  Positioning a file beyond its end is not an
error; the next read comes up short instead. -/
def seekg (_file : List Byte) (off : Nat) : Option Nat := some off

/-! ## The image object -/

/-- The data members of `BMPImage`. -/
structure BMPImage where
  width : Int
  height : Int
  topDown : Bool
  bytesPerPixel : Int
  pixels : List Byte
deriving DecidableEq, Repr

/-- The constructor `BMPImage::BMPImage()`. -/
def BMPImage.new : BMPImage :=
  { width := 0, height := 0, topDown := false, bytesPerPixel := 0, pixels := [] }

/-- The member `BMPImage::idx`: `(size_t(y) * size_t(width) + size_t(x)) * size_t(bytesPerPixel)`. -/
def BMPImage.idx (self : BMPImage) (x y : Int) : Nat :=
  ((toSizeT y * toSizeT self.width + toSizeT x) * toSizeT self.bytesPerPixel)
    % 18446744073709551616

/-- The `return false` sites of `BMPImage::load`, named after their diagnostics. -/
inductive LoadError where
  | fileHeader      -- "failed to read BMP file header"
  | notBmp          -- "not a BMP file"
  | dibSize         -- "failed to read DIB size"
  | headerSize      -- "unsupported DIB header size"
  | dibHeader       -- "failed to read DIB header"
  | compression     -- "compressed BMP not supported"
  | bitDepth        -- "only 24-bit and 32-bit BMP supported"
  | planes          -- "unsupported biPlanes value"
  | dimensions      -- "invalid image dimensions"
  | seek            -- "failed to seek to pixel data"
  | pixelRow        -- "failed to read pixel row"
deriving DecidableEq, Repr

/-- The error kinds of the specification. -/
inductive FormatError where
  | Truncated
  | NotABmp
  | UnsupportedHeader
  | UnsupportedCompression
  | UnsupportedBitDepth
  | UnsupportedPlanes
  | InvalidDimensions
deriving DecidableEq, Repr

/-- The error kind each diagnostic of `load` stands for. -/
def LoadError.kind : LoadError → FormatError
  | .fileHeader => .Truncated
  | .notBmp => .NotABmp
  | .dibSize => .Truncated
  | .headerSize => .UnsupportedHeader
  | .dibHeader => .Truncated
  | .compression => .UnsupportedCompression
  | .bitDepth => .UnsupportedBitDepth
  | .planes => .UnsupportedPlanes
  | .dimensions => .InvalidDimensions
  | .seek => .Truncated
  | .pixelRow => .Truncated

/-- How a call of `load` ends: `true`, `false` with a diagnostic, or
undefined behaviour. -/
inductive LoadStatus where
  | success
  | failure (e : LoadError)
  | undefined
deriving DecidableEq, Repr

/-! ## `BMPImage::load` -/

/-- One iteration of the inner loop of `load`: pixel `x` of the row buffer
goes to pixel `(x, dstRow)` of the canonical buffer; `b` is 3 in the 24-bit
branch and 4 in the 32-bit branch. -/
def copyPixel (self : BMPImage) (b : Nat) (rowBuf : List Byte) (dstRow : Int)
    (px : List Byte) (x : Nat) : Option (List Byte) :=
  let sIdx := (toSizeT (x : Int) * b) % 18446744073709551616
  let dIdx := { self with pixels := px }.idx (x : Int) dstRow
  do
    let v0 ← vecGet rowBuf (sIdx + 0)
    let p0 ← vecSet px (dIdx + 0) v0
    let v1 ← vecGet rowBuf (sIdx + 1)
    let p1 ← vecSet p0 (dIdx + 1) v1
    let v2 ← vecGet rowBuf (sIdx + 2)
    let p2 ← vecSet p1 (dIdx + 2) v2
    if b = 4 then
      let v3 ← vecGet rowBuf (sIdx + 3)
      vecSet p2 (dIdx + 3) v3
    else
      pure p2

/-- The loop `for (int x = 0; x < width; ++x)` of `load`. -/
def copyRow (self : BMPImage) (b : Nat) (rowBuf : List Byte) (dstRow : Int)
    (px : List Byte) : Option (List Byte) :=
  (List.range self.width.toNat).foldlM (copyPixel self b rowBuf dstRow) px

/-- The loop `for (int row = 0; row < height; ++row)` of `load`, with `n`
iterations left, the next one being `row`, the stream at `pos`; `size` is
`rowBuf.size()`.  `self` carries the geometry, `px` is the pixel vector. -/
def loadRows (self : BMPImage) (file : List Byte) (b size : Nat) :
    Nat → Nat → Nat → List Byte → LoadStatus × List Byte
  | 0, _, _, px => (.success, px)
  | n + 1, row, pos, px =>
    match streamRead file pos size with
    | none => (.failure .pixelRow, px)
    | some rowBuf =>
      let dstRow : Int := if self.topDown then (row : Int) else self.height - 1 - (row : Int)
      match copyRow self b rowBuf dstRow px with
      | none => (.undefined, px)
      | some px1 => loadRows self file b size n (row + 1) (pos + size) px1

/-- The second half of `BMPImage::load` (from `width = biWidth;` on): the
geometry is stored in the object and checked, the stream is positioned at
`bfOffBits` and the rows are read. -/
def loadImage (self : BMPImage) (file : List Byte) (bfOffBits : Nat) (biWidth biHeight : Int)
    (biBitCount : Nat) : LoadStatus × BMPImage :=
  let s1 := { self with width := biWidth, topDown := false }
  match (if biHeight < 0 then
           (int32 (-biHeight)).map (fun h => { s1 with topDown := true, height := h })
         else some { s1 with height := biHeight }) with
  | none => (.undefined, s1)
  | some s2 =>
    let s3 := { s2 with bytesPerPixel := ((biBitCount / 8 : Nat) : Int) }
    if s3.width ≤ 0 ∨ s3.height ≤ 0 then (.failure .dimensions, s3) else
    match seekg file bfOffBits with
    | none => (.failure .seek, s3)
    | some pos =>
      let count := (toSizeT s3.width * toSizeT s3.height * toSizeT s3.bytesPerPixel)
        % 18446744073709551616
      let s4 := { s3 with pixels := List.replicate count 0 }
      if s4.bytesPerPixel = 3 then
        match int32 (s4.width * 3) with
        | none => (.undefined, s4)
        | some rowSizeNoPad =>
          let padding := (4 - rowSizeNoPad.tmod 4).tmod 4
          match int32 (rowSizeNoPad + padding) with
          | none => (.undefined, s4)
          | some rowSize =>
            let r := loadRows s4 file 3 (toSizeT rowSize) s4.height.toNat 0 pos s4.pixels
            (r.1, { s4 with pixels := r.2 })
      else
        let size := (toSizeT s4.width * 4) % 18446744073709551616
        let r := loadRows s4 file 4 size s4.height.toNat 0 pos s4.pixels
        (r.1, { s4 with pixels := r.2 })

/-- The member `BMPImage::load`, on the bytes of the file (the file could be
opened).  The result is the way the call ends and the object afterwards. -/
def load (self : BMPImage) (file : List Byte) : LoadStatus × BMPImage :=
  match streamRead file 0 14 with
  | none => (.failure .fileHeader, self)
  | some fhBuf =>
    let bfType := readU16 fhBuf 0
    let bfOffBits := readU32 fhBuf 10
    if bfType ≠ 0x4D42 then (.failure .notBmp, self) else
    match streamRead file 14 4 with
    | none => (.failure .dibSize, self)
    | some dibSizeBuf =>
      let dibSize := readU32 dibSizeBuf 0
      if dibSize < 40 then (.failure .headerSize, self) else
      match streamRead file 18 (dibSize - 4) with
      | none => (.failure .dibHeader, self)
      | some rest =>
        let dibBuf := dibSizeBuf ++ rest
        let biWidth := toI32 (readU32 dibBuf 4)
        let biHeight := toI32 (readU32 dibBuf 8)
        let biPlanes := readU16 dibBuf 12
        let biBitCount := readU16 dibBuf 14
        let biCompression := readU32 dibBuf 16
        if biCompression ≠ 0 then (.failure .compression, self) else
        if biBitCount ≠ 24 ∧ biBitCount ≠ 32 then (.failure .bitDepth, self) else
        if biPlanes ≠ 1 then (.failure .planes, self) else
        loadImage self file bfOffBits biWidth biHeight biBitCount

/-! ## `BMPImage::save` -/

/-- The `return false` sites of `BMPImage::save`. -/
inductive SaveError where
  | noImage         -- "no image to save"
  | cannotOpen      -- "cannot open file for writing"
  | writeFailed     -- "failed while writing file"
deriving DecidableEq, Repr

/-- How a call of `save` ends. -/
inductive SaveStatus where
  | success
  | failure (e : SaveError)
  | undefined
deriving DecidableEq, Repr

/-- One iteration of the inner loop of `save`: the `b` bytes of pixel
`(x, fileRow)` of the canonical buffer are put on the stream `out`. -/
def putPixel (self : BMPImage) (b : Nat) (fileRow : Int) (out : List Byte) (x : Nat) :
    Option (List Byte) :=
  let p := self.idx (x : Int) fileRow
  do
    let v0 ← vecGet self.pixels (p + 0)
    let v1 ← vecGet self.pixels (p + 1)
    let v2 ← vecGet self.pixels (p + 2)
    if b = 4 then
      let v3 ← vecGet self.pixels (p + 3)
      pure (out ++ [v0, v1, v2, v3])
    else
      pure (out ++ [v0, v1, v2])

/-- The loop `for (int x = 0; x < width; ++x)` of `save`. -/
def putRow (self : BMPImage) (b : Nat) (fileRow : Int) (out : List Byte) : Option (List Byte) :=
  (List.range self.width.toNat).foldlM (putPixel self b fileRow) out

/-- The loop `for (int row = 0; row < height; ++row)` of `save`, with `n`
iterations left, the next one being `row`; `pad` is what is written after
the pixels of each row. -/
def saveRows (self : BMPImage) (b : Nat) (pad : List Byte) :
    Nat → Nat → List Byte → SaveStatus × List Byte
  | 0, _, out => (.success, out)
  | n + 1, row, out =>
    let fileRow : Int := if self.topDown then (row : Int) else self.height - 1 - (row : Int)
    match putRow self b fileRow out with
    | none => (.undefined, out)
    | some out1 => saveRows self b pad n (row + 1) (out1 ++ pad)

/-- The 14 bytes `fhOut` of `save`. -/
def fileHeaderBytes (bfType bfSize bfOffBits : Nat) : List Byte :=
  [byteOf bfType 0, byteOf bfType 1,
   byteOf bfSize 0, byteOf bfSize 1, byteOf bfSize 2, byteOf bfSize 3,
   0, 0, 0, 0,
   byteOf bfOffBits 0, byteOf bfOffBits 1, byteOf bfOffBits 2, byteOf bfOffBits 3]

/-- The 40 bytes `ihOut` of `save`: the fields written, the rest left at
the zero of `memset`. -/
def infoHeaderBytes (biSize w hUnsigned bits comp si : Nat) : List Byte :=
  [byteOf biSize 0, byteOf biSize 1, byteOf biSize 2, byteOf biSize 3,
   byteOf w 0, byteOf w 1, byteOf w 2, byteOf w 3,
   byteOf hUnsigned 0, byteOf hUnsigned 1, byteOf hUnsigned 2, byteOf hUnsigned 3,
   1, 0,
   byteOf bits 0, byteOf bits 1,
   byteOf comp 0, byteOf comp 1, byteOf comp 2, byteOf comp 3,
   byteOf si 0, byteOf si 1, byteOf si 2, byteOf si 3,
   0, 0, 0, 0, 0, 0, 0, 0, 0, 0, 0, 0, 0, 0, 0, 0]

/-- The member `BMPImage::save` (the file could be opened and every write
went through).  The result is the way the call ends and the bytes written. -/
def save (self : BMPImage) : SaveStatus × List Byte :=
  if self.width ≤ 0 ∨ self.height ≤ 0 then (.failure .noImage, []) else
  let bfType := 0x4D42
  let rowNoPad :=
    if self.bytesPerPixel = 3 then (toU32 self.width * 3) % 4294967296
    else (toU32 self.width * 4) % 4294967296
  let padding := if self.bytesPerPixel = 3 then (4 - rowNoPad % 4) % 4 else 0
  let rowSizeWithPad := (rowNoPad + padding) % 4294967296
  let imageSize := (rowSizeWithPad * toU32 self.height) % 4294967296
  let bfOffBits := 14 + 40
  let bfSize := (bfOffBits + imageSize) % 4294967296
  let out1 := fileHeaderBytes bfType bfSize bfOffBits
  let hSigned : Int := if self.topDown then -self.height else self.height
  match int32 (self.bytesPerPixel * 8) with
  | none => (.undefined, out1)
  | some bits8 =>
    let bits := (toU32 bits8) % 65536
    let out2 := out1 ++ infoHeaderBytes 40 (toU32 self.width) (toU32 hSigned) bits 0 imageSize
    let padBuf : List Byte := List.replicate padding 0
    if self.bytesPerPixel = 3 then
      saveRows self 3 (if padding ≠ 0 then padBuf else []) self.height.toNat 0 out2
    else
      saveRows self 4 [] self.height.toNat 0 out2

/-! ## `BMPImage::drawLine` -/

/-- The lambda `setBlack` of `drawLine`: `none` is an out-of-range write. -/
def setBlack (self : BMPImage) (x y : Int) : Option BMPImage :=
  if x < 0 ∨ x ≥ self.width ∨ y < 0 ∨ y ≥ self.height then some self else
  let p := self.idx x y
  do
    let p0 ← vecSet self.pixels (p + 0) 0
    let p1 ← vecSet p0 (p + 1) 0
    let p2 ← vecSet p1 (p + 2) 0
    if self.bytesPerPixel = 4 then
      let p3 ← vecSet p2 (p + 3) 255
      pure { self with pixels := p3 }
    else
      pure { self with pixels := p2 }

/-- The loop variables `x`, `y`, `err` of `drawLine`. -/
structure LineState where
  x : Int
  y : Int
  err : Int
deriving DecidableEq, Repr

/-- The update at the end of the loop body of `drawLine`:
`e2 = 2 * err; if (e2 >= dy) { err += dy; x += sx; } if (e2 <= dx) { err += dx; y += sy; }`,
`none` on signed overflow. -/
def lineStep (dx dy sx sy : Int) (s : LineState) : Option LineState := do
  let e2 ← int32 (2 * s.err)
  let s1 ← (if e2 ≥ dy then do
      let err ← int32 (s.err + dy)
      let x ← int32 (s.x + sx)
      pure { s with err := err, x := x }
    else pure s)
  if e2 ≤ dx then do
    let err ← int32 (s1.err + dx)
    let y ← int32 (s1.y + sy)
    pure { s1 with err := err, y := y }
  else pure s1

/-- How a run of `drawLine` ends: it returns, with the object as it then
is; it runs into undefined behaviour; or the loop is still running when the
iterations granted to the model are used up. -/
inductive DrawResult where
  | returned (img : BMPImage)
  | undefined
  | outOfFuel
deriving DecidableEq, Repr

/-- The loop `while (true)` of `drawLine`, run for at most `fuel` iterations. -/
def drawLoop (dx dy sx sy x1 y1 : Int) : Nat → LineState → BMPImage → DrawResult
  | 0, _, _ => .outOfFuel
  | fuel + 1, s, img =>
    match setBlack img s.x s.y with
    | none => .undefined
    | some img1 =>
      if s.x = x1 ∧ s.y = y1 then .returned img1 else
      match lineStep dx dy sx sy s with
      | none => .undefined
      | some s1 => drawLoop dx dy sx sy x1 y1 fuel s1 img1

/-- The initialisation `dx, sx, dy, sy, err` of `drawLine`; `none` on
signed overflow (`x1 - x0`, `std::abs`, `dx + dy`). -/
def lineInit (x0 y0 x1 y1 : Int) : Option (Int × Int × Int × Int × Int) := do
  let tx ← int32 (x1 - x0)
  let dx ← int32 |tx|
  let sx : Int := if x0 < x1 then 1 else -1
  let ty ← int32 (y1 - y0)
  let ay ← int32 |ty|
  let dy := -ay
  let sy : Int := if y0 < y1 then 1 else -1
  let err ← int32 (dx + dy)
  pure (dx, sx, dy, sy, err)

/-- The member `BMPImage::drawLine`, its loop run for at most `fuel` iterations. -/
def drawLine (fuel : Nat) (self : BMPImage) (x0 y0 x1 y1 : Int) : DrawResult :=
  match lineInit x0 y0 x1 y1 with
  | none => .undefined
  | some (dx, sx, dy, sy, err) =>
    drawLoop dx dy sx sy x1 y1 fuel { x := x0, y := y0, err := err } self

/-! ## The fields of a file, by absolute offset -/

/-- The magic number, bytes 0-1. -/
def bfType (file : List Byte) : Nat := readU16 file 0

/-- The pixel-data offset, bytes 10-13. -/
def bfOffBits (file : List Byte) : Nat := readU32 file 10

/-- The declared size of the DIB header, bytes 14-17. -/
def biSize (file : List Byte) : Nat := readU32 file 14

/-- The width field, bytes 18-21, signed. -/
def biWidth (file : List Byte) : Int := toI32 (readU32 file 18)

/-- The height field, bytes 22-25, signed. -/
def biHeight (file : List Byte) : Int := toI32 (readU32 file 22)

/-- The planes field, bytes 26-27. -/
def biPlanes (file : List Byte) : Nat := readU16 file 26

/-- The bit count, bytes 28-29. -/
def biBitCount (file : List Byte) : Nat := readU16 file 28

/-- The compression field, bytes 30-33. -/
def biCompression (file : List Byte) : Nat := readU32 file 30

/-- The row stride `ceil(w * b / 4) * 4`. -/
def rowStride (w b : Nat) : Nat := (w * b + 3) / 4 * 4

/-! ## Notions used to state the properties -/

/-- The facts about the geometry of an object that the loops rely on. -/
structure Geom (img : BMPImage) (W H b : Nat) : Prop where
  hw : img.width = (W : Int)
  hh : img.height = (H : Int)
  hb : img.bytesPerPixel = (b : Int)
  hb34 : b = 3 ∨ b = 4
  hW : W < 2147483648
  hH : H < 2147483648

/-- The file row that holds canonical row `y`, and the other way round. -/
def fileRow (topDown : Bool) (H y : Nat) : Nat := if topDown then y else H - 1 - y

/-- The width a file declares. -/
def fileWidth (file : List Byte) : Nat := (biWidth file).toNat

/-- The absolute value of the height field of a file. -/
def fileHeight (file : List Byte) : Nat := (biHeight file).natAbs

/-- Whether the height field of a file is negative (rows stored top-down). -/
def fileTopDown (file : List Byte) : Bool := decide (biHeight file < 0)

/-- The bytes per pixel a file declares, `bit_count / 8`. -/
def fileBpp (file : List Byte) : Nat := biBitCount file / 8

/-- The row stride of the pixel data of a file. -/
def fileStride (file : List Byte) : Nat := rowStride (fileWidth file) (fileBpp file)

/-- The checks of `load` on the two headers, up to and including the check
of the dimensions: the file header and the declared DIB header are present,
the magic is `BM`, the DIB header has at least 40 bytes, no compression, 24
or 32 bits, one plane, a positive width and a height whose absolute value
is a positive `int`. -/
def HeaderOk (file : List Byte) : Prop :=
  14 + biSize file ≤ file.length ∧ bfType file = 0x4D42 ∧ 40 ≤ biSize file ∧
  biCompression file = 0 ∧ (biBitCount file = 24 ∨ biBitCount file = 32) ∧
  biPlanes file = 1 ∧ 0 < biWidth file ∧ biHeight file ≠ 0 ∧ biHeight file ≠ -2147483648

instance (file : List Byte) : Decidable (HeaderOk file) := by
  unfold HeaderOk; infer_instance

/-- The padded row size of a 24-bit file fits the `int` in which the 24-bit
branch of `load` computes it. -/
def RowFits (file : List Byte) : Prop :=
  biBitCount file = 24 → rowStride (fileWidth file) 3 ≤ 2147483647

instance (file : List Byte) : Decidable (RowFits file) := by
  unfold RowFits; infer_instance

/-- The object a successful `load` of `file` leaves, given its pixels. -/
def decoded (file : List Byte) (px : List Byte) : BMPImage :=
  ⟨fileWidth file, fileHeight file, fileTopDown file, fileBpp file, px⟩

/-- The status `st` is a failure whose diagnostic stands for the error kind `k`. -/
def rejectedAs (st : LoadStatus) (k : FormatError) : Prop :=
  ∃ e, st = .failure e ∧ e.kind = k

/-- The 54 header bytes of a bottom-up 24-bit file of width 715827883 and
height 1 whose pixel data starts at offset 54. -/
def wideHeader : List Byte :=
  [0x42, 0x4D, 0x3A, 0, 0, 0x80, 0, 0, 0, 0, 54, 0, 0, 0,
   40, 0, 0, 0, 0xAB, 0xAA, 0xAA, 0x2A, 1, 0, 0, 0, 1, 0, 24, 0, 0, 0, 0, 0,
   0, 0, 0, 0, 0, 0, 0, 0, 0, 0, 0, 0, 0, 0, 0, 0, 0, 0, 0, 0]

/-- A 24-bit file, one row of 715827883 pixels, all of its 2147483652 bytes
of pixel data present. -/
def wideFile : List Byte := wideHeader ++ List.replicate 2147483652 0

/-- A 2x2 24-bit bottom-up file: 54 header bytes, two padded rows of 8 bytes. -/
def sampleFile : List Byte :=
  fileHeaderBytes 0x4D42 70 54 ++ infoHeaderBytes 40 2 2 24 0 16
    ++ [1, 2, 3, 4, 5, 6, 0, 0, 7, 8, 9, 10, 11, 12, 0, 0]

/-- The image `load` makes of `sampleFile`. -/
def sampleImage : BMPImage :=
  ⟨2, 2, false, 3, [7, 8, 9, 10, 11, 12, 1, 2, 3, 4, 5, 6]⟩

/-- The headers of a 1x1 24-bit file without its pixel data. -/
def headersOnlyFile : List Byte :=
  fileHeaderBytes 0x4D42 58 54 ++ infoHeaderBytes 40 1 1 24 0 4

/-- A file whose headers declare compression 1 (and 8 bits per pixel). -/
def compressedFile : List Byte :=
  fileHeaderBytes 0x4D42 58 54 ++ infoHeaderBytes 40 1 1 8 1 4

/-- A file whose headers declare 8 bits per pixel, uncompressed. -/
def paletteFile : List Byte :=
  fileHeaderBytes 0x4D42 58 54 ++ infoHeaderBytes 40 1 1 8 0 4

/-- A file `load` accepts: the checks on the headers pass, the padded row
size fits an `int`, and the pixel data is all there. -/
def WellFormed (file : List Byte) : Prop :=
  HeaderOk file ∧ RowFits file ∧
    bfOffBits file + fileHeight file * fileStride file ≤ file.length

instance (file : List Byte) : Decidable (WellFormed file) := by
  unfold WellFormed; infer_instance

/-- The 2x2 file of `sampleFile` stored top-down: height field -2, the two
rows in the other order (and other padding bytes). -/
def sampleFileTopDown : List Byte :=
  fileHeaderBytes 0x4D42 70 54 ++ infoHeaderBytes 40 2 4294967294 24 0 16
    ++ [7, 8, 9, 10, 11, 12, 5, 5, 1, 2, 3, 4, 5, 6, 9, 9]

/-- The invariant of the Image type: positive dimensions, 3 or 4 bytes per
pixel, and a pixel buffer of `width * height * bytesPerPixel` bytes. -/
def Invariant (img : BMPImage) : Prop :=
  0 < img.width ∧ 0 < img.height ∧ (img.bytesPerPixel = 3 ∨ img.bytesPerPixel = 4) ∧
  (img.pixels.length : Int) = img.width * img.height * img.bytesPerPixel

instance (img : BMPImage) : Decidable (Invariant img) := by
  unfold Invariant; infer_instance

/-- The row stride of the file `save` writes for an image. -/
def imgStride (img : BMPImage) : Nat := rowStride img.width.toNat img.bytesPerPixel.toNat

/-- The sizes of an image are within 32-bit range: the width, the height
and the padded row size are values of `int`, the size of the file is a value
of `uint32_t`. -/
def SizesFit32 (img : BMPImage) : Prop :=
  img.width ≤ 2147483647 ∧ img.height ≤ 2147483647 ∧ imgStride img ≤ 2147483647 ∧
  54 + imgStride img * img.height.toNat ≤ 4294967295

instance (img : BMPImage) : Decidable (SizesFit32 img) := by
  unfold SizesFit32; infer_instance

/-- A valid image: the invariant holds and the sizes are within 32-bit range. -/
def Valid (img : BMPImage) : Prop := Invariant img ∧ SizesFit32 img

instance (img : BMPImage) : Decidable (Valid img) := by
  unfold Valid; infer_instance

/-- The 54 header bytes `save` writes for a valid image. -/
def savedHeader (img : BMPImage) : List Byte :=
  fileHeaderBytes 0x4D42 (54 + imgStride img * img.height.toNat) 54 ++
    infoHeaderBytes 40 img.width.toNat
      (toU32 (if img.topDown then -img.height else img.height))
      (img.bytesPerPixel.toNat * 8) 0 (imgStride img * img.height.toNat)

/-- Byte `i` of the pixel buffer belongs to the pixel `(x, y)`, and `(x, y)`
lies inside a `W` x `H` image of `b` bytes per pixel. -/
def covers (W H b : Nat) (x y : Int) (i : Nat) : Prop :=
  0 ≤ x ∧ x < (W : Int) ∧ 0 ≤ y ∧ y < (H : Int) ∧
  (y.toNat * W + x.toNat) * b ≤ i ∧ i < (y.toNat * W + x.toNat) * b + b

instance (W H b : Nat) (x y : Int) (i : Nat) : Decidable (covers W H b x y i) := by
  unfold covers; infer_instance

/-- The value `setBlack` writes at byte `i` of a buffer of `b` bytes per
pixel: 255 at the alpha byte of a 4-byte pixel, 0 at the other bytes. -/
def inkAt (b i : Nat) : Byte := if b = 4 ∧ i % 4 = 3 then 255 else 0

/-- The points the loop of `drawLine` visits, the loop run for at most
`fuel` iterations: `none` when the run overflows or `fuel` does not
suffice. -/
def linePath (dx dy sx sy x1 y1 : Int) : Nat → LineState → Option (List (Int × Int))
  | 0, _ => none
  | fuel + 1, s =>
    if s.x = x1 ∧ s.y = y1 then some [(s.x, s.y)] else
    match lineStep dx dy sx sy s with
    | none => none
    | some s1 => (linePath dx dy sx sy x1 y1 fuel s1).map (fun pts => (s.x, s.y) :: pts)

/-- The Bresenham path of `drawLine` from `(x0, y0)` to `(x1, y1)`. -/
def bresenham (fuel : Nat) (x0 y0 x1 y1 : Int) : Option (List (Int × Int)) :=
  match lineInit x0 y0 x1 y1 with
  | none => none
  | some (dx, sx, dy, sy, err) =>
    linePath dx dy sx sy x1 y1 fuel { x := x0, y := y0, err := err }

/-- The endpoints are values of `int` and the line is short enough for the
error term of `drawLine` not to overflow. -/
def LineFits (x0 y0 x1 y1 : Int) : Prop :=
  isInt32 x0 ∧ isInt32 y0 ∧ isInt32 x1 ∧ isInt32 y1 ∧
  3 * |x1 - x0| ≤ 2147483647 ∧ 3 * |y1 - y0| ≤ 2147483647

instance (x0 y0 x1 y1 : Int) : Decidable (LineFits x0 y0 x1 y1) := by
  unfold LineFits; infer_instance

/-- The loop invariant of `drawLine`: after `i` steps in `x` and `j` steps
in `y`, with `a = dx` and `b = -dy`. -/
structure LineInv (x0 y0 a b sx sy : Int) (s : LineState) (i j : Int) : Prop where
  hi0 : 0 ≤ i
  hia : i ≤ a
  hj0 : 0 ≤ j
  hjb : j ≤ b
  hx : s.x = x0 + sx * i
  hy : s.y = y0 + sy * j
  herr : s.err = a - b + (a * j - b * i)
  hlo : -2 * a - b ≤ 2 * (a * j - b * i)
  hhi : 2 * (a * j - b * i) ≤ a + 2 * b

/-- Byte `k` of the pixel buffer belongs to a pixel of `pts` that lies inside
the image. -/
def painted (W H b : Nat) (pts : List (Int × Int)) (k : Nat) : Prop :=
  ∃ p ∈ pts, covers W H b p.1 p.2 k

instance (W H b : Nat) (pts : List (Int × Int)) (k : Nat) : Decidable (painted W H b pts k) := by
  unfold painted; infer_instance

/-- The offset of the first byte of pixel `(x, y)` in the pixel buffer. -/
def pixelAt (img : BMPImage) (x y : Int) : Nat :=
  (y.toNat * img.width.toNat + x.toNat) * img.bytesPerPixel.toNat

/-- Calls of `drawLine` on the object, one after the other, each given as
`(x0, y0, x1, y1)`. -/
def drawLines (fuel : Nat) : BMPImage → List (Int × Int × Int × Int) → DrawResult
  | img, [] => .returned img
  | img, (x0, y0, x1, y1) :: rest =>
    match drawLine fuel img x0 y0 x1 y1 with
    | .returned img1 => drawLines fuel img1 rest
    | r => r

/-! ## Sizes and header sizes -/

/-- A 4x4 24-bit bottom-up image, every pixel byte 255. -/
def white4x4 : BMPImage := ⟨4, 4, false, 3, List.replicate 48 255⟩

/-- A 1x1 24-bit file whose DIB header declares 108 bytes: 14 + 108 header
bytes, the pixel data at offset 122. -/
def bigHeaderFile : List Byte :=
  fileHeaderBytes 0x4D42 126 122 ++ infoHeaderBytes 108 1 1 24 0 4
    ++ List.replicate 68 0 ++ [10, 20, 30, 0]

/-- The 14 bytes of a file header followed by a 12-byte BITMAPCOREHEADER. -/
def coreHeaderFile : List Byte :=
  fileHeaderBytes 0x4D42 30 26 ++ [12, 0, 0, 0, 1, 0, 1, 0, 1, 0, 24, 0] ++ [10, 20, 30, 0]

/-! ## The order of the checks of `load` -/

/-- The first of the checks of the specification that fails on the DIB
header of a file, in the order of the specification: header size below 40,
compression other than 0, bit count other than 24 and 32, planes other than
1, width or absolute height not positive; `none` when all of them pass. -/
def firstFailing (file : List Byte) : Option FormatError :=
  if biSize file < 40 then some .UnsupportedHeader
  else if biCompression file ≠ 0 then some .UnsupportedCompression
  else if biBitCount file ≠ 24 ∧ biBitCount file ≠ 32 then some .UnsupportedBitDepth
  else if biPlanes file ≠ 1 then some .UnsupportedPlanes
  else if biWidth file ≤ 0 ∨ fileHeight file ≤ 0 then some .InvalidDimensions
  else none

/-- A header with compression 1, 8 bits per pixel and 0 planes. -/
def allWrongFile : List Byte :=
  fileHeaderBytes 0x4D42 54 54 ++
    [40, 0, 0, 0, 1, 0, 0, 0, 1, 0, 0, 0, 0, 0, 8, 0, 1, 0, 0, 0,
     0, 0, 0, 0, 0, 0, 0, 0, 0, 0, 0, 0, 0, 0, 0, 0, 0, 0, 0, 0]

/-- The second half of `BMPImage::load` as in `loadImage`, with the value of
the negation in `height = -biHeight;` given by `neg` (`none`: the run ends
there).  `loadImage` is the instance in which the negation is that of `int`. -/
def loadImageWith (neg : Int → Option Int) (self : BMPImage) (file : List Byte)
    (bfOffBits : Nat) (biWidth biHeight : Int) (biBitCount : Nat) : LoadStatus × BMPImage :=
  let s1 := { self with width := biWidth, topDown := false }
  match (if biHeight < 0 then
           (neg biHeight).map (fun h => { s1 with topDown := true, height := h })
         else some { s1 with height := biHeight }) with
  | none => (.undefined, s1)
  | some s2 =>
    let s3 := { s2 with bytesPerPixel := ((biBitCount / 8 : Nat) : Int) }
    if s3.width ≤ 0 ∨ s3.height ≤ 0 then (.failure .dimensions, s3) else
    match seekg file bfOffBits with
    | none => (.failure .seek, s3)
    | some pos =>
      let count := (toSizeT s3.width * toSizeT s3.height * toSizeT s3.bytesPerPixel)
        % 18446744073709551616
      let s4 := { s3 with pixels := List.replicate count 0 }
      if s4.bytesPerPixel = 3 then
        match int32 (s4.width * 3) with
        | none => (.undefined, s4)
        | some rowSizeNoPad =>
          let padding := (4 - rowSizeNoPad.tmod 4).tmod 4
          match int32 (rowSizeNoPad + padding) with
          | none => (.undefined, s4)
          | some rowSize =>
            let r := loadRows s4 file 3 (toSizeT rowSize) s4.height.toNat 0 pos s4.pixels
            (r.1, { s4 with pixels := r.2 })
      else
        let size := (toSizeT s4.width * 4) % 18446744073709551616
        let r := loadRows s4 file 4 size s4.height.toNat 0 pos s4.pixels
        (r.1, { s4 with pixels := r.2 })

/-- The part of the loop invariant of `drawLine` that makes the longer axis
advance in every iteration, after `i` steps in `x` and `j` steps in `y`,
with `a = dx` and `b = -dy`. -/
def MajorInv (a b i j : Int) : Prop :=
  (b ≤ a → b - 2 * a ≤ 2 * (a * j - b * i)) ∧ (a ≤ b → 2 * (a * j - b * i) ≤ 2 * b - a)

/-- One move of a path towards `(x1, y1)` in the directions `sx`, `sy`: each
coordinate stays or moves by its direction, the point moves, by at most 1 in
each coordinate, and no coordinate gets farther from the target. -/
def lineMove (sx sy x1 y1 : Int) (p q : Int × Int) : Prop :=
  (q.1 = p.1 ∨ q.1 = p.1 + sx) ∧ (q.2 = p.2 ∨ q.2 = p.2 + sy) ∧ q ≠ p ∧
  |q.1 - p.1| ≤ 1 ∧ |q.2 - p.2| ≤ 1 ∧
  |x1 - q.1| ≤ |x1 - p.1| ∧ |y1 - q.2| ≤ |y1 - p.2|

/-- A 3x2 24-bit bottom-up image, every pixel byte 255. -/
def white3x2 : BMPImage := ⟨3, 2, false, 3, List.replicate 18 255⟩

/-! ## `BMPImage::createTestBMP` -/

/-- One iteration of the inner loop of `createTestBMP`: the bytes `b`, `g`,
`r` of pixel `x` of row `row` are put on the stream `out`.  The loop
counters are not negative and `x / 4 + row / 4` is below `2^30`. -/
def testPixel (row : Nat) (out : List Byte) (x : Nat) : List Byte :=
  let black : Bool := (x / 4 + row / 4) % 2 == 0
  let r : Byte := if black then 0 else 255
  let g : Byte := r
  let b : Byte := r
  out ++ [b, g, r]

/-- The loop `for (int x = 0; x < w; ++x)` of `createTestBMP`. -/
def testRow (w row : Nat) (out : List Byte) : List Byte :=
  (List.range w).foldl (testPixel row) out

/-- The loop `for (int row = 0; row < h; ++row)` of `createTestBMP`, with
`n` iterations left, the next one being `row`; `pad` is what is written
after the pixels of each row. -/
def testRows (w : Nat) (pad : List Byte) : Nat → Nat → List Byte → List Byte
  | 0, _, out => out
  | n + 1, row, out => testRows w pad n (row + 1) (testRow w row out ++ pad)

/-- The static member `BMPImage::createTestBMP` (the directories could be
created, the file could be opened and every write went through).  The
result is the value returned and the bytes written. -/
def createTestBMP (w h : Int) : Bool × List Byte :=
  if w ≤ 0 ∨ h ≤ 0 then (false, []) else
  let bytesPerPixelLocal : Int := 3
  let rowNoPad := (toU32 w * 3) % 4294967296
  let padding := (4 - rowNoPad % 4) % 4
  let rowSizeWithPad := (rowNoPad + padding) % 4294967296
  let imageSize := (rowSizeWithPad * toU32 h) % 4294967296
  let bfOffBits := 14 + 40
  let bfSize := (bfOffBits + imageSize) % 4294967296
  let bfType := 0x4D42
  let out1 := fileHeaderBytes bfType bfSize bfOffBits
  let hSigned : Int := h
  let bits := (toU32 (bytesPerPixelLocal * 8)) % 65536
  let out2 := out1 ++ infoHeaderBytes 40 (toU32 w) (toU32 hSigned) bits 0 imageSize
  let padBuf : List Byte := List.replicate padding 0
  (true, testRows w.toNat (if padding ≠ 0 then padBuf else []) h.toNat 0 out2)

/-- The colour byte of the checkerboard of the specification at canonical
pixel `(x, y)` of an image of height `H`: 0 if
`(x / 4 + (H - 1 - y) / 4) mod 2 = 0`, 255 otherwise. -/
def checkerByte (H x y : Nat) : Byte := if (x / 4 + (H - 1 - y) / 4) % 2 = 0 then 0 else 255

/-- The image of the specification for `createTestBMP(w, h)`: 24-bit,
bottom-up, every byte of canonical pixel `(x, y)` its `checkerByte`. -/
def checkerImage (w h : Int) : BMPImage :=
  { width := w, height := h, topDown := false, bytesPerPixel := 3,
    pixels := (List.range (w.toNat * h.toNat * 3)).map
      (fun k => checkerByte h.toNat ((k / 3) % w.toNat) ((k / 3) / w.toNat)) }

/-- The sizes of the file of `createTestBMP(w, h)` are within 32-bit range:
`w`, `h` and the padded row size are values of `int`, the size of the file
is a value of `uint32_t`. -/
def TestFits (w h : Int) : Prop :=
  w ≤ 2147483647 ∧ h ≤ 2147483647 ∧ rowStride w.toNat 3 ≤ 2147483647 ∧
  54 + rowStride w.toNat 3 * h.toNat ≤ 4294967295

instance (w h : Int) : Decidable (TestFits w h) := by
  unfold TestFits; infer_instance

/-! ## The bytes `load` does not depend on -/

/-- Position `p` of the file holds a padding byte of a row of the pixel
data, the rows located by the header fields of the file. -/
def paddingByte (file : List Byte) (p : Nat) : Prop :=
  0 < fileStride file ∧ bfOffBits file ≤ p ∧
  (p - bfOffBits file) / fileStride file < fileHeight file ∧
  fileWidth file * fileBpp file ≤ (p - bfOffBits file) % fileStride file

instance (file : List Byte) (p : Nat) : Decidable (paddingByte file p) := by
  unfold paddingByte; infer_instance

/-- Position `p` of the file lies in one of the fields the specification
calls ignored: the file-size field (bytes 2-5), the reserved field (bytes
6-9), the DIB header beyond its first 40 bytes, or the padding of a row. -/
def ignoredByte (file : List Byte) (p : Nat) : Prop :=
  (2 ≤ p ∧ p < 10) ∨ (54 ≤ p ∧ p < 14 + biSize file) ∨ paddingByte file p

instance (file : List Byte) (p : Nat) : Decidable (ignoredByte file p) := by
  unfold ignoredByte; infer_instance

/-- A 1x1 24-bit file with a 44-byte DIB header whose pixel-data offset 54
points at the last four bytes of that header. -/
def overlapFile : List Byte :=
  fileHeaderBytes 0x4D42 58 54 ++ infoHeaderBytes 44 1 1 24 0 4 ++ [10, 20, 30, 0]

/-- The file `overlapFile` with byte 54 changed. -/
def overlapFileChanged : List Byte := overlapFile.set 54 99

/-- The file `bigHeaderFile` with a byte changed in the file-size field, in
the reserved field, in the DIB header beyond its first 40 bytes and in the
padding of its row. -/
def bigHeaderFileChanged : List Byte :=
  (((bigHeaderFile.set 3 7).set 8 7).set 60 7).set 125 7

/-! ## Lemmas on `load` -/

theorem streamRead_of_le {file : List Byte} {pos n : Nat} (h : pos + n ≤ file.length) :
    streamRead file pos n = some ((file.drop pos).take n) := by
  simp [streamRead, h]

theorem streamRead_of_lt {file : List Byte} {pos n : Nat} (h : file.length < pos + n) :
    streamRead file pos n = none := by
  simp [streamRead]; omega

theorem getD_take_drop (file : List Byte) (p n i : Nat) (h : i < n) :
    ((file.drop p).take n).getD i 0 = file.getD (p + i) 0 := by
  simp [List.getD_eq_getElem?_getD, List.getElem?_take, h, List.getElem?_drop]

theorem readU16_take_drop (file : List Byte) (p n o : Nat) (h : o + 2 ≤ n) :
    readU16 ((file.drop p).take n) o = readU16 file (p + o) := by
  unfold readU16
  rw [getD_take_drop _ _ _ _ (by omega), getD_take_drop _ _ _ _ (by omega)]
  rfl

theorem readU32_take_drop (file : List Byte) (p n o : Nat) (h : o + 4 ≤ n) :
    readU32 ((file.drop p).take n) o = readU32 file (p + o) := by
  unfold readU32
  rw [getD_take_drop _ _ _ _ (by omega), getD_take_drop _ _ _ _ (by omega),
    getD_take_drop _ _ _ _ (by omega), getD_take_drop _ _ _ _ (by omega)]
  rfl

theorem dibBuf_eq (file : List Byte) (d : Nat) (hd : 4 ≤ d) :
    (file.drop 14).take 4 ++ (file.drop 18).take (d - 4) = (file.drop 14).take d := by
  have h18 : file.drop 18 = (file.drop 14).drop 4 := by simp
  rw [h18]
  have : d = 4 + (d - 4) := by omega
  conv_rhs => rw [this, List.take_add]

/-- The header half of `load` as a chain of checks on the fields of the file. -/
theorem load_eq (self : BMPImage) (file : List Byte) :
    load self file =
      if file.length < 14 then (.failure .fileHeader, self)
      else if bfType file ≠ 0x4D42 then (.failure .notBmp, self)
      else if file.length < 18 then (.failure .dibSize, self)
      else if biSize file < 40 then (.failure .headerSize, self)
      else if file.length < 14 + biSize file then (.failure .dibHeader, self)
      else if biCompression file ≠ 0 then (.failure .compression, self)
      else if biBitCount file ≠ 24 ∧ biBitCount file ≠ 32 then (.failure .bitDepth, self)
      else if biPlanes file ≠ 1 then (.failure .planes, self)
      else loadImage self file (bfOffBits file) (biWidth file) (biHeight file)
        (biBitCount file) := by
  unfold load
  by_cases h14 : file.length < 14
  · rw [streamRead_of_lt (by omega), if_pos h14]
  rw [streamRead_of_le (by omega), if_neg h14]
  simp only [readU16_take_drop file 0 14 0 (by omega), readU32_take_drop file 0 14 10 (by omega),
    Nat.zero_add]
  by_cases hm : bfType file ≠ 0x4D42
  · rw [if_pos hm]; rw [if_pos]; exact hm
  rw [if_neg hm, if_neg (show ¬ readU16 file 0 ≠ 0x4D42 from hm)]
  by_cases h18 : file.length < 18
  · rw [streamRead_of_lt (by omega), if_pos h18]
  rw [streamRead_of_le (by omega), if_neg h18]
  simp only [readU32_take_drop file 14 4 0 (by omega), Nat.add_zero]
  by_cases hs : biSize file < 40
  · rw [if_pos hs]; rw [if_pos]; exact hs
  rw [if_neg hs, if_neg (show ¬ readU32 file 14 < 40 from hs)]
  have hs2 : 40 ≤ readU32 file 14 := Nat.le_of_not_lt hs
  by_cases hl : file.length < 14 + biSize file
  · rw [streamRead_of_lt (by unfold biSize at hl; omega), if_pos hl]
  rw [streamRead_of_le (by unfold biSize at hl; omega), if_neg hl]
  simp only [dibBuf_eq file _ (show 4 ≤ readU32 file 14 by omega)]
  simp only [readU16_take_drop file 14 _ 12 (show 12 + 2 ≤ readU32 file 14 by omega),
    readU16_take_drop file 14 _ 14 (show 14 + 2 ≤ readU32 file 14 by omega),
    readU32_take_drop file 14 _ 4 (show 4 + 4 ≤ readU32 file 14 by omega),
    readU32_take_drop file 14 _ 8 (show 8 + 4 ≤ readU32 file 14 by omega),
    readU32_take_drop file 14 _ 16 (show 16 + 4 ≤ readU32 file 14 by omega)]
  rfl

theorem toSizeT_natCast (n : Nat) (h : n < 18446744073709551616) : toSizeT (n : Int) = n := by
  unfold toSizeT
  omega

theorem geom_withPixels {self : BMPImage} {W H b : Nat} (g : Geom self W H b) (px : List Byte) :
    Geom { self with pixels := px } W H b :=
  ⟨g.hw, g.hh, g.hb, g.hb34, g.hW, g.hH⟩

theorem mul_lt_bound {y x W H : Nat} (hy : y < H) (hx : x < W) (hW : W < 2147483648)
    (hH : H < 2147483648) : y * W + x < 4611686018427387904 := by
  have h1 : y * W ≤ 2147483647 * 2147483647 := Nat.mul_le_mul (by omega) (by omega)
  omega

theorem row_bound {y x W H : Nat} (hy : y < H) (hx : x < W) : y * W + x < H * W := by
  have h1 : (y + 1) * W ≤ H * W := Nat.mul_le_mul_right W hy
  rw [Nat.succ_mul] at h1
  omega

theorem geom_idx_eq {self : BMPImage} {W H b : Nat} (g : Geom self W H b) {x y : Nat}
    (hx : x < W) (hy : y < H) : self.idx (x : Int) (y : Int) = (y * W + x) * b := by
  have hlt := mul_lt_bound hy hx g.hW g.hH
  have hb := g.hb34
  unfold BMPImage.idx
  rw [g.hw, g.hb, toSizeT_natCast y (by have := g.hH; omega), toSizeT_natCast W (by have := g.hW; omega),
    toSizeT_natCast x (by have := g.hW; omega), toSizeT_natCast b (by omega)]
  apply Nat.mod_eq_of_lt
  rcases hb with rfl | rfl <;> omega

theorem getElem?_set1 {α : Type} (l : List α) (d : Nat) (a : α) (h : d < l.length) (i : Nat) :
    (l.set d a)[i]? = if i = d then some a else l[i]? := by
  rw [List.getElem?_set]
  by_cases hi : i = d
  · subst hi; simp [h]
  · rw [if_neg (fun h => hi h.symm), if_neg hi]

theorem getElem?_set3 {α : Type} (l : List α) (d : Nat) (a0 a1 a2 : α) (h : d + 2 < l.length) (i : Nat) :
    (((l.set d a0).set (d + 1) a1).set (d + 2) a2)[i]? =
      if i = d then some a0 else if i = d + 1 then some a1 else if i = d + 2 then some a2
      else l[i]? := by
  rw [getElem?_set1 _ _ _ (by simp; omega), getElem?_set1 _ _ _ (by simp; omega),
    getElem?_set1 _ _ _ (by omega)]
  by_cases h0 : i = d
  · subst h0; simp
  by_cases h1 : i = d + 1
  · subst h1; simp
  by_cases h2 : i = d + 2
  · subst h2; simp
  simp [h0, h1, h2]

theorem getElem?_set4 {α : Type} (l : List α) (d : Nat) (a0 a1 a2 a3 : α) (h : d + 3 < l.length) (i : Nat) :
    ((((l.set d a0).set (d + 1) a1).set (d + 2) a2).set (d + 3) a3)[i]? =
      if i = d then some a0 else if i = d + 1 then some a1 else if i = d + 2 then some a2
      else if i = d + 3 then some a3 else l[i]? := by
  rw [getElem?_set1 _ _ _ (by simp; omega), getElem?_set3 _ _ _ _ _ (by omega)]
  by_cases h0 : i = d
  · subst h0; simp
  by_cases h1 : i = d + 1
  · subst h1; simp
  by_cases h2 : i = d + 2
  · subst h2; simp
  by_cases h3 : i = d + 3
  · subst h3; simp
  simp [h0, h1, h2, h3]

theorem vecGet_of_lt {v : List Byte} {i : Nat} (h : i < v.length) :
    vecGet v i = some (v.get ⟨i, h⟩) := by
  simp [vecGet, List.getElem?_eq_getElem h]

theorem vecSet_of_lt {v : List Byte} {i : Nat} (a : Byte) (h : i < v.length) :
    vecSet v i a = some (v.set i a) := by
  simp [vecSet, h]

theorem copyPixel_spec {self : BMPImage} {W H b : Nat} (g : Geom self W H b) {x D : Nat}
    (hx : x < W) (hD : D < H) (px rowBuf : List Byte) (hpx : px.length = W * H * b)
    (hrow : W * b ≤ rowBuf.length) :
    ∃ px1, copyPixel self b rowBuf (D : Int) px x = some px1 ∧ px1.length = px.length ∧
      ∀ i, px1[i]? = if (D * W + x) * b ≤ i ∧ i < (D * W + x) * b + b
        then rowBuf[x * b + (i - (D * W + x) * b)]? else px[i]? := by
  have hidx := geom_idx_eq (geom_withPixels g px) hx hD
  have hrb := row_bound hD hx
  have hWH : W * H = H * W := Nat.mul_comm _ _
  have hs : (toSizeT (x : Int) * b) % 18446744073709551616 = x * b := by
    rw [toSizeT_natCast x (by have := g.hW; omega)]
    apply Nat.mod_eq_of_lt
    have := g.hW
    rcases g.hb34 with rfl | rfl <;> omega
  unfold copyPixel
  simp only [hidx, hs]
  clear hidx hs
  generalize (D * W + x) = q at *
  rcases g.hb34 with rfl | rfl
  · have h1 : q * 3 + 2 < px.length := by rw [hpx, hWH]; omega
    simp only [Nat.add_zero, vecGet_of_lt (show x * 3 < rowBuf.length by omega),
      vecGet_of_lt (show x * 3 + 1 < rowBuf.length by omega),
      vecGet_of_lt (show x * 3 + 2 < rowBuf.length by omega),
      Option.bind_eq_bind, Option.some_bind, Option.pure_def]
    rw [vecSet_of_lt _ (by omega)]
    simp only [Option.some_bind]
    rw [vecSet_of_lt _ (by simp; omega)]
    simp only [Option.some_bind]
    rw [vecSet_of_lt _ (by simp; omega)]
    refine ⟨_, rfl, by simp, ?_⟩
    intro i
    rw [getElem?_set3 _ _ _ _ _ h1]
    by_cases h0 : i = q * 3
    · subst h0; simp [List.getElem?_eq_getElem (show x * 3 < rowBuf.length by omega)]
    by_cases h1 : i = q * 3 + 1
    · subst h1; simp [List.getElem?_eq_getElem (show x * 3 + 1 < rowBuf.length by omega)]
    by_cases h2 : i = q * 3 + 2
    · subst h2; simp [List.getElem?_eq_getElem (show x * 3 + 2 < rowBuf.length by omega)]
    rw [if_neg h0, if_neg h1, if_neg h2, if_neg (by omega)]
  · have h1 : q * 4 + 3 < px.length := by rw [hpx, hWH]; omega
    simp only [Nat.add_zero, vecGet_of_lt (show x * 4 < rowBuf.length by omega),
      vecGet_of_lt (show x * 4 + 1 < rowBuf.length by omega),
      vecGet_of_lt (show x * 4 + 2 < rowBuf.length by omega),
      vecGet_of_lt (show x * 4 + 3 < rowBuf.length by omega),
      Option.bind_eq_bind, Option.some_bind, Option.pure_def]
    rw [vecSet_of_lt _ (by omega)]
    simp only [Option.some_bind]
    rw [vecSet_of_lt _ (by simp; omega)]
    simp only [Option.some_bind]
    rw [vecSet_of_lt _ (by simp; omega)]
    simp only [Option.some_bind, if_true]
    rw [vecSet_of_lt _ (by simp; omega)]
    refine ⟨_, rfl, by simp, ?_⟩
    intro i
    rw [getElem?_set4 _ _ _ _ _ _ h1]
    by_cases h0 : i = q * 4
    · subst h0; simp [List.getElem?_eq_getElem (show x * 4 < rowBuf.length by omega)]
    by_cases h1 : i = q * 4 + 1
    · subst h1; simp [List.getElem?_eq_getElem (show x * 4 + 1 < rowBuf.length by omega)]
    by_cases h2 : i = q * 4 + 2
    · subst h2; simp [List.getElem?_eq_getElem (show x * 4 + 2 < rowBuf.length by omega)]
    by_cases h3 : i = q * 4 + 3
    · subst h3; simp [List.getElem?_eq_getElem (show x * 4 + 3 < rowBuf.length by omega)]
    rw [if_neg h0, if_neg h1, if_neg h2, if_neg h3, if_neg (by omega)]

theorem copyRow_prefix {self : BMPImage} {W H b : Nat} (g : Geom self W H b) {D : Nat}
    (hD : D < H) (px rowBuf : List Byte) (hpx : px.length = W * H * b)
    (hrow : W * b ≤ rowBuf.length) (k : Nat) (hk : k ≤ W) :
    ∃ px1, (List.range k).foldlM (copyPixel self b rowBuf (D : Int)) px = some px1 ∧
      px1.length = px.length ∧
      ∀ i, px1[i]? = if D * W * b ≤ i ∧ i < D * W * b + k * b
        then rowBuf[i - D * W * b]? else px[i]? := by
  induction k with
  | zero =>
    refine ⟨px, by simp, rfl, ?_⟩
    intro i
    rw [if_neg (by omega)]
  | succ k ih =>
    obtain ⟨pxk, hfold, hlen, hget⟩ := ih (by omega)
    obtain ⟨px1, hcp, hlen1, hget1⟩ :=
      copyPixel_spec g (show k < W by omega) hD pxk rowBuf (by rw [hlen, hpx]) hrow
    refine ⟨px1, ?_, by rw [hlen1, hlen], ?_⟩
    · rw [List.range_succ, List.foldlM_append, hfold]
      simp [hcp]
    · intro i
      rw [hget1 i, hget i]
      have hb := g.hb34
      clear hget hget1 hcp hfold g
      rcases hb with rfl | rfl
      · by_cases hc : (D * W + k) * 3 ≤ i ∧ i < (D * W + k) * 3 + 3
        · rw [if_pos hc, if_pos (by omega)]
          congr 1; omega
        · rw [if_neg hc]
          by_cases hc2 : D * W * 3 ≤ i ∧ i < D * W * 3 + k * 3
          · rw [if_pos hc2, if_pos (by omega)]
          · rw [if_neg hc2, if_neg (by omega)]
      · by_cases hc : (D * W + k) * 4 ≤ i ∧ i < (D * W + k) * 4 + 4
        · rw [if_pos hc, if_pos (by omega)]
          congr 1; omega
        · rw [if_neg hc]
          by_cases hc2 : D * W * 4 ≤ i ∧ i < D * W * 4 + k * 4
          · rw [if_pos hc2, if_pos (by omega)]
          · rw [if_neg hc2, if_neg (by omega)]

theorem copyRow_spec {self : BMPImage} {W H b : Nat} (g : Geom self W H b) {D : Nat}
    (hD : D < H) (px rowBuf : List Byte) (hpx : px.length = W * H * b)
    (hrow : W * b ≤ rowBuf.length) :
    ∃ px1, copyRow self b rowBuf (D : Int) px = some px1 ∧
      px1.length = px.length ∧
      ∀ i, px1[i]? = if D * W * b ≤ i ∧ i < D * W * b + W * b
        then rowBuf[i - D * W * b]? else px[i]? := by
  unfold copyRow
  rw [g.hw, Int.toNat_ofNat]
  exact copyRow_prefix g hD px rowBuf hpx hrow W (Nat.le_refl _)

theorem fileRow_lt {td : Bool} {H y : Nat} (hy : y < H) : fileRow td H y < H := by
  unfold fileRow; split <;> omega

theorem fileRow_fileRow {td : Bool} {H y : Nat} (hy : y < H) :
    fileRow td H (fileRow td H y) = y := by
  unfold fileRow; split <;> omega

theorem getElem?_streamRow (file : List Byte) (pos size j : Nat) (hj : j < size) :
    ((file.drop pos).take size)[j]? = file[pos + j]? := by
  rw [List.getElem?_take, if_pos hj, List.getElem?_drop]

theorem loadRows_ok {self : BMPImage} {W H b : Nat} (g : Geom self W H b) (file : List Byte)
    (size off : Nat) (hsize : W * b ≤ size) (hlen : off + H * size ≤ file.length) :
    ∀ (n row : Nat) (px : List Byte), row + n = H → px.length = W * H * b →
    ∃ px1, loadRows self file b size n row (off + row * size) px = (.success, px1) ∧
      px1.length = px.length ∧
      ∀ y x c, y < H → x < W → c < b →
        px1[(y * W + x) * b + c]? =
          if row ≤ fileRow self.topDown H y
          then file[off + fileRow self.topDown H y * size + x * b + c]?
          else px[(y * W + x) * b + c]? := by
  intro n
  induction n with
  | zero =>
    intro row px hrow hpx
    refine ⟨px, rfl, rfl, ?_⟩
    intro y x c hy hx hc
    have := @fileRow_lt self.topDown H y hy
    rw [if_neg (by omega)]
  | succ n ih =>
    intro row px hrow hpx
    have hrowlt : row < H := by omega
    have hmul : (row + 1) * size ≤ H * size := Nat.mul_le_mul_right size hrowlt
    rw [Nat.succ_mul] at hmul
    have hD : fileRow self.topDown H row < H := fileRow_lt hrowlt
    have hdst : (if self.topDown then (row : Int) else self.height - 1 - (row : Int))
        = ((fileRow self.topDown H row : Nat) : Int) := by
      unfold fileRow
      rw [g.hh]
      split
      · rfl
      · omega
    obtain ⟨px1, hcp, hlen1, hget1⟩ := copyRow_spec g hD px
      ((file.drop (off + row * size)).take size) hpx
      (by rw [List.length_take, List.length_drop]; omega)
    obtain ⟨px2, hrec, hlen2, hget2⟩ := ih (row + 1) px1 (by omega) (by rw [hlen1, hpx])
    refine ⟨px2, ?_, by rw [hlen2, hlen1], ?_⟩
    · unfold loadRows
      rw [streamRead_of_le (by omega)]
      simp only [hdst, hcp]
      have hpos : off + row * size + size = off + (row + 1) * size := by
        rw [Nat.succ_mul]; omega
      rw [hpos]
      exact hrec
    · intro y x c hy hx hc
      rw [hget2 y x c hy hx hc, hget1]
      have hfy : fileRow self.topDown H y < H := fileRow_lt hy
      have hb := g.hb34
      by_cases hyD : y = fileRow self.topDown H row
      · have hfr : fileRow self.topDown H y = row := by rw [hyD]; exact fileRow_fileRow hrowlt
        rw [hfr, if_neg (by omega), if_pos (Nat.le_refl _)]
        rw [← hyD]
        clear hget1 hget2 hrec hcp g ih hdst
        rcases hb with rfl | rfl
        · rw [if_pos (by omega), getElem?_streamRow _ _ _ _ (by omega)]
          congr 1; omega
        · rw [if_pos (by omega), getElem?_streamRow _ _ _ _ (by omega)]
          congr 1; omega
      · have hne : fileRow self.topDown H y ≠ row := by
          intro h; apply hyD; rw [← h]; exact (fileRow_fileRow hy).symm
        have hcond : (row + 1 ≤ fileRow self.topDown H y) ↔ (row ≤ fileRow self.topDown H y) := by
          omega
        have hout : ¬ (fileRow self.topDown H row * W * b ≤ (y * W + x) * b + c ∧
            (y * W + x) * b + c < fileRow self.topDown H row * W * b + W * b) := by
          generalize fileRow self.topDown H row = D at *
          clear hget1 hget2 hrec hcp g ih hdst hcond hne
          rcases Nat.lt_or_gt_of_ne hyD with h | h
          · have h1 : (y + 1) * W ≤ D * W := Nat.mul_le_mul_right W h
            rw [Nat.succ_mul] at h1
            rcases hb with rfl | rfl <;> omega
          · have h1 : (D + 1) * W ≤ y * W := Nat.mul_le_mul_right W h
            rw [Nat.succ_mul] at h1
            rcases hb with rfl | rfl <;> omega
        rw [if_neg hout]
        by_cases hc1 : row ≤ fileRow self.topDown H y
        · rw [if_pos hc1, if_pos (hcond.mpr hc1)]
        · rw [if_neg hc1, if_neg (fun h => hc1 (hcond.mp h))]

theorem loadRows_short {self : BMPImage} {W H b : Nat} (g : Geom self W H b) (file : List Byte)
    (size off : Nat) (hsize : W * b ≤ size) :
    ∀ (n row : Nat) (px : List Byte), row + n ≤ H → px.length = W * H * b →
    off + row * size ≤ file.length → file.length < off + (row + n) * size →
    ∃ px1, loadRows self file b size n row (off + row * size) px = (.failure .pixelRow, px1) ∧
      px1.length = px.length := by
  intro n
  induction n with
  | zero =>
    intro row px hrow hpx hin hshort
    exfalso
    rw [Nat.add_zero] at hshort
    omega
  | succ n ih =>
    intro row px hrow hpx hin hshort
    have hrowlt : row < H := by omega
    have hpos : off + row * size + size = off + (row + 1) * size := by
      rw [Nat.succ_mul]; omega
    by_cases hread : off + row * size + size ≤ file.length
    · have hD : fileRow self.topDown H row < H := fileRow_lt hrowlt
      have hdst : (if self.topDown then (row : Int) else self.height - 1 - (row : Int))
          = ((fileRow self.topDown H row : Nat) : Int) := by
        unfold fileRow
        rw [g.hh]
        split
        · rfl
        · omega
      obtain ⟨px1, hcp, hlen1, _⟩ := copyRow_spec g hD px
        ((file.drop (off + row * size)).take size) hpx
        (by rw [List.length_take, List.length_drop]; omega)
      obtain ⟨px2, hrec, hlen2⟩ := ih (row + 1) px1 (by omega) (by rw [hlen1, hpx])
        (by rw [← hpos]; exact hread) (by rw [show row + 1 + n = row + (n + 1) by omega]; exact hshort)
      refine ⟨px2, ?_, by rw [hlen2, hlen1]⟩
      unfold loadRows
      rw [streamRead_of_le hread]
      simp only [hdst, hcp]
      rw [hpos]
      exact hrec
    · refine ⟨px, ?_, rfl⟩
      unfold loadRows
      rw [streamRead_of_lt (by omega)]

theorem int32_of_isInt32 {v : Int} (h : isInt32 v) : int32 v = some v := by
  simp [int32, h]

theorem int32_of_not {v : Int} (h : ¬ isInt32 v) : int32 v = none := by
  simp [int32, h]

theorem rowStride_three (W : Nat) :
    ((W : Int) * 3 + (4 - ((W : Int) * 3).tmod 4).tmod 4) = ((rowStride W 3 : Nat) : Int) := by
  have h1 : ((W : Int) * 3).tmod 4 = ((W : Int) * 3) % 4 := Int.tmod_eq_emod (by omega) (by omega)
  rw [h1]
  have h2 : (4 - ((W : Int) * 3) % 4).tmod 4 = (4 - ((W : Int) * 3) % 4) % 4 :=
    Int.tmod_eq_emod (by omega) (by omega)
  rw [h2]
  unfold rowStride
  omega

theorem rowStride_four (W : Nat) : rowStride W 4 = W * 4 := by
  unfold rowStride; omega

theorem le_rowStride (W b : Nat) : W * b ≤ rowStride W b := by
  unfold rowStride; omega

theorem loadImage_eq (self : BMPImage) (file : List Byte) (off W H : Nat) (td : Bool)
    (bc b : Nat) (hW : 0 < W) (hW2 : W < 2147483648) (hH : 0 < H) (hH2 : H < 2147483648)
    (hbc : (bc = 24 ∧ b = 3) ∨ (bc = 32 ∧ b = 4))
    (hfit : b = 3 → rowStride W 3 ≤ 2147483647) :
    loadImage self file off (W : Int) (if td then -(H : Int) else (H : Int)) bc =
      ((loadRows ⟨W, H, td, b, List.replicate (W * H * b) 0⟩ file b (rowStride W b) H 0 off
          (List.replicate (W * H * b) 0)).1,
       ⟨W, H, td, b, (loadRows ⟨W, H, td, b, List.replicate (W * H * b) 0⟩ file b
          (rowStride W b) H 0 off (List.replicate (W * H * b) 0)).2⟩) := by
  have hcount : ∀ b : Nat, b ≤ 4 → (toSizeT (W : Int) * toSizeT (H : Int) * toSizeT (b : Int))
      % 18446744073709551616 = W * H * b := by
    intro b hb
    rw [toSizeT_natCast W (by omega), toSizeT_natCast H (by omega), toSizeT_natCast b (by omega)]
    apply Nat.mod_eq_of_lt
    have h1 : W * H ≤ 2147483647 * 2147483647 := Nat.mul_le_mul (by omega) (by omega)
    have h2 : W * H * b ≤ 2147483647 * 2147483647 * 4 := Nat.mul_le_mul h1 hb
    omega
  have hc3 : (toSizeT (W : Int) * toSizeT (H : Int) * toSizeT 3) % 18446744073709551616
      = W * H * 3 := hcount 3 (by omega)
  have hc4 : (toSizeT (W : Int) * toSizeT (H : Int) * toSizeT 4) % 18446744073709551616
      = W * H * 4 := hcount 4 (by omega)
  clear hcount
  unfold loadImage
  rcases hbc with ⟨rfl, rfl⟩ | ⟨rfl, rfl⟩
  · have hs := rowStride_three W
    have hf := hfit rfl
    have hle := le_rowStride W 3
    cases td
    · simp only [Bool.false_eq_true, if_false, show ¬ ((H : Int) < 0) by omega, seekg,
        show ¬ ((W : Int) ≤ 0 ∨ (H : Int) ≤ 0) by omega, hc3, Int.toNat_ofNat,
        show ((24 / 8 : Nat) : Int) = 3 from rfl, if_true]
      rw [int32_of_isInt32 (by unfold isInt32; omega)]
      simp only [hs]
      rw [int32_of_isInt32 (by unfold isInt32; omega)]
      simp only [toSizeT_natCast _ (show rowStride W 3 < 18446744073709551616 by omega)]
    · simp only [if_true, show ((-(H : Int)) < 0) by omega, seekg, Int.neg_neg,
        int32_of_isInt32 (show isInt32 (H : Int) by unfold isInt32; omega), Option.map_some',
        show ¬ ((W : Int) ≤ 0 ∨ (H : Int) ≤ 0) by omega, hc3, Int.toNat_ofNat,
        show ((24 / 8 : Nat) : Int) = 3 from rfl, if_false]
      rw [int32_of_isInt32 (by unfold isInt32; omega)]
      simp only [hs]
      rw [int32_of_isInt32 (by unfold isInt32; omega)]
      simp only [toSizeT_natCast _ (show rowStride W 3 < 18446744073709551616 by omega)]
  · have hsz : (toSizeT (W : Int) * 4) % 18446744073709551616 = rowStride W 4 := by
      rw [toSizeT_natCast W (by omega), rowStride_four]
      apply Nat.mod_eq_of_lt
      omega
    cases td
    · simp only [Bool.false_eq_true, if_false, show ¬ ((H : Int) < 0) by omega, seekg,
        show ¬ ((W : Int) ≤ 0 ∨ (H : Int) ≤ 0) by omega, hc4, Int.toNat_ofNat,
        show ((32 / 8 : Nat) : Int) = 4 from rfl, show ¬ ((4 : Int) = 3) by omega, hsz]
    · simp only [if_true, show ((-(H : Int)) < 0) by omega, seekg, Int.neg_neg,
        int32_of_isInt32 (show isInt32 (H : Int) by unfold isInt32; omega), Option.map_some',
        show ¬ ((W : Int) ≤ 0 ∨ (H : Int) ≤ 0) by omega, hc4, Int.toNat_ofNat,
        show ((32 / 8 : Nat) : Int) = 4 from rfl, show ¬ ((4 : Int) = 3) by omega, hsz, if_false]

theorem readU32_lt (buf : List Byte) (o : Nat) : readU32 buf o < 4294967296 := by
  unfold readU32
  have h0 := (buf.getD o 0).isLt
  have h1 := (buf.getD (o + 1) 0).isLt
  have h2 := (buf.getD (o + 2) 0).isLt
  have h3 := (buf.getD (o + 3) 0).isLt
  omega

theorem toI32_range (u : Nat) (h : u < 4294967296) :
    -2147483648 ≤ toI32 u ∧ toI32 u ≤ 2147483647 := by
  unfold toI32; split <;> omega

theorem biWidth_range (file : List Byte) :
    -2147483648 ≤ biWidth file ∧ biWidth file ≤ 2147483647 :=
  toI32_range _ (readU32_lt _ _)

theorem biHeight_range (file : List Byte) :
    -2147483648 ≤ biHeight file ∧ biHeight file ≤ 2147483647 :=
  toI32_range _ (readU32_lt _ _)

/-- What `HeaderOk` says about the decoded geometry. -/
theorem headerOk_geom {file : List Byte} (h : HeaderOk file) :
    0 < fileWidth file ∧ fileWidth file < 2147483648 ∧ 0 < fileHeight file ∧
    fileHeight file < 2147483648 ∧ biWidth file = (fileWidth file : Int) ∧
    biHeight file = (if fileTopDown file then -(fileHeight file : Int) else (fileHeight file : Int)) ∧
    ((biBitCount file = 24 ∧ fileBpp file = 3) ∨ (biBitCount file = 32 ∧ fileBpp file = 4)) := by
  obtain ⟨_, _, _, _, hbc, _, hw, hh0, hhmin⟩ := h
  have hwr := biWidth_range file
  have hhr := biHeight_range file
  unfold fileWidth fileHeight fileTopDown fileBpp
  refine ⟨by omega, by omega, by omega, by omega, by omega, ?_, ?_⟩
  · by_cases hneg : biHeight file < 0
    · simp only [hneg, decide_True, if_true]; omega
    · simp only [hneg, decide_False, Bool.false_eq_true, if_false]; omega
  · rcases hbc with h | h
    · left; exact ⟨h, by rw [h]⟩
    · right; exact ⟨h, by rw [h]⟩

theorem load_of_headerOk (self : BMPImage) {file : List Byte} (h : HeaderOk file) :
    load self file = loadImage self file (bfOffBits file) (biWidth file) (biHeight file)
      (biBitCount file) := by
  obtain ⟨hlen, hm, hs, hc, hbc, hp, _, _, _⟩ := h
  rw [load_eq]
  rw [if_neg (by omega), if_neg (by simp [hm]), if_neg (by omega), if_neg (by omega),
    if_neg (by omega), if_neg (by simp [hc]), if_neg (by omega), if_neg (by simp [hp])]

theorem decoded_geom {file : List Byte} (h : HeaderOk file) (px : List Byte) :
    Geom (decoded file px) (fileWidth file) (fileHeight file) (fileBpp file) := by
  obtain ⟨_, hW, _, hH, _, _, hb⟩ := headerOk_geom h
  exact ⟨rfl, rfl, rfl, by omega, hW, hH⟩

theorem load_rows (self : BMPImage) {file : List Byte} (h : HeaderOk file) (hfit : RowFits file) :
    load self file =
      ((loadRows (decoded file (List.replicate (fileWidth file * fileHeight file * fileBpp file) 0))
          file (fileBpp file) (fileStride file) (fileHeight file) 0 (bfOffBits file)
          (List.replicate (fileWidth file * fileHeight file * fileBpp file) 0)).1,
       decoded file (loadRows
          (decoded file (List.replicate (fileWidth file * fileHeight file * fileBpp file) 0))
          file (fileBpp file) (fileStride file) (fileHeight file) 0 (bfOffBits file)
          (List.replicate (fileWidth file * fileHeight file * fileBpp file) 0)).2) := by
  obtain ⟨hW0, hW, hH0, hH, hw, hh, hb⟩ := headerOk_geom h
  rw [load_of_headerOk self h, hw, hh]
  rw [loadImage_eq self file (bfOffBits file) (fileWidth file) (fileHeight file)
    (fileTopDown file) (biBitCount file) (fileBpp file) hW0 hW hH0 hH hb]
  · rfl
  · intro hb3
    apply hfit
    rcases hb with ⟨h24, _⟩ | ⟨_, h4⟩
    · exact h24
    · omega

theorem load_ok (self : BMPImage) {file : List Byte} (h : HeaderOk file) (hfit : RowFits file)
    (hlen : bfOffBits file + fileHeight file * fileStride file ≤ file.length) :
    ∃ px, load self file = (.success, decoded file px) ∧
      px.length = fileWidth file * fileHeight file * fileBpp file ∧
      ∀ y x c, y < fileHeight file → x < fileWidth file → c < fileBpp file →
        px[(y * fileWidth file + x) * fileBpp file + c]? =
          file[bfOffBits file + fileRow (fileTopDown file) (fileHeight file) y * fileStride file
            + x * fileBpp file + c]? := by
  rw [load_rows self h hfit]
  obtain ⟨px, hrun, hlen1, hget⟩ := loadRows_ok (decoded_geom h _) file (fileStride file)
    (bfOffBits file) (le_rowStride _ _) hlen (fileHeight file) 0
    (List.replicate (fileWidth file * fileHeight file * fileBpp file) 0) (by omega) (by simp)
  rw [Nat.zero_mul, Nat.add_zero] at hrun
  refine ⟨px, by rw [hrun], by rw [hlen1]; simp, ?_⟩
  intro y x c hy hx hc
  rw [hget y x c hy hx hc, if_pos (Nat.zero_le _)]
  rfl

theorem loadRows_beyond (self : BMPImage) (file : List Byte) (b size n row pos : Nat)
    (px : List Byte) (hn : 0 < n) (hpos : file.length < pos + size) :
    loadRows self file b size n row pos px = (.failure .pixelRow, px) := by
  obtain ⟨k, rfl⟩ : ∃ k, n = k + 1 := ⟨n - 1, by omega⟩
  unfold loadRows
  rw [streamRead_of_lt hpos]

theorem load_short (self : BMPImage) {file : List Byte} (h : HeaderOk file) (hfit : RowFits file)
    (hlen : file.length < bfOffBits file + fileHeight file * fileStride file) :
    ∃ px, load self file = (.failure .pixelRow, decoded file px) ∧
      px.length = fileWidth file * fileHeight file * fileBpp file := by
  rw [load_rows self h hfit]
  by_cases hoff : bfOffBits file ≤ file.length
  · obtain ⟨px, hrun, hlen1⟩ := loadRows_short (decoded_geom h _) file (fileStride file)
      (bfOffBits file) (le_rowStride _ _) (fileHeight file) 0
      (List.replicate (fileWidth file * fileHeight file * fileBpp file) 0) (by omega) (by simp)
      (by omega) (by rw [Nat.zero_add]; exact hlen)
    rw [Nat.zero_mul, Nat.add_zero] at hrun
    exact ⟨px, by rw [hrun], by rw [hlen1]; simp⟩
  · rw [loadRows_beyond _ _ _ _ _ _ _ _ (headerOk_geom h).2.2.1 (by omega)]
    exact ⟨_, rfl, by simp⟩

theorem loadImage_intMin (self : BMPImage) (file : List Byte) (off : Nat) (w : Int) (bc : Nat) :
    loadImage self file off w (-2147483648) bc =
      (.undefined, { self with width := w, topDown := false }) := by
  unfold loadImage
  simp [int32, isInt32]

theorem loadImage_dims (self : BMPImage) (file : List Byte) (off : Nat) (w h : Int) (bc : Nat)
    (hr : -2147483648 < h ∧ h ≤ 2147483647) (hbad : w ≤ 0 ∨ h = 0) :
    loadImage self file off w h bc =
      (.failure .dimensions,
        ⟨w, |h|, decide (h < 0), ((bc / 8 : Nat) : Int), self.pixels⟩) := by
  unfold loadImage
  by_cases hneg : h < 0
  · have habs : |h| = -h := abs_of_neg hneg
    have hc : w ≤ 0 ∨ -h ≤ 0 := by omega
    simp only [hneg, if_true, int32_of_isInt32 (show isInt32 (-h) by unfold isInt32; omega),
      Option.map_some', hc, habs, decide_True]
  · have habs : |h| = h := abs_of_nonneg (by omega)
    have hc : w ≤ 0 ∨ h ≤ 0 := by omega
    simp only [hneg, if_false, hc, habs, decide_False, if_true]

theorem loadImage_overflow (self : BMPImage) (file : List Byte) (off W H : Nat) (td : Bool)
    (hW : 0 < W) (hW2 : W < 2147483648) (hH : 0 < H) (hH2 : H < 2147483648)
    (hbig : 2147483647 < rowStride W 3) :
    loadImage self file off (W : Int) (if td then -(H : Int) else (H : Int)) 24 =
      (.undefined, ⟨W, H, td, 3, List.replicate (W * H * 3) 0⟩) := by
  have hc3 : (toSizeT (W : Int) * toSizeT (H : Int) * toSizeT 3) % 18446744073709551616
      = W * H * 3 := by
    rw [toSizeT_natCast W (by omega), toSizeT_natCast H (by omega),
      show toSizeT 3 = 3 from toSizeT_natCast 3 (by omega)]
    apply Nat.mod_eq_of_lt
    have h1 : W * H ≤ 2147483647 * 2147483647 := Nat.mul_le_mul (by omega) (by omega)
    omega
  have hs := rowStride_three W
  unfold loadImage
  cases td
  · simp only [Bool.false_eq_true, if_false, show ¬ ((H : Int) < 0) by omega, seekg,
      show ¬ ((W : Int) ≤ 0 ∨ (H : Int) ≤ 0) by omega, hc3, Int.toNat_ofNat,
      show ((24 / 8 : Nat) : Int) = 3 from rfl, if_true]
    by_cases h3 : isInt32 ((W : Int) * 3)
    · rw [int32_of_isInt32 h3]
      simp only [hs]
      rw [int32_of_not (by unfold isInt32; omega)]
    · rw [int32_of_not h3]
  · simp only [if_true, show ((-(H : Int)) < 0) by omega, seekg, Int.neg_neg,
      int32_of_isInt32 (show isInt32 (H : Int) by unfold isInt32; omega), Option.map_some',
      show ¬ ((W : Int) ≤ 0 ∨ (H : Int) ≤ 0) by omega, hc3, Int.toNat_ofNat,
      show ((24 / 8 : Nat) : Int) = 3 from rfl, if_false]
    by_cases h3 : isInt32 ((W : Int) * 3)
    · rw [int32_of_isInt32 h3]
      simp only [hs]
      rw [int32_of_not (by unfold isInt32; omega)]
    · rw [int32_of_not h3]

theorem load_overflow (self : BMPImage) {file : List Byte} (h : HeaderOk file)
    (hfit : ¬ RowFits file) :
    load self file = (.undefined,
      decoded file (List.replicate (fileWidth file * fileHeight file * fileBpp file) 0)) := by
  obtain ⟨hW0, hW, hH0, hH, hw, hh, hb⟩ := headerOk_geom h
  unfold RowFits at hfit
  have h24 : biBitCount file = 24 := by
    by_contra hne; exact hfit (fun h => absurd h hne)
  have hbig : 2147483647 < rowStride (fileWidth file) 3 := by
    by_contra hle; exact hfit (fun _ => by omega)
  have hb3 : fileBpp file = 3 := by unfold fileBpp; rw [h24]
  rw [load_of_headerOk self h, hw, hh, h24,
    loadImage_overflow self file _ _ _ _ hW0 hW hH0 hH hbig]
  unfold decoded
  rw [hb3]
  rfl

/-- When the checks on the headers do not all pass, `load` does not succeed. -/
theorem load_not_headerOk (self : BMPImage) {file : List Byte} (h : ¬ HeaderOk file) :
    (load self file).1 ≠ .success := by
  rw [load_eq]
  split_ifs with h1 h2 h3 h4 h5 h6 h7 h8 <;> try (simp; done)
  by_cases hmin : biHeight file = -2147483648
  · rw [hmin, loadImage_intMin]; simp
  · have hr := biHeight_range file
    rw [loadImage_dims self file _ _ _ _ (by omega)]
    · simp
    · by_contra hgood
      apply h
      unfold HeaderOk
      refine ⟨by omega, by simpa using h2, by omega, by simpa using h6, by omega,
        by simpa using h8, by omega, by omega, hmin⟩

theorem load_success_iff (self : BMPImage) (file : List Byte) :
    (load self file).1 = .success ↔
      HeaderOk file ∧ RowFits file ∧
        bfOffBits file + fileHeight file * fileStride file ≤ file.length := by
  constructor
  · intro hs
    by_cases h : HeaderOk file
    · by_cases hfit : RowFits file
      · by_cases hlen : bfOffBits file + fileHeight file * fileStride file ≤ file.length
        · exact ⟨h, hfit, hlen⟩
        · obtain ⟨px, hl, _⟩ := load_short self h hfit (by omega)
          rw [hl] at hs; simp at hs
      · rw [load_overflow self h hfit] at hs; simp at hs
    · exact absurd hs (load_not_headerOk self h)
  · rintro ⟨h, hfit, hlen⟩
    obtain ⟨px, hl, _⟩ := load_ok self h hfit hlen
    rw [hl]

/-! ## The rejection set -/

theorem bfType_eq_iff (file : List Byte) :
    bfType file = 0x4D42 ↔ (file.getD 0 0 = 0x42 ∧ file.getD 1 0 = 0x4D) := by
  unfold bfType readU16
  have h0 := (file.getD 0 0).isLt
  have h1 := (file.getD 1 0).isLt
  rw [Nat.zero_add]
  constructor
  · intro h
    constructor
    · apply Fin.ext
      show (file.getD 0 0).val = 66
      omega
    · apply Fin.ext
      show (file.getD 1 0).val = 77
      omega
  · rintro ⟨a, b⟩
    rw [a, b]
    rfl

theorem wideHeader_fields (rest : List Byte) :
    bfType (wideHeader ++ rest) = 0x4D42 ∧ bfOffBits (wideHeader ++ rest) = 54 ∧
    biSize (wideHeader ++ rest) = 40 ∧ biWidth (wideHeader ++ rest) = 715827883 ∧
    biHeight (wideHeader ++ rest) = 1 ∧ biPlanes (wideHeader ++ rest) = 1 ∧
    biBitCount (wideHeader ++ rest) = 24 ∧ biCompression (wideHeader ++ rest) = 0 := by
  refine ⟨?_, ?_, ?_, ?_, ?_, ?_, ?_, ?_⟩ <;>
    simp [wideHeader, bfType, bfOffBits, biSize, biWidth, biHeight, biPlanes, biBitCount,
      biCompression, readU16, readU32, toI32] <;> rfl

theorem wideFile_length : wideFile.length = 2147483706 := by
  unfold wideFile
  rw [List.length_append, List.length_replicate]
  rfl

/-- C5. Rejection set: (i) a buffer of fewer than 14 bytes is rejected as
Truncated; (ii) a buffer of at least 14 bytes whose first two bytes are not
0x42, 0x4D is rejected as NotABmp, whatever the other bytes; (iii) a buffer
with the magic, a fully present DIB header of declared size at least 40 and
compression field 1 is rejected as UnsupportedCompression; (iv) such a buffer
with compression 0 and bit count 8 is rejected as UnsupportedBitDepth.  Each
time `load` ends in a failure, so never in success. -/
theorem C5_rejection_set (self : BMPImage) (file : List Byte) :
    (file.length < 14 → rejectedAs (load self file).1 .Truncated) ∧
    (14 ≤ file.length → ¬ (file.getD 0 0 = 0x42 ∧ file.getD 1 0 = 0x4D) →
      rejectedAs (load self file).1 .NotABmp) ∧
    ((file.getD 0 0 = 0x42 ∧ file.getD 1 0 = 0x4D) → 40 ≤ biSize file →
      14 + biSize file ≤ file.length → biCompression file = 1 →
      rejectedAs (load self file).1 .UnsupportedCompression) ∧
    ((file.getD 0 0 = 0x42 ∧ file.getD 1 0 = 0x4D) → 40 ≤ biSize file →
      14 + biSize file ≤ file.length → biCompression file = 0 → biBitCount file = 8 →
      rejectedAs (load self file).1 .UnsupportedBitDepth) := by
  refine ⟨?_, ?_, ?_, ?_⟩
  · intro h
    rw [load_eq, if_pos h]
    exact ⟨.fileHeader, rfl, rfl⟩
  · intro h hm
    rw [load_eq, if_neg (by omega), if_pos (fun hb => hm ((bfType_eq_iff file).mp hb))]
    exact ⟨.notBmp, rfl, rfl⟩
  · intro hm hs hl hc
    have hb := (bfType_eq_iff file).mpr hm
    rw [load_eq, if_neg (by omega), if_neg (by simp [hb]), if_neg (by omega), if_neg (by omega),
      if_neg (by omega), if_pos (by omega)]
    exact ⟨.compression, rfl, rfl⟩
  · intro hm hs hl hc hbc
    have hb := (bfType_eq_iff file).mpr hm
    rw [load_eq, if_neg (by omega), if_neg (by simp [hb]), if_neg (by omega), if_neg (by omega),
      if_neg (by omega), if_neg (by simp [hc]), if_pos (by omega)]
    exact ⟨.bitDepth, rfl, rfl⟩

/-- C5 at four files: the empty file, fourteen zero bytes, headers declaring
compression 1, headers declaring 8 bits per pixel. -/
theorem C5_rejection_set_witness :
    rejectedAs (load BMPImage.new []).1 .Truncated ∧
    rejectedAs (load BMPImage.new (List.replicate 14 0)).1 .NotABmp ∧
    rejectedAs (load BMPImage.new compressedFile).1 .UnsupportedCompression ∧
    rejectedAs (load BMPImage.new paletteFile).1 .UnsupportedBitDepth :=
  ⟨(C5_rejection_set BMPImage.new []).1 (by decide),
   (C5_rejection_set BMPImage.new (List.replicate 14 0)).2.1 (by decide) (by decide),
   (C5_rejection_set BMPImage.new compressedFile).2.2.1 (by decide) (by decide) (by decide)
     (by decide),
   (C5_rejection_set BMPImage.new paletteFile).2.2.2 (by decide) (by decide) (by decide)
     (by decide) (by decide)⟩

/-! ## The pixel mapping of `load` -/

theorem pix_index_lt {W H b y x c : Nat} (hy : y < H) (hx : x < W) (hc : c < b) :
    (y * W + x) * b + c < W * H * b := by
  have h1 := row_bound hy hx
  have h2 : (y * W + x + 1) * b ≤ H * W * b := Nat.mul_le_mul_right b h1
  rw [Nat.succ_mul] at h2
  rw [Nat.mul_comm W H]
  omega

/-- What a successful `load` leaves in the object. -/
theorem load_success (self : BMPImage) {file : List Byte} {s : BMPImage}
    (h : load self file = (.success, s)) :
    HeaderOk file ∧ RowFits file ∧
    bfOffBits file + fileHeight file * fileStride file ≤ file.length ∧
    ∃ px, s = decoded file px ∧
      px.length = fileWidth file * fileHeight file * fileBpp file ∧
      ∀ y x c, y < fileHeight file → x < fileWidth file → c < fileBpp file →
        px[(y * fileWidth file + x) * fileBpp file + c]? =
          file[bfOffBits file + fileRow (fileTopDown file) (fileHeight file) y * fileStride file
            + x * fileBpp file + c]? := by
  have hs : (load self file).1 = .success := by rw [h]
  obtain ⟨hok, hfit, hlen⟩ := (load_success_iff self file).mp hs
  obtain ⟨px, hl, hpl, hget⟩ := load_ok self hok hfit hlen
  rw [h] at hl
  exact ⟨hok, hfit, hlen, px, (Prod.mk.inj hl).2, hpl, hget⟩

/-- C2. Decode pixel mapping: when `load` succeeds on a buffer with
pixel-data offset `off`, width `w`, absolute height `h` and `b` bytes per
pixel, the canonical buffer has `w * h * b` bytes and, for `x < w`, `y < h`,
`c < b`, the canonical byte `(y * w + x) * b + c` is the input byte at
`off + r * row_stride + x * b + c`, with `row_stride = ceil(w * b / 4) * 4`
and `r = y` when the height field is negative, `r = h - 1 - y` otherwise;
no padding byte is copied. -/
theorem C2_decode_pixel_mapping (self : BMPImage) (file : List Byte) (s : BMPImage)
    (h : load self file = (.success, s)) :
    s.pixels.length = fileWidth file * fileHeight file * fileBpp file ∧
    ∀ x y c, x < fileWidth file → y < fileHeight file → c < fileBpp file →
      ∃ v, s.pixels[(y * fileWidth file + x) * fileBpp file + c]? = some v ∧
        file[bfOffBits file
          + (if biHeight file < 0 then y else fileHeight file - 1 - y)
            * ((fileWidth file * fileBpp file + 3) / 4 * 4)
          + x * fileBpp file + c]? = some v := by
  obtain ⟨_, _, _, px, rfl, hpl, hget⟩ := load_success self h
  refine ⟨hpl, ?_⟩
  intro x y c hx hy hc
  have hlt : (y * fileWidth file + x) * fileBpp file + c < px.length := by
    rw [hpl]; exact pix_index_lt hy hx hc
  refine ⟨px[(y * fileWidth file + x) * fileBpp file + c], List.getElem?_eq_getElem hlt, ?_⟩
  have := hget y x c hy hx hc
  rw [List.getElem?_eq_getElem hlt] at this
  rw [this]
  unfold fileRow fileTopDown fileStride rowStride
  by_cases hneg : biHeight file < 0
  · simp [hneg]
  · simp [hneg]

/-- C2 at the 2x2 sample file: `load` succeeds, and the blue byte of the
canonical pixel (1, 0) is byte 54 + 1 * 8 + 3 of the file. -/
theorem C2_decode_pixel_mapping_witness :
    load BMPImage.new sampleFile = (.success, sampleImage) ∧
    sampleImage.pixels.length = fileWidth sampleFile * fileHeight sampleFile * fileBpp sampleFile ∧
    ∃ v, sampleImage.pixels[(0 * fileWidth sampleFile + 1) * fileBpp sampleFile + 0]? = some v ∧
      sampleFile[bfOffBits sampleFile
        + (if biHeight sampleFile < 0 then 0 else fileHeight sampleFile - 1 - 0)
          * ((fileWidth sampleFile * fileBpp sampleFile + 3) / 4 * 4)
        + 1 * fileBpp sampleFile + 0]? = some v :=
  ⟨by decide,
   (C2_decode_pixel_mapping BMPImage.new sampleFile sampleImage (by decide)).1,
   (C2_decode_pixel_mapping BMPImage.new sampleFile sampleImage (by decide)).2 1 0 0
     (by decide) (by decide) (by decide)⟩

/-! ## Truncated pixel data, and what a failed `load` leaves -/

/-- The behaviour of `load` once the checks on the headers have passed and
the padded row size fits an `int`: success exactly when the file holds
`row_stride * abs_height` bytes from the pixel-data offset on, and the
diagnostic of a short pixel row otherwise.  No other condition on the offset
is needed. -/
theorem load_truncation (self : BMPImage) (file : List Byte) (h : HeaderOk file)
    (hfit : RowFits file) :
    ((load self file).1 = .success ↔
      bfOffBits file + fileStride file * fileHeight file ≤ file.length) ∧
    (¬ bfOffBits file + fileStride file * fileHeight file ≤ file.length →
      (load self file).1 = .failure .pixelRow) := by
  rw [Nat.mul_comm (fileStride file)]
  constructor
  · rw [load_success_iff]
    exact ⟨fun h => h.2.2, fun hl => ⟨h, hfit, hl⟩⟩
  · intro hl
    obtain ⟨px, hload, _⟩ := load_short self h hfit (by omega)
    rw [hload]

theorem wideFile_headerOk : HeaderOk wideFile := by
  obtain ⟨h1, h2, h3, h4, h5, h6, h7, h8⟩ := wideHeader_fields (List.replicate 2147483652 0)
  have hl := wideFile_length
  unfold HeaderOk
  unfold wideFile at *
  rw [h1, h3, h4, h5, h6, h7, h8, hl]
  decide

/-- C6, on the code: `wideFile` passes every check on its headers and holds
all `row_stride * abs_height` bytes of its pixel data from the offset on, so
the claim has `load` succeed; the 24-bit branch computes `width * 3` in
`int`, which overflows, and the call does not succeed. -/
theorem C6_wide_row_not_loaded :
    HeaderOk wideFile ∧
    bfOffBits wideFile + fileStride wideFile * fileHeight wideFile ≤ wideFile.length ∧
    ∀ self, (load self wideFile).1 = .undefined := by
  have hok := wideFile_headerOk
  obtain ⟨h1, h2, h3, h4, h5, h6, h7, h8⟩ := wideHeader_fields (List.replicate 2147483652 0)
  have hw : fileWidth wideFile = 715827883 := by
    unfold fileWidth wideFile; rw [h4]; rfl
  have hh : fileHeight wideFile = 1 := by
    unfold fileHeight wideFile; rw [h5]; rfl
  have hb : fileBpp wideFile = 3 := by
    unfold fileBpp wideFile; rw [h7]
  have hs : fileStride wideFile = 2147483652 := by
    unfold fileStride; rw [hw, hb]; rfl
  refine ⟨hok, ?_, ?_⟩
  · rw [hs, hh, wideFile_length]
    unfold wideFile; rw [h2]
  · intro self
    have hnf : ¬ RowFits wideFile := by
      unfold RowFits
      rw [hw]
      intro hf
      have := hf (by unfold wideFile; exact h7)
      revert this
      decide
    rw [load_overflow self hok hnf]

theorem load_failure_site (self : BMPImage) (file : List Byte) (e : LoadError)
    (h : (load self file).1 = .failure e) :
    e = .dimensions ∨ e = .pixelRow ∨ (load self file).2 = self := by
  by_cases hok : HeaderOk file
  · by_cases hfit : RowFits file
    · by_cases hlen : bfOffBits file + fileHeight file * fileStride file ≤ file.length
      · obtain ⟨px, hl, _⟩ := load_ok self hok hfit hlen
        rw [hl] at h; simp at h
      · obtain ⟨px, hl, _⟩ := load_short self hok hfit (by omega)
        rw [hl] at h
        right; left
        simp at h
        exact h.symm
    · rw [load_overflow self hok hfit] at h; simp at h
  · revert h
    rw [load_eq]
    split_ifs with h1 h2 h3 h4 h5 h6 h7 h8 <;> try (intro _; right; right; rfl)
    intro h
    by_cases hmin : biHeight file = -2147483648
    · rw [hmin, loadImage_intMin] at h; simp at h
    · have hr := biHeight_range file
      have hbad : biWidth file ≤ 0 ∨ biHeight file = 0 := by
        by_contra hgood
        apply hok
        unfold HeaderOk
        exact ⟨by omega, by simpa using h2, by omega, by simpa using h6, by omega,
          by simpa using h8, by omega, by omega, hmin⟩
      rw [loadImage_dims self file _ _ _ _ (by omega) hbad] at h
      left
      simp at h
      exact h.symm

/-- C7, as stated, fails: on the headers of a 1x1 file without pixel data,
`load` on a fresh object ends in a failure and leaves the object changed. -/
theorem C7_failed_load_changes_object :
    ¬ (∀ (self : BMPImage) (file : List Byte) (e : LoadError),
        (load self file).1 = .failure e → (load self file).2 = self) := by
  intro h
  have h1 := h BMPImage.new headersOnlyFile .pixelRow (by decide)
  revert h1
  decide

/-- C7, amended: when `load` fails with any diagnostic other than "invalid
image dimensions" and "failed to read pixel row" (the two raised after the
geometry has been stored in the object), the object is exactly what it was
before the call. -/
theorem C7_header_failures_keep_object (self : BMPImage) (file : List Byte) (e : LoadError)
    (h : (load self file).1 = .failure e) (hd : e ≠ .dimensions) (hp : e ≠ .pixelRow) :
    (load self file).2 = self := by
  rcases load_failure_site self file e h with h1 | h1 | h1
  · exact absurd h1 hd
  · exact absurd h1 hp
  · exact h1

/-- C7 amended, at a file with compression 1 loaded into `sampleImage`. -/
theorem C7_header_failures_keep_object_witness :
    (load sampleImage compressedFile).1 = .failure .compression ∧
    (load sampleImage compressedFile).2 = sampleImage :=
  ⟨by decide,
   C7_header_failures_keep_object sampleImage compressedFile .compression (by decide)
     (by decide) (by decide)⟩

/-! ## Row order -/

theorem pixels_ext {W H b : Nat} (hW : 0 < W) (hb : 0 < b) (l1 l2 : List Byte)
    (h1 : l1.length = W * H * b) (h2 : l2.length = W * H * b)
    (h : ∀ y x c, y < H → x < W → c < b →
      l1[(y * W + x) * b + c]? = l2[(y * W + x) * b + c]?) : l1 = l2 := by
  apply List.ext_getElem?
  intro n
  by_cases hn : n < W * H * b
  · have hq : n / b < W * H := by
      apply Nat.div_lt_of_lt_mul
      rw [Nat.mul_comm]; exact hn
    have hy : n / b / W < H := Nat.div_lt_of_lt_mul hq
    have hx : n / b % W < W := Nat.mod_lt _ hW
    have hc : n % b < b := Nat.mod_lt _ hb
    have e1 : n / b / W * W + n / b % W = n / b := by
      rw [Nat.mul_comm]; exact Nat.div_add_mod _ _
    have e2 : (n / b / W * W + n / b % W) * b + n % b = n := by
      rw [e1, Nat.mul_comm]; exact Nat.div_add_mod _ _
    have := h (n / b / W) (n / b % W) (n % b) hy hx hc
    rw [e2] at this
    exact this
  · rw [List.getElem?_eq_none (by omega), List.getElem?_eq_none (by omega)]

/-- C9. Row-order flip: two well-formed files with the same width, bit
count and pixel offset, one with height field `+h` (bottom-up), the other
`-h` (top-down), where the pixels of on-disk row `r` of the first are those
of on-disk row `h - 1 - r` of the second, load to the same width, height,
bytes per pixel and canonical pixels; only `topDown` differs.  Canonical row
0 is the first on-disk row of the top-down file and the last one of the
bottom-up file, the topmost row of the picture. -/
theorem C9_row_order_flip (self1 self2 : BMPImage) (f1 f2 : List Byte)
    (hf1 : WellFormed f1) (hf2 : WellFormed f2)
    (hw : biWidth f1 = biWidth f2) (hbits : biBitCount f1 = biBitCount f2)
    (hoff : bfOffBits f1 = bfOffBits f2)
    (hup : 0 < biHeight f1) (hdown : biHeight f2 = -biHeight f1)
    (hrows : ∀ r j, r < fileHeight f1 → j < fileWidth f1 * fileBpp f1 →
      f1[bfOffBits f1 + r * fileStride f1 + j]? =
        f2[bfOffBits f1 + (fileHeight f1 - 1 - r) * fileStride f1 + j]?) :
    ∃ px, load self1 f1 = (.success,
        ⟨fileWidth f1, fileHeight f1, false, fileBpp f1, px⟩) ∧
      load self2 f2 = (.success, ⟨fileWidth f1, fileHeight f1, true, fileBpp f1, px⟩) ∧
      ∀ x c, x < fileWidth f1 → c < fileBpp f1 →
        px[x * fileBpp f1 + c]? = f2[bfOffBits f1 + x * fileBpp f1 + c]? ∧
        px[x * fileBpp f1 + c]? =
          f1[bfOffBits f1 + (fileHeight f1 - 1) * fileStride f1 + x * fileBpp f1 + c]? := by
  obtain ⟨hok1, hfit1, hlen1⟩ := hf1
  obtain ⟨hok2, hfit2, hlen2⟩ := hf2
  obtain ⟨px1, hl1, hpl1, hget1⟩ := load_ok self1 hok1 hfit1 hlen1
  obtain ⟨px2, hl2, hpl2, hget2⟩ := load_ok self2 hok2 hfit2 hlen2
  obtain ⟨hW0, _, hH0, _, _, _, hb⟩ := headerOk_geom hok1
  have eW : fileWidth f2 = fileWidth f1 := by unfold fileWidth; rw [hw]
  have eB : fileBpp f2 = fileBpp f1 := by unfold fileBpp; rw [hbits]
  have eH : fileHeight f2 = fileHeight f1 := by
    unfold fileHeight; rw [hdown, Int.natAbs_neg]
  have eS : fileStride f2 = fileStride f1 := by unfold fileStride; rw [eW, eB]
  have t1 : fileTopDown f1 = false := by
    unfold fileTopDown; simp; omega
  have t2 : fileTopDown f2 = true := by
    unfold fileTopDown; simp; omega
  rw [eW, eB, eH] at hpl2
  rw [eW, eB, eH, eS, t2, ← hoff] at hget2
  rw [t1] at hget1
  have hb0 : 0 < fileBpp f1 := by omega
  have hpx : px1 = px2 := by
    apply pixels_ext hW0 hb0 px1 px2 hpl1 hpl2
    intro y x c hy hx hc
    rw [hget1 y x c hy hx hc, hget2 y x c hy hx hc]
    have hj : x * fileBpp f1 + c < fileWidth f1 * fileBpp f1 := by
      have := pix_index_lt (show 0 < 1 by omega) hx hc
      simpa using this
    have := hrows (fileHeight f1 - 1 - y) (x * fileBpp f1 + c) (by omega) hj
    unfold fileRow
    simp only [Bool.false_eq_true, if_false, if_true]
    rw [show fileHeight f1 - 1 - (fileHeight f1 - 1 - y) = y by omega] at this
    rw [Nat.add_assoc (bfOffBits f1 + (fileHeight f1 - 1 - y) * fileStride f1), this,
      Nat.add_assoc (bfOffBits f1 + y * fileStride f1)]
  subst hpx
  refine ⟨px1, ?_, ?_, ?_⟩
  · rw [hl1]; unfold decoded; rw [t1]
  · rw [hl2]; unfold decoded; rw [t2, eW, eH, eB]
  · intro x c hx hc
    have g2 := hget2 0 x c hH0 hx hc
    have g1 := hget1 0 x c hH0 hx hc
    unfold fileRow at g1 g2
    simp only [Bool.false_eq_true, if_false, if_true, Nat.zero_mul, Nat.zero_add,
      Nat.add_zero, Nat.sub_zero] at g1 g2
    exact ⟨g2, g1⟩

/-- C9 at the 2x2 sample file and its top-down counterpart. -/
theorem C9_row_order_flip_witness :
    ∃ px, load BMPImage.new sampleFile = (.success,
        ⟨fileWidth sampleFile, fileHeight sampleFile, false, fileBpp sampleFile, px⟩) ∧
      load sampleImage sampleFileTopDown = (.success,
        ⟨fileWidth sampleFile, fileHeight sampleFile, true, fileBpp sampleFile, px⟩) ∧
      ∀ x c, x < fileWidth sampleFile → c < fileBpp sampleFile →
        px[x * fileBpp sampleFile + c]? =
          sampleFileTopDown[bfOffBits sampleFile + x * fileBpp sampleFile + c]? ∧
        px[x * fileBpp sampleFile + c]? =
          sampleFile[bfOffBits sampleFile + (fileHeight sampleFile - 1) * fileStride sampleFile
            + x * fileBpp sampleFile + c]? :=
  C9_row_order_flip BMPImage.new sampleImage sampleFile sampleFileTopDown (by decide) (by decide)
    (by decide) (by decide) (by decide) (by decide) (by decide)
    (by
      have e1 : fileHeight sampleFile = 2 := by decide
      have e2 : fileWidth sampleFile * fileBpp sampleFile = 6 := by decide
      have e3 : bfOffBits sampleFile = 54 := by decide
      have e4 : fileStride sampleFile = 8 := by decide
      rw [e1, e2, e3, e4]
      intro r j hr hj
      have hr2 : r = 0 ∨ r = 1 := by omega
      have hj2 : j = 0 ∨ j = 1 ∨ j = 2 ∨ j = 3 ∨ j = 4 ∨ j = 5 := by omega
      rcases hr2 with rfl | rfl <;> rcases hj2 with rfl | rfl | rfl | rfl | rfl | rfl <;> decide)

/-! ## Lemmas on `save`, and the round trip -/

theorem putPixel_spec {self : BMPImage} {W H b : Nat} (g : Geom self W H b) {x D : Nat}
    (hx : x < W) (hD : D < H) (hpx : self.pixels.length = W * H * b) (out : List Byte) :
    ∃ out1, putPixel self b (D : Int) out x = some out1 ∧ out1.length = out.length + b ∧
      ∀ i, out1[i]? = if i < out.length then out[i]?
        else if i < out.length + b then self.pixels[(D * W + x) * b + (i - out.length)]?
        else none := by
  have hidx := geom_idx_eq g hx hD
  have hlt := pix_index_lt hD hx (show 0 < 1 by omega)
  have hlast : (D * W + x) * b + b ≤ self.pixels.length := by
    rw [hpx]
    have h1 := row_bound hD hx
    have h2 : (D * W + x + 1) * b ≤ H * W * b := Nat.mul_le_mul_right b h1
    rw [Nat.succ_mul] at h2
    rw [Nat.mul_comm W H]
    exact h2
  unfold putPixel
  simp only [hidx]
  clear hidx
  generalize (D * W + x) = q at *
  generalize self.pixels = px at *
  rcases g.hb34 with rfl | rfl
  · simp only [Nat.add_zero, vecGet_of_lt (show q * 3 < px.length by omega),
      vecGet_of_lt (show q * 3 + 1 < px.length by omega),
      vecGet_of_lt (show q * 3 + 2 < px.length by omega),
      Option.bind_eq_bind, Option.some_bind, Option.pure_def, List.get_eq_getElem]
    refine ⟨_, rfl, by simp, ?_⟩
    intro i
    rw [List.getElem?_append]
    by_cases h0 : i < out.length
    · rw [if_pos h0, if_pos h0]
    rw [if_neg h0, if_neg h0]
    by_cases h1 : i < out.length + 3
    · rw [if_pos h1]
      have hc : i - out.length = 0 ∨ i - out.length = 1 ∨ i - out.length = 2 := by omega
      rcases hc with hc | hc | hc <;> rw [hc] <;>
        simp [List.getElem?_eq_getElem, show q * 3 < px.length by omega,
          show q * 3 + 1 < px.length by omega, show q * 3 + 2 < px.length by omega]
    · rw [if_neg h1]
      apply List.getElem?_eq_none
      simp; omega
  · simp only [Nat.add_zero, vecGet_of_lt (show q * 4 < px.length by omega),
      vecGet_of_lt (show q * 4 + 1 < px.length by omega),
      vecGet_of_lt (show q * 4 + 2 < px.length by omega),
      vecGet_of_lt (show q * 4 + 3 < px.length by omega),
      Option.bind_eq_bind, Option.some_bind, Option.pure_def, List.get_eq_getElem, if_true]
    refine ⟨_, rfl, by simp, ?_⟩
    intro i
    rw [List.getElem?_append]
    by_cases h0 : i < out.length
    · rw [if_pos h0, if_pos h0]
    rw [if_neg h0, if_neg h0]
    by_cases h1 : i < out.length + 4
    · rw [if_pos h1]
      have hc : i - out.length = 0 ∨ i - out.length = 1 ∨ i - out.length = 2
          ∨ i - out.length = 3 := by omega
      rcases hc with hc | hc | hc | hc <;> rw [hc] <;>
        simp [List.getElem?_eq_getElem, show q * 4 < px.length by omega,
          show q * 4 + 1 < px.length by omega, show q * 4 + 2 < px.length by omega,
          show q * 4 + 3 < px.length by omega]
    · rw [if_neg h1]
      apply List.getElem?_eq_none
      simp; omega

theorem putRow_prefix {self : BMPImage} {W H b : Nat} (g : Geom self W H b) {D : Nat}
    (hD : D < H) (hpx : self.pixels.length = W * H * b) (out : List Byte) (k : Nat)
    (hk : k ≤ W) :
    ∃ out1, (List.range k).foldlM (putPixel self b (D : Int)) out = some out1 ∧
      out1.length = out.length + k * b ∧
      ∀ i, out1[i]? = if i < out.length then out[i]?
        else if i < out.length + k * b then self.pixels[D * W * b + (i - out.length)]?
        else none := by
  induction k with
  | zero =>
    refine ⟨out, by simp, by simp, ?_⟩
    intro i
    by_cases h0 : i < out.length
    · rw [if_pos h0]
    · rw [if_neg h0, if_neg (by omega)]
      exact List.getElem?_eq_none (by omega)
  | succ k ih =>
    obtain ⟨outk, hfold, hlen, hget⟩ := ih (by omega)
    obtain ⟨out1, hput, hlen1, hget1⟩ := putPixel_spec g (show k < W by omega) hD hpx outk
    refine ⟨out1, ?_, ?_, ?_⟩
    · rw [List.range_succ, List.foldlM_append, hfold]
      simp [hput]
    · rw [hlen1, hlen, Nat.succ_mul]; omega
    · intro i
      rw [hget1 i, hget i, hlen]
      have hb := g.hb34
      clear hget hget1 hput hfold g
      rcases hb with rfl | rfl
      · by_cases h0 : i < out.length
        · have a : i < out.length + k * 3 := by omega
          simp only [h0, a, if_true]
        · by_cases h1 : i < out.length + k * 3
          · have a : i < out.length + (k + 1) * 3 := by omega
            simp only [h0, h1, a, if_true, if_false]
          · by_cases h2 : i < out.length + (k + 1) * 3
            · have a : i < out.length + k * 3 + 3 := by omega
              have e : (D * W + k) * 3 + (i - (out.length + k * 3))
                  = D * W * 3 + (i - out.length) := by omega
              simp only [h0, h1, h2, a, if_true, if_false, e]
            · have a : ¬ i < out.length + k * 3 + 3 := by omega
              simp only [h0, h1, h2, a, if_false]
      · by_cases h0 : i < out.length
        · have a : i < out.length + k * 4 := by omega
          simp only [h0, a, if_true]
        · by_cases h1 : i < out.length + k * 4
          · have a : i < out.length + (k + 1) * 4 := by omega
            simp only [h0, h1, a, if_true, if_false]
          · by_cases h2 : i < out.length + (k + 1) * 4
            · have a : i < out.length + k * 4 + 4 := by omega
              have e : (D * W + k) * 4 + (i - (out.length + k * 4))
                  = D * W * 4 + (i - out.length) := by omega
              simp only [h0, h1, h2, a, if_true, if_false, e]
            · have a : ¬ i < out.length + k * 4 + 4 := by omega
              simp only [h0, h1, h2, a, if_false]

theorem putRow_spec {self : BMPImage} {W H b : Nat} (g : Geom self W H b) {D : Nat}
    (hD : D < H) (hpx : self.pixels.length = W * H * b) (out : List Byte) :
    ∃ out1, putRow self b (D : Int) out = some out1 ∧
      out1.length = out.length + W * b ∧
      ∀ i, out1[i]? = if i < out.length then out[i]?
        else if i < out.length + W * b then self.pixels[D * W * b + (i - out.length)]?
        else none := by
  unfold putRow
  rw [g.hw, Int.toNat_ofNat]
  exact putRow_prefix g hD hpx out W (Nat.le_refl _)

theorem saveRows_spec {self : BMPImage} {W H b : Nat} (g : Geom self W H b)
    (hpx : self.pixels.length = W * H * b) (pad : List Byte) (S : Nat)
    (hS : S = W * b + pad.length) :
    ∀ (n row : Nat) (out : List Byte), row + n ≤ H →
    ∃ out1, saveRows self b pad n row out = (.success, out1) ∧
      out1.length = out.length + n * S ∧
      (∀ i, i < out.length → out1[i]? = out[i]?) ∧
      ∀ r j, r < n → j < S →
        out1[out.length + r * S + j]? =
          if j < W * b then self.pixels[fileRow self.topDown H (row + r) * W * b + j]?
          else pad[j - W * b]? := by
  intro n
  induction n with
  | zero =>
    intro row out _
    exact ⟨out, rfl, by simp, fun _ _ => rfl, fun r j hr _ => absurd hr (by omega)⟩
  | succ n ih =>
    intro row out hrow
    have hrowlt : row < H := by omega
    have hD : fileRow self.topDown H row < H := fileRow_lt hrowlt
    have hdst : (if self.topDown then (row : Int) else self.height - 1 - (row : Int))
        = ((fileRow self.topDown H row : Nat) : Int) := by
      unfold fileRow
      rw [g.hh]
      split
      · rfl
      · omega
    obtain ⟨out1, hput, hlen1, hget1⟩ := putRow_spec g hD hpx out
    obtain ⟨out2, hrec, hlen2, hpre2, hget2⟩ := ih (row + 1) (out1 ++ pad) (by omega)
    have hl12 : (out1 ++ pad).length = out.length + S := by
      rw [List.length_append, hlen1, hS]; omega
    refine ⟨out2, ?_, ?_, ?_, ?_⟩
    · unfold saveRows
      simp only [hdst, hput]
      exact hrec
    · rw [hlen2, hl12, Nat.succ_mul]; omega
    · intro i hi
      rw [hpre2 i (by omega), List.getElem?_append, if_pos (by omega), hget1 i, if_pos hi]
    · intro r j hr hj
      rcases Nat.eq_zero_or_pos r with h0 | hpos
      · subst h0
        rw [Nat.zero_mul, Nat.add_zero, Nat.add_zero, hpre2 _ (by omega), List.getElem?_append]
        by_cases hjw : j < W * b
        · rw [if_pos (by omega), if_pos hjw, hget1, if_neg (by omega), if_pos (by omega)]
          rw [show out.length + j - out.length = j by omega]
        · rw [if_neg (by omega), if_neg hjw, hlen1]
          rw [show out.length + j - (out.length + W * b) = j - W * b by omega]
      · obtain ⟨m, rfl⟩ : ∃ m, r = m + 1 := ⟨r - 1, by omega⟩
        have := hget2 m j (by omega) hj
        rw [hl12] at this
        rw [Nat.succ_mul, show out.length + (m * S + S) + j = out.length + S + m * S + j by omega,
          this, show row + 1 + m = row + (m + 1) by omega]

theorem valid_geom {img : BMPImage} (h : Valid img) :
    Geom img img.width.toNat img.height.toNat img.bytesPerPixel.toNat ∧
    img.pixels.length = img.width.toNat * img.height.toNat * img.bytesPerPixel.toNat ∧
    0 < img.width.toNat ∧ 0 < img.height.toNat := by
  obtain ⟨⟨hw, hh, hb, hl⟩, hw2, hh2, _, _⟩ := h
  refine ⟨⟨by omega, by omega, by omega, by omega, by omega, by omega⟩, ?_, by omega, by omega⟩
  have e1 : img.width = (img.width.toNat : Int) := by omega
  have e2 : img.height = (img.height.toNat : Int) := by omega
  have e3 : img.bytesPerPixel = (img.bytesPerPixel.toNat : Int) := by omega
  rw [e1, e2, e3] at hl
  exact_mod_cast hl

theorem pad_replicate (p : Nat) :
    (if p ≠ 0 then List.replicate p (0 : Byte) else []) = List.replicate p 0 := by
  by_cases h : p = 0
  · subst h; simp
  · simp [h]

/-- The bytes `save` writes for a valid image, with the header fields as the
code computes them. -/
theorem save_rows {img : BMPImage} (h : Valid img) :
    save img = saveRows img img.bytesPerPixel.toNat
      (List.replicate (imgStride img - img.width.toNat * img.bytesPerPixel.toNat) 0)
      img.height.toNat 0
      (fileHeaderBytes 0x4D42 (54 + imgStride img * img.height.toNat) 54 ++
        infoHeaderBytes 40 img.width.toNat
          (toU32 (if img.topDown then -img.height else img.height))
          (img.bytesPerPixel.toNat * 8) 0 (imgStride img * img.height.toNat)) := by
  obtain ⟨⟨hw, hh, hb, hl⟩, hw2, hh2, hs, hf⟩ := h
  have hWu : toU32 img.width = img.width.toNat := by unfold toU32; omega
  have hHu : toU32 img.height = img.height.toNat := by unfold toU32; omega
  have hmul : imgStride img * 1 ≤ imgStride img * img.height.toNat :=
    Nat.mul_le_mul_left _ (by omega)
  have hS1 : imgStride img % 4294967296 = imgStride img := Nat.mod_eq_of_lt (by omega)
  have hI1 : imgStride img * img.height.toNat % 4294967296 = imgStride img * img.height.toNat :=
    Nat.mod_eq_of_lt (by omega)
  have hF1 : (14 + 40 + imgStride img * img.height.toNat) % 4294967296
      = 54 + imgStride img * img.height.toNat := by
    rw [Nat.mod_eq_of_lt (by omega)]
  unfold save
  rw [if_neg (by omega)]
  rcases hb with hb | hb
  · have hst : img.width.toNat * 3 + (4 - (img.width.toNat * 3) % 4) % 4 = imgStride img := by
      unfold imgStride rowStride; rw [hb]
      show _ = (img.width.toNat * 3 + 3) / 4 * 4
      omega
    have hpad : (4 - (img.width.toNat * 3) % 4) % 4 = imgStride img - img.width.toNat * 3 := by
      omega
    have hr : (toU32 img.width * 3) % 4294967296 = img.width.toNat * 3 := by
      rw [hWu]; omega
    simp only [hb, if_true, hr, hHu]
    rw [int32_of_isInt32 (by unfold isInt32; omega)]
    simp only [hst, hS1, hI1, hF1, hWu]
    rw [hpad, pad_replicate]
    rfl
  · have hst : img.width.toNat * 4 = imgStride img := by
      unfold imgStride rowStride; rw [hb]
      show _ = (img.width.toNat * 4 + 3) / 4 * 4
      omega
    have hr : (toU32 img.width * 4) % 4294967296 = imgStride img := by
      rw [hWu]; omega
    simp only [hb, show ¬ ((4 : Int) = 3) by omega, if_false, hr, hHu, Nat.add_zero]
    rw [int32_of_isInt32 (by unfold isInt32; omega)]
    simp only [hS1, hI1, hF1, hWu]
    rw [← hst, show Int.toNat 4 = 4 from rfl, Nat.sub_self]
    rfl

theorem byteOf_val (v k : Nat) : (byteOf v k).val = (v / 256 ^ k) % 256 := by
  unfold byteOf toU8
  simp [Fin.ofNat]

theorem getD_congr {a b : List Byte} {i : Nat} (h : a[i]? = b[i]?) : a.getD i 0 = b.getD i 0 := by
  simp [List.getD_eq_getElem?_getD, h]

theorem readU32_congr {a b : List Byte} {n : Nat} (h : ∀ i, i < n → a[i]? = b[i]?) (o : Nat)
    (ho : o + 4 ≤ n) : readU32 a o = readU32 b o := by
  unfold readU32
  rw [getD_congr (h o (by omega)), getD_congr (h (o + 1) (by omega)),
    getD_congr (h (o + 2) (by omega)), getD_congr (h (o + 3) (by omega))]

theorem readU16_congr {a b : List Byte} {n : Nat} (h : ∀ i, i < n → a[i]? = b[i]?) (o : Nat)
    (ho : o + 2 ≤ n) : readU16 a o = readU16 b o := by
  unfold readU16
  rw [getD_congr (h o (by omega)), getD_congr (h (o + 1) (by omega))]

/-- The fields read back from the 54 header bytes of `save`. -/
theorem header_fields (t s o z w hU bits c si : Nat) :
    let hdr := fileHeaderBytes t s o ++ infoHeaderBytes z w hU bits c si
    hdr.length = 54 ∧
    readU16 hdr 0 = t % 65536 ∧ readU32 hdr 2 = s % 4294967296 ∧ readU32 hdr 6 = 0 ∧
    readU32 hdr 10 = o % 4294967296 ∧ readU32 hdr 14 = z % 4294967296 ∧
    readU32 hdr 18 = w % 4294967296 ∧ readU32 hdr 22 = hU % 4294967296 ∧
    readU16 hdr 26 = 1 ∧ readU16 hdr 28 = bits % 65536 ∧ readU32 hdr 30 = c % 4294967296 ∧
    readU32 hdr 34 = si % 4294967296 ∧
    ∀ i, 38 ≤ i → i < 54 → hdr[i]? = some 0 := by
  intro hdr
  refine ⟨rfl, ?_, ?_, ?_, ?_, ?_, ?_, ?_, ?_, ?_, ?_, ?_, ?_⟩
  case refine_12 =>
    intro i h1 h2
    have hi : i = 38 ∨ i = 39 ∨ i = 40 ∨ i = 41 ∨ i = 42 ∨ i = 43 ∨ i = 44 ∨ i = 45 ∨ i = 46 ∨
        i = 47 ∨ i = 48 ∨ i = 49 ∨ i = 50 ∨ i = 51 ∨ i = 52 ∨ i = 53 := by omega
    rcases hi with h | h | h | h | h | h | h | h | h | h | h | h | h | h | h | h <;> subst h <;> rfl
  all_goals
    simp only [hdr, readU16, readU32, fileHeaderBytes, infoHeaderBytes, List.cons_append,
      List.nil_append, List.getD_cons_zero, List.getD_cons_succ, byteOf_val, Nat.reduceAdd,
      Nat.reducePow, Nat.pow_zero, Nat.div_one, Fin.val_zero, Fin.val_one, Nat.zero_mul,
      Nat.one_mul, Nat.add_zero, Nat.zero_add]
    try omega

theorem save_spec {img : BMPImage} (h : Valid img) :
    ∃ out, save img = (.success, out) ∧
      out.length = 54 + img.height.toNat * imgStride img ∧
      (∀ i, i < 54 → out[i]? = (savedHeader img)[i]?) ∧
      ∀ r j, r < img.height.toNat → j < imgStride img →
        out[54 + r * imgStride img + j]? =
          if j < img.width.toNat * img.bytesPerPixel.toNat
          then img.pixels[fileRow img.topDown img.height.toNat r * img.width.toNat
            * img.bytesPerPixel.toNat + j]?
          else some 0 := by
  obtain ⟨g, hpx, _, _⟩ := valid_geom h
  have hle := le_rowStride img.width.toNat img.bytesPerPixel.toNat
  obtain ⟨out, hrun, hlen, hpre, hget⟩ := saveRows_spec g hpx
    (List.replicate (imgStride img - img.width.toNat * img.bytesPerPixel.toNat) 0)
    (imgStride img) (by rw [List.length_replicate]; unfold imgStride; omega)
    img.height.toNat 0 (savedHeader img) (by omega)
  have hl54 : (savedHeader img).length = 54 := rfl
  rw [hl54] at hlen hpre hget
  refine ⟨out, ?_, hlen, hpre, ?_⟩
  · rw [save_rows h]; exact hrun
  · intro r j hr hj
    rw [hget r j hr hj, Nat.zero_add]
    by_cases hjw : j < img.width.toNat * img.bytesPerPixel.toNat
    · rw [if_pos hjw, if_pos hjw]
    · rw [if_neg hjw, if_neg hjw, List.getElem?_replicate, if_pos]
      unfold imgStride at hj ⊢
      omega

/-- C3. Encode pixel section: for a valid image, the output of `save` from
offset 54 on is `height` rows of `row_stride` bytes; file row `r` holds the
`width * bytesPerPixel` bytes of canonical row `r` (top-down) or
`height - 1 - r` (bottom-up) in unchanged order, then
`row_stride - width * bytesPerPixel` bytes that are all zero: one byte for
width 5 at 3 bytes per pixel, none for a 32-bit image. -/
theorem C3_encode_pixel_section (img : BMPImage) (h : Valid img) :
    ∃ out, save img = (.success, out) ∧
      out.length = 54 + img.height.toNat * imgStride img ∧
      (∀ r x c, r < img.height.toNat → x < img.width.toNat → c < img.bytesPerPixel.toNat →
        ∃ v, out[54 + r * imgStride img + x * img.bytesPerPixel.toNat + c]? = some v ∧
          img.pixels[((if img.topDown then r else img.height.toNat - 1 - r) * img.width.toNat + x)
            * img.bytesPerPixel.toNat + c]? = some v) ∧
      (∀ r j, r < img.height.toNat → img.width.toNat * img.bytesPerPixel.toNat ≤ j →
        j < imgStride img → out[54 + r * imgStride img + j]? = some 0) ∧
      imgStride img = (img.width.toNat * img.bytesPerPixel.toNat + 3) / 4 * 4 ∧
      rowStride 5 3 - 5 * 3 = 1 ∧
      (img.bytesPerPixel = 4 → imgStride img - img.width.toNat * img.bytesPerPixel.toNat = 0) := by
  obtain ⟨g, hpx, _, _⟩ := valid_geom h
  obtain ⟨out, hsave, hlen, _, hget⟩ := save_spec h
  have hle := le_rowStride img.width.toNat img.bytesPerPixel.toNat
  refine ⟨out, hsave, hlen, ?_, ?_, rfl, by decide, ?_⟩
  · intro r x c hr hx hc
    have hfr : fileRow img.topDown img.height.toNat r < img.height.toNat := fileRow_lt hr
    have hj : x * img.bytesPerPixel.toNat + c < img.width.toNat * img.bytesPerPixel.toNat := by
      have := pix_index_lt (show 0 < 1 by omega) hx hc
      simpa using this
    have hlt := pix_index_lt hfr hx hc
    rw [← hpx] at hlt
    refine ⟨img.pixels[(fileRow img.topDown img.height.toNat r * img.width.toNat + x)
      * img.bytesPerPixel.toNat + c], ?_, ?_⟩
    · rw [Nat.add_assoc, hget r _ hr (by unfold imgStride; omega), if_pos hj,
        ← List.getElem?_eq_getElem hlt]
      congr 1
      rw [Nat.add_mul]; omega
    · rw [← List.getElem?_eq_getElem hlt]
      unfold fileRow
      rfl
  · intro r j hr hj1 hj2
    rw [hget r j hr hj2, if_neg (by omega)]
  · intro hb4
    unfold imgStride
    rw [hb4, show Int.toNat 4 = 4 from rfl, rowStride_four]
    omega

theorem toI32_toU32 (v : Int) (h : isInt32 v) : toI32 (toU32 v) = v := by
  unfold isInt32 at h
  unfold toI32 toU32
  split <;> omega

theorem toU32_lt (v : Int) : toU32 v < 4294967296 := by
  unfold toU32; omega

/-- The header fields of the output of `save` on a valid image. -/
theorem save_header {img : BMPImage} (h : Valid img) {out : List Byte}
    (hpre : ∀ i, i < 54 → out[i]? = (savedHeader img)[i]?) :
    readU16 out 0 = 0x4D42 ∧ readU32 out 2 = 54 + imgStride img * img.height.toNat ∧
    readU32 out 6 = 0 ∧ readU32 out 10 = 54 ∧ readU32 out 14 = 40 ∧
    readU32 out 18 = img.width.toNat ∧
    readU32 out 22 = toU32 (if img.topDown then -img.height else img.height) ∧
    readU16 out 26 = 1 ∧ readU16 out 28 = img.bytesPerPixel.toNat * 8 ∧ readU32 out 30 = 0 ∧
    readU32 out 34 = imgStride img * img.height.toNat ∧
    ∀ i, 38 ≤ i → i < 54 → out[i]? = some 0 := by
  obtain ⟨⟨hw, hh, hb, hl⟩, hw2, hh2, hs, hf⟩ := h
  obtain ⟨_, f0, f2, f6, f10, f14, f18, f22, f26, f28, f30, f34, fz⟩ :=
    header_fields 0x4D42 (54 + imgStride img * img.height.toNat) 54 40 img.width.toNat
      (toU32 (if img.topDown then -img.height else img.height))
      (img.bytesPerPixel.toNat * 8) 0 (imgStride img * img.height.toNat)
  have hu := toU32_lt (if img.topDown then -img.height else img.height)
  have hmul : imgStride img * 1 ≤ imgStride img * img.height.toNat :=
    Nat.mul_le_mul_left _ (by omega)
  refine ⟨?_, ?_, ?_, ?_, ?_, ?_, ?_, ?_, ?_, ?_, ?_, ?_⟩
  · rw [readU16_congr hpre 0 (by omega)]; exact f0
  · rw [readU32_congr hpre 2 (by omega)]; exact f2.trans (Nat.mod_eq_of_lt (by omega))
  · rw [readU32_congr hpre 6 (by omega)]; exact f6
  · rw [readU32_congr hpre 10 (by omega)]; exact f10
  · rw [readU32_congr hpre 14 (by omega)]; exact f14
  · rw [readU32_congr hpre 18 (by omega)]; exact f18.trans (Nat.mod_eq_of_lt (by omega))
  · rw [readU32_congr hpre 22 (by omega)]; exact f22.trans (Nat.mod_eq_of_lt hu)
  · rw [readU16_congr hpre 26 (by omega)]; exact f26
  · rw [readU16_congr hpre 28 (by omega)]; exact f28.trans (Nat.mod_eq_of_lt (by omega))
  · rw [readU32_congr hpre 30 (by omega)]; exact f30
  · rw [readU32_congr hpre 34 (by omega)]; exact f34.trans (Nat.mod_eq_of_lt (by omega))
  · intro i h1 h2
    rw [hpre i h2]; exact fz i h1 h2

/-- C4. Encode header: for a valid image the first 54 bytes of the output of
`save` are, little-endian: bytes 0-1 = 0x42, 0x4D; bytes 2-5 the file size
`54 + row_stride * height`; bytes 6-9 zero; bytes 10-13 = 54; bytes 14-17 =
40; bytes 18-21 the width; bytes 22-25 the two's-complement encoding of
`-height` when top-down, of `height` otherwise; bytes 26-27 = 1; bytes 28-29
= `bytesPerPixel * 8`; bytes 30-33 = 0; bytes 34-37 the image size
`row_stride * height`; bytes 38-53 zero. -/
theorem C4_encode_header (img : BMPImage) (h : Valid img) :
    ∃ out, save img = (.success, out) ∧ 54 ≤ out.length ∧
      out[0]? = some 0x42 ∧ out[1]? = some 0x4D ∧
      readU32 out 2 = 54 + imgStride img * img.height.toNat ∧
      readU32 out 6 = 0 ∧ readU32 out 10 = 54 ∧ readU32 out 14 = 40 ∧
      (readU32 out 18 : Int) = img.width ∧
      readU32 out 22 = toU32 (if img.topDown then -img.height else img.height) ∧
      toI32 (readU32 out 22) = (if img.topDown then -img.height else img.height) ∧
      readU16 out 26 = 1 ∧ (readU16 out 28 : Int) = img.bytesPerPixel * 8 ∧
      readU32 out 30 = 0 ∧ readU32 out 34 = imgStride img * img.height.toNat ∧
      (∀ i, 38 ≤ i → i < 54 → out[i]? = some 0) ∧
      imgStride img = (img.width.toNat * img.bytesPerPixel.toNat + 3) / 4 * 4 := by
  obtain ⟨out, hsave, hlen, hpre, _⟩ := save_spec h
  obtain ⟨f0, f2, f6, f10, f14, f18, f22, f26, f28, f30, f34, fz⟩ := save_header h hpre
  obtain ⟨⟨hw, hh, hb, hl⟩, hw2, hh2, hs, hf⟩ := h
  refine ⟨out, hsave, by omega, ?_, ?_, f2, f6, f10, f14, ?_, f22, ?_, f26, ?_, f30, f34, fz, rfl⟩
  · rw [hpre 0 (by omega)]; rfl
  · rw [hpre 1 (by omega)]; rfl
  · rw [f18]; omega
  · rw [f22]
    apply toI32_toU32
    unfold isInt32
    split <;> omega
  · rw [f28]; omega

/-- The geometry `load` reads from the output of `save` on a valid image. -/
theorem saved_geometry {img : BMPImage} (h : Valid img) {out : List Byte}
    (hlen : out.length = 54 + img.height.toNat * imgStride img)
    (hpre : ∀ i, i < 54 → out[i]? = (savedHeader img)[i]?) :
    WellFormed out ∧ bfOffBits out = 54 ∧ fileWidth out = img.width.toNat ∧
    fileHeight out = img.height.toNat ∧ fileTopDown out = img.topDown ∧
    fileBpp out = img.bytesPerPixel.toNat ∧ fileStride out = imgStride img := by
  obtain ⟨f0, f2, f6, f10, f14, f18, f22, f26, f28, f30, f34, fz⟩ := save_header h hpre
  obtain ⟨⟨hw, hh, hb, hl⟩, hw2, hh2, hs, hf⟩ := h
  have hbw : biWidth out = img.width := by
    unfold biWidth toI32; rw [f18]; split <;> omega
  have hbh : biHeight out = (if img.topDown then -img.height else img.height) := by
    unfold biHeight; rw [f22]
    apply toI32_toU32
    unfold isInt32
    split <;> omega
  have eW : fileWidth out = img.width.toNat := by unfold fileWidth; rw [hbw]
  have eH : fileHeight out = img.height.toNat := by
    unfold fileHeight; rw [hbh]; split <;> omega
  have eT : fileTopDown out = img.topDown := by
    unfold fileTopDown; rw [hbh]
    cases img.topDown
    · simp; omega
    · simp; omega
  have eB : fileBpp out = img.bytesPerPixel.toNat := by
    unfold fileBpp biBitCount; rw [f28]; omega
  have eS : fileStride out = imgStride img := by
    unfold fileStride imgStride; rw [eW, eB]
  have eO : bfOffBits out = 54 := f10
  refine ⟨⟨?_, ?_, ?_⟩, eO, eW, eH, eT, eB, eS⟩
  · unfold HeaderOk
    refine ⟨?_, f0, ?_, f30, ?_, f26, ?_, ?_, ?_⟩
    · show 14 + readU32 out 14 ≤ out.length
      rw [f14, hlen]; omega
    · show 40 ≤ readU32 out 14
      rw [f14]
    · show readU16 out 28 = 24 ∨ readU16 out 28 = 32
      rw [f28]; omega
    · rw [hbw]; exact hw
    · rw [hbh]; split <;> omega
    · rw [hbh]; split <;> omega
  · unfold RowFits
    intro h24
    rw [eW]
    have : img.bytesPerPixel.toNat = 3 := by
      have : readU16 out 28 = 24 := h24
      rw [f28] at this; omega
    unfold imgStride at hs
    rw [this] at hs
    exact hs
  · rw [eO, eH, eS, hlen]

/-- C1. Round trip: for every image that satisfies the Image invariant
(positive width and height, 3 or 4 bytes per pixel, `width * height *
bytesPerPixel` pixel bytes, sizes within 32-bit range), top-down or
bottom-up, `save` succeeds and `load` of the bytes it wrote succeeds, on any
object, and leaves exactly that image: the same width, height, bytes per
pixel, `topDown` and pixels. -/
theorem C1_round_trip (self img : BMPImage) (h : Valid img) :
    ∃ out, save img = (.success, out) ∧ load self out = (.success, img) := by
  obtain ⟨out, hsave, hlen, hpre, hget⟩ := save_spec h
  obtain ⟨⟨hok, hfit, hl⟩, eO, eW, eH, eT, eB, eS⟩ := saved_geometry h hlen hpre
  obtain ⟨px, hload, hpl, hpx⟩ := load_ok self hok hfit hl
  obtain ⟨g, hil, hW0, hH0⟩ := valid_geom h
  refine ⟨out, hsave, ?_⟩
  rw [hload]
  rw [eW, eH, eB] at hpl
  rw [eO, eW, eH, eT, eB, eS] at hpx
  have hb0 : 0 < img.bytesPerPixel.toNat := by have := g.hb34; omega
  have hle := le_rowStride img.width.toNat img.bytesPerPixel.toNat
  have hpe : px = img.pixels := by
    apply pixels_ext hW0 hb0 px img.pixels hpl hil
    intro y x c hy hx hc
    have hfr : fileRow img.topDown img.height.toNat y < img.height.toNat := fileRow_lt hy
    have hj : x * img.bytesPerPixel.toNat + c < img.width.toNat * img.bytesPerPixel.toNat := by
      have := pix_index_lt (show 0 < 1 by omega) hx hc
      simpa using this
    rw [hpx y x c hy hx hc, Nat.add_assoc,
      hget _ _ hfr (by unfold imgStride; omega), if_pos hj, fileRow_fileRow hy]
    congr 1
    rw [Nat.add_mul]; omega
  subst hpe
  unfold decoded
  rw [eW, eH, eT, eB]
  have e1 := g.hw
  have e2 := g.hh
  have e3 := g.hb
  cases img
  simp only at e1 e2 e3 ⊢
  rw [← e1, ← e2, ← e3]

/-- C1 at the 2x2 sample image, bottom-up and top-down, loaded into a fresh
object and into an object that already holds an image. -/
theorem C1_round_trip_witness :
    (∃ out, save sampleImage = (.success, out) ∧
      load BMPImage.new out = (.success, sampleImage)) ∧
    (∃ out, save { sampleImage with topDown := true } = (.success, out) ∧
      load sampleImage out = (.success, { sampleImage with topDown := true })) :=
  ⟨C1_round_trip BMPImage.new sampleImage (by decide),
   C1_round_trip sampleImage { sampleImage with topDown := true } (by decide)⟩

/-- C3 at the 2x2 sample image: two rows of 8 bytes, the first file row is
canonical row 1, and byte 6 of it is padding. -/
theorem C3_encode_pixel_section_witness :
    Valid sampleImage ∧
    ∃ out, save sampleImage = (.success, out) ∧ out.length = 54 + 2 * 8 ∧
      (∃ v, out[54 + 0 * 8 + 1 * 3 + 2]? = some v ∧
        sampleImage.pixels[((2 - 1 - 0) * 2 + 1) * 3 + 2]? = some v) ∧
      out[54 + 0 * 8 + 6]? = some 0 := by
  refine ⟨by decide, ?_⟩
  obtain ⟨out, h1, h2, h3, h4, _⟩ := C3_encode_pixel_section sampleImage (by decide)
  exact ⟨out, h1, h2, h3 0 1 2 (by decide) (by decide) (by decide),
    h4 0 6 (by decide) (by decide) (by decide)⟩

/-- C4 at the 2x2 sample image: file size 70, width 2, height field +2, 24
bits, image size 16. -/
theorem C4_encode_header_witness :
    Valid sampleImage ∧
    ∃ out, save sampleImage = (.success, out) ∧ out[0]? = some 0x42 ∧ out[1]? = some 0x4D ∧
      readU32 out 2 = 70 ∧ readU32 out 10 = 54 ∧ readU32 out 14 = 40 ∧
      (readU32 out 18 : Int) = 2 ∧ toI32 (readU32 out 22) = 2 ∧ readU16 out 26 = 1 ∧
      (readU16 out 28 : Int) = 24 ∧ readU32 out 30 = 0 ∧ readU32 out 34 = 16 := by
  refine ⟨by decide, ?_⟩
  obtain ⟨out, h1, _, h3, h4, h5, _, h7, h8, h9, _, h11, h12, h13, h14, h15, _⟩ :=
    C4_encode_header sampleImage (by decide)
  exact ⟨out, h1, h3, h4, h5, h7, h8, h9, h11, h12, h13, h14, h15⟩

/-! ## Lemmas on `drawLine` -/

theorem setBlack_spec {img : BMPImage} {W H b : Nat} (g : Geom img W H b)
    (hpx : img.pixels.length = W * H * b) (x y : Int) :
    ∃ img1, setBlack img x y = some img1 ∧ img1.width = img.width ∧
      img1.height = img.height ∧ img1.topDown = img.topDown ∧
      img1.bytesPerPixel = img.bytesPerPixel ∧ img1.pixels.length = img.pixels.length ∧
      ∀ i, img1.pixels[i]? = if covers W H b x y i then some (inkAt b i) else img.pixels[i]? := by
  unfold setBlack
  by_cases hout : x < 0 ∨ x ≥ img.width ∨ y < 0 ∨ y ≥ img.height
  · rw [if_pos hout]
    refine ⟨img, rfl, rfl, rfl, rfl, rfl, rfl, ?_⟩
    intro i
    rw [if_neg]
    unfold covers
    rw [g.hw, g.hh] at hout
    omega
  · rw [if_neg hout]
    rw [g.hw, g.hh] at hout
    have hx : x.toNat < W := by omega
    have hy : y.toNat < H := by omega
    have ex : x = (x.toNat : Int) := by omega
    have ey : y = (y.toNat : Int) := by omega
    have hidx : img.idx x y = (y.toNat * W + x.toNat) * b := by
      rw [ex, ey]; simp only [Int.toNat_ofNat]; exact geom_idx_eq g hx hy
    have hcov : ∀ i, covers W H b x y i ↔
        ((y.toNat * W + x.toNat) * b ≤ i ∧ i < (y.toNat * W + x.toNat) * b + b) := by
      intro i; unfold covers; constructor
      · intro h; exact ⟨h.2.2.2.2.1, h.2.2.2.2.2⟩
      · intro h; exact ⟨by omega, by omega, by omega, by omega, h.1, h.2⟩
    have hlast : (y.toNat * W + x.toNat) * b + b ≤ img.pixels.length := by
      rw [hpx]
      have h1 := row_bound hy hx
      have h2 : (y.toNat * W + x.toNat + 1) * b ≤ H * W * b := Nat.mul_le_mul_right b h1
      rw [Nat.succ_mul] at h2
      rw [Nat.mul_comm W H]
      exact h2
    simp only [hidx, hcov, g.hb]
    clear hidx hcov hout ex ey
    generalize (y.toNat * W + x.toNat) = q at *
    generalize img.pixels = px at *
    rcases g.hb34 with rfl | rfl
    · simp only [Nat.add_zero, Option.bind_eq_bind, Option.pure_def,
        show ¬ (((3 : Nat) : Int) = 4) by omega, if_false]
      rw [vecSet_of_lt _ (by omega)]
      simp only [Option.some_bind]
      rw [vecSet_of_lt _ (by simp; omega)]
      simp only [Option.some_bind]
      rw [vecSet_of_lt _ (by simp; omega)]
      refine ⟨_, rfl, rfl, rfl, rfl, rfl, by simp, ?_⟩
      intro i
      simp only []
      rw [getElem?_set3 _ _ _ _ _ (by omega)]
      unfold inkAt
      by_cases h0 : i = q * 3
      · rw [if_pos h0, if_pos (by omega)]; simp
      by_cases h1 : i = q * 3 + 1
      · rw [if_neg h0, if_pos h1, if_pos (by omega)]; simp
      by_cases h2 : i = q * 3 + 2
      · rw [if_neg h0, if_neg h1, if_pos h2, if_pos (by omega)]; simp
      rw [if_neg h0, if_neg h1, if_neg h2, if_neg (by omega)]
    · simp only [Nat.add_zero, Option.bind_eq_bind, Option.pure_def,
        show (((4 : Nat) : Int) = 4) by omega, if_true]
      rw [vecSet_of_lt _ (by omega)]
      simp only [Option.some_bind]
      rw [vecSet_of_lt _ (by simp; omega)]
      simp only [Option.some_bind]
      rw [vecSet_of_lt _ (by simp; omega)]
      simp only [Option.some_bind]
      rw [vecSet_of_lt _ (by simp; omega)]
      refine ⟨_, rfl, rfl, rfl, rfl, rfl, by simp, ?_⟩
      intro i
      simp only []
      rw [getElem?_set4 _ _ _ _ _ _ (by omega)]
      unfold inkAt
      by_cases h0 : i = q * 4
      · rw [if_pos h0, if_pos (by omega), if_neg (by omega)]
      by_cases h1 : i = q * 4 + 1
      · rw [if_neg h0, if_pos h1, if_pos (by omega), if_neg (by omega)]
      by_cases h2 : i = q * 4 + 2
      · rw [if_neg h0, if_neg h1, if_pos h2, if_pos (by omega), if_neg (by omega)]
      by_cases h3 : i = q * 4 + 3
      · rw [if_neg h0, if_neg h1, if_neg h2, if_pos h3, if_pos (by omega), if_pos (by omega)]
      rw [if_neg h0, if_neg h1, if_neg h2, if_neg h3, if_neg (by omega)]

theorem lineStep_spec {x0 y0 x1 y1 a b sx sy : Int} {s : LineState} {i j : Int}
    (hsx : sx = 1 ∨ sx = -1) (hsy : sy = 1 ∨ sy = -1) (ha : 0 ≤ a) (hb : 0 ≤ b)
    (h3a : 3 * a ≤ 2147483647) (h3b : 3 * b ≤ 2147483647)
    (hx0 : isInt32 x0) (hy0 : isInt32 y0) (hx1 : isInt32 x1) (hy1 : isInt32 y1)
    (ex1 : x1 = x0 + sx * a) (ey1 : y1 = y0 + sy * b)
    (inv : LineInv x0 y0 a b sx sy s i j) (hnot : ¬ (i = a ∧ j = b)) :
    ∃ s1 i1 j1, lineStep a (-b) sx sy s = some s1 ∧ LineInv x0 y0 a b sx sy s1 i1 j1 ∧
      (a - i1) + (b - j1) < (a - i) + (b - j) := by
  obtain ⟨hi0, hia, hj0, hjb, hx, hy, herr, hlo, hhi⟩ := inv
  unfold isInt32 at hx0 hy0 hx1 hy1
  have hF1 : j < b → a * j + a ≤ a * b := by
    intro h
    have := Int.mul_le_mul_of_nonneg_left (show j + 1 ≤ b by omega) ha
    rw [Int.mul_add, Int.mul_one] at this
    exact this
  have hF2 : i < a → b * i + b ≤ a * b := by
    intro h
    have := Int.mul_le_mul_of_nonneg_left (show i + 1 ≤ a by omega) hb
    rw [Int.mul_add, Int.mul_one, Int.mul_comm b a] at this
    exact this
  have hF3 : i = a → b * i = a * b := by intro h; rw [h, Int.mul_comm]
  have hF4 : j = b → a * j = a * b := by intro h; rw [h]
  have hQ : b * (i + 1) = b * i + b := by rw [Int.mul_add, Int.mul_one]
  have hP : a * (j + 1) = a * j + a := by rw [Int.mul_add, Int.mul_one]
  have hsxi : sx * (i + 1) = sx * i + sx := by rw [Int.mul_add, Int.mul_one]
  have hsyj : sy * (j + 1) = sy * j + sy := by rw [Int.mul_add, Int.mul_one]
  have hxa : (sx * i = i ∧ sx * a = a ∧ sx = 1) ∨ (sx * i = -i ∧ sx * a = -a ∧ sx = -1) := by
    rcases hsx with h | h
    · left; rw [h]; omega
    · right; rw [h]; omega
  have hyb : (sy * j = j ∧ sy * b = b ∧ sy = 1) ∨ (sy * j = -j ∧ sy * b = -b ∧ sy = -1) := by
    rcases hsy with h | h
    · left; rw [h]; omega
    · right; rw [h]; omega
  generalize hPd : a * j = P at *
  generalize hQd : b * i = Q at *
  generalize hRd : a * b = R at *
  unfold lineStep
  rw [int32_of_isInt32 (by unfold isInt32; omega)]
  simp only [Option.bind_eq_bind, Option.some_bind, Option.pure_def, ge_iff_le]
  by_cases hcx : -b ≤ 2 * s.err
  · have hia2 : i < a := by
      by_contra hge
      have hie : i = a := by omega
      have := hF3 hie
      have hjl : j < b := by omega
      have := hF1 hjl
      omega
    have := hF2 hia2
    rw [if_pos hcx]
    rw [int32_of_isInt32 (by unfold isInt32; omega)]
    simp only [Option.some_bind]
    rw [int32_of_isInt32 (by unfold isInt32; rcases hxa with h | h <;> omega)]
    simp only [Option.some_bind]
    by_cases hcy : 2 * s.err ≤ a
    · have hjb2 : j < b := by
        by_contra hge
        have hje : j = b := by omega
        have := hF4 hje
        omega
      have := hF1 hjb2
      rw [if_pos hcy]
      rw [int32_of_isInt32 (by unfold isInt32; omega)]
      simp only [Option.some_bind]
      rw [int32_of_isInt32 (by unfold isInt32; rcases hyb with h | h <;> omega)]
      simp only [Option.some_bind]
      refine ⟨_, i + 1, j + 1, rfl, ⟨by omega, by omega, by omega, by omega, ?_, ?_, ?_, ?_, ?_⟩,
        by omega⟩
      · simp only []; rw [hsxi]; omega
      · simp only []; rw [hsyj]; omega
      · simp only [hP, hQ, hPd, hQd]; omega
      · simp only [hP, hQ, hPd, hQd]; omega
      · simp only [hP, hQ, hPd, hQd]; omega
    · rw [if_neg hcy]
      refine ⟨_, i + 1, j, rfl, ⟨by omega, by omega, by omega, by omega, ?_, ?_, ?_, ?_, ?_⟩,
        by omega⟩
      · simp only []; rw [hsxi]; omega
      · simp only []; omega
      · simp only [hQ, hPd, hQd]; omega
      · simp only [hQ, hPd, hQd]; omega
      · simp only [hQ, hPd, hQd]; omega
  · rw [if_neg hcx]
    simp only [Option.some_bind]
    have hcy : 2 * s.err ≤ a := by omega
    have hjb2 : j < b := by
      by_contra hge
      have hje : j = b := by omega
      have := hF4 hje
      have hil : i < a := by omega
      have := hF2 hil
      omega
    have := hF1 hjb2
    rw [if_pos hcy]
    rw [int32_of_isInt32 (by unfold isInt32; omega)]
    simp only [Option.some_bind]
    rw [int32_of_isInt32 (by unfold isInt32; rcases hyb with h | h <;> omega)]
    simp only [Option.some_bind]
    refine ⟨_, i, j + 1, rfl, ⟨by omega, by omega, by omega, by omega, ?_, ?_, ?_, ?_, ?_⟩,
      by omega⟩
    · simp only []; omega
    · simp only []; rw [hsyj]; omega
    · simp only [hP, hPd, hQd]; omega
    · simp only [hP, hPd, hQd]; omega
    · simp only [hP, hPd, hQd]; omega

theorem geom_of_eq {img img1 : BMPImage} {W H b : Nat} (g : Geom img W H b)
    (hw : img1.width = img.width) (hh : img1.height = img.height)
    (hb : img1.bytesPerPixel = img.bytesPerPixel) : Geom img1 W H b :=
  ⟨hw.trans g.hw, hh.trans g.hh, hb.trans g.hb, g.hb34, g.hW, g.hH⟩

theorem drawLoop_spec {x0 y0 x1 y1 a b sx sy : Int} {W H bp : Nat}
    (hsx : sx = 1 ∨ sx = -1) (hsy : sy = 1 ∨ sy = -1) (ha : 0 ≤ a) (hb : 0 ≤ b)
    (h3a : 3 * a ≤ 2147483647) (h3b : 3 * b ≤ 2147483647)
    (hx0 : isInt32 x0) (hy0 : isInt32 y0) (hx1 : isInt32 x1) (hy1 : isInt32 y1)
    (ex1 : x1 = x0 + sx * a) (ey1 : y1 = y0 + sy * b) :
    ∀ (fuel : Nat) (s : LineState) (img : BMPImage) (i j : Int),
      LineInv x0 y0 a b sx sy s i j → (a - i) + (b - j) < (fuel : Int) →
      Geom img W H bp → img.pixels.length = W * H * bp →
      ∃ pts img1, linePath a (-b) sx sy x1 y1 fuel s = some pts ∧
        drawLoop a (-b) sx sy x1 y1 fuel s img = .returned img1 ∧
        img1.width = img.width ∧ img1.height = img.height ∧ img1.topDown = img.topDown ∧
        img1.bytesPerPixel = img.bytesPerPixel ∧ img1.pixels.length = img.pixels.length ∧
        ∀ k, img1.pixels[k]? =
          if painted W H bp pts k then some (inkAt bp k) else img.pixels[k]? := by
  intro fuel
  induction fuel with
  | zero =>
    intro s img i j inv hm _ _
    have := inv.hia
    have := inv.hjb
    omega
  | succ fuel ih =>
    intro s img i j inv hm g hpx
    obtain ⟨img1, hset, e1, e2, e3, e4, e5, hget1⟩ := setBlack_spec g hpx s.x s.y
    have hend : (s.x = x1 ∧ s.y = y1) ↔ (i = a ∧ j = b) := by
      rw [inv.hx, inv.hy, ex1, ey1]
      rcases hsx with h | h <;> rcases hsy with h2 | h2 <;> rw [h, h2] <;> omega
    unfold linePath drawLoop
    rw [hset]
    simp only []
    by_cases hfin : s.x = x1 ∧ s.y = y1
    · rw [if_pos hfin, if_pos hfin]
      refine ⟨_, img1, rfl, rfl, e1, e2, e3, e4, e5, ?_⟩
      intro k
      rw [hget1 k]
      have : painted W H bp [(s.x, s.y)] k ↔ covers W H bp s.x s.y k := by
        unfold painted; simp
      simp only [this]
    · rw [if_neg hfin, if_neg hfin]
      obtain ⟨s1, i1, j1, hstep, inv1, hdec⟩ := lineStep_spec hsx hsy ha hb h3a h3b hx0 hy0 hx1 hy1
        ex1 ey1 inv (fun h => hfin (hend.mpr h))
      obtain ⟨pts, img2, hpath, hloop, f1, f2, f3, f4, f5, hget2⟩ :=
        ih s1 img1 i1 j1 inv1 (by omega) (geom_of_eq g e1 e2 e4) (by rw [e5, hpx])
      rw [hstep]
      simp only [hpath, Option.map_some']
      refine ⟨_, img2, rfl, hloop, f1.trans e1, f2.trans e2, f3.trans e3, f4.trans e4,
        f5.trans e5, ?_⟩
      intro k
      rw [hget2 k, hget1 k]
      have : painted W H bp ((s.x, s.y) :: pts) k ↔
          (covers W H bp s.x s.y k ∨ painted W H bp pts k) := by
        unfold painted; simp
      by_cases hp : painted W H bp pts k
      · rw [if_pos hp, if_pos (this.mpr (Or.inr hp))]
      · rw [if_neg hp]
        by_cases hc : covers W H bp s.x s.y k
        · rw [if_pos hc, if_pos (this.mpr (Or.inl hc))]
        · rw [if_neg hc, if_neg (fun h => (this.mp h).elim hc hp)]

theorem lineInit_spec {x0 y0 x1 y1 : Int} (h : LineFits x0 y0 x1 y1) :
    lineInit x0 y0 x1 y1 = some (|x1 - x0|, (if x0 < x1 then 1 else -1), -|y1 - y0|,
      (if y0 < y1 then 1 else -1), |x1 - x0| - |y1 - y0|) := by
  obtain ⟨hx0, hy0, hx1, hy1, ha, hb⟩ := h
  unfold isInt32 at hx0 hy0 hx1 hy1
  have ha0 : 0 ≤ |x1 - x0| := abs_nonneg _
  have hb0 : 0 ≤ |y1 - y0| := abs_nonneg _
  have hax : x1 - x0 ≤ |x1 - x0| := le_abs_self _
  have hax2 : -(x1 - x0) ≤ |x1 - x0| := neg_le_abs _
  have hay : y1 - y0 ≤ |y1 - y0| := le_abs_self _
  have hay2 : -(y1 - y0) ≤ |y1 - y0| := neg_le_abs _
  unfold lineInit
  rw [int32_of_isInt32 (by unfold isInt32; omega)]
  simp only [Option.bind_eq_bind, Option.some_bind]
  rw [int32_of_isInt32 (by unfold isInt32; omega)]
  simp only [Option.some_bind]
  rw [int32_of_isInt32 (by unfold isInt32; omega)]
  simp only [Option.some_bind]
  rw [int32_of_isInt32 (by unfold isInt32; omega)]
  simp only [Option.some_bind]
  rw [int32_of_isInt32 (by unfold isInt32; omega)]
  simp only [Option.some_bind, Option.pure_def]
  rfl

/-- What `drawLine` does on an image of sound geometry, for endpoints that
fit: it returns, and the bytes it has changed are those of the pixels of the
Bresenham path inside the image, each set to its ink. -/
theorem drawLine_spec {img : BMPImage} {W H bp : Nat} (g : Geom img W H bp)
    (hpx : img.pixels.length = W * H * bp) {x0 y0 x1 y1 : Int} (h : LineFits x0 y0 x1 y1)
    (fuel : Nat) (hfuel : |x1 - x0| + |y1 - y0| < (fuel : Int)) :
    ∃ pts img1, bresenham fuel x0 y0 x1 y1 = some pts ∧
      drawLine fuel img x0 y0 x1 y1 = .returned img1 ∧
      img1.width = img.width ∧ img1.height = img.height ∧ img1.topDown = img.topDown ∧
      img1.bytesPerPixel = img.bytesPerPixel ∧ img1.pixels.length = img.pixels.length ∧
      ∀ k, img1.pixels[k]? =
        if painted W H bp pts k then some (inkAt bp k) else img.pixels[k]? := by
  have hinit := lineInit_spec h
  obtain ⟨hx0, hy0, hx1, hy1, ha, hb⟩ := h
  have ha0 : 0 ≤ |x1 - x0| := abs_nonneg _
  have hb0 : 0 ≤ |y1 - y0| := abs_nonneg _
  have ex1 : x1 = x0 + (if x0 < x1 then 1 else -1) * |x1 - x0| := by
    by_cases hlt : x0 < x1
    · rw [if_pos hlt, abs_of_nonneg (by omega)]; omega
    · rw [if_neg hlt, abs_of_nonpos (by omega)]; omega
  have ey1 : y1 = y0 + (if y0 < y1 then 1 else -1) * |y1 - y0| := by
    by_cases hlt : y0 < y1
    · rw [if_pos hlt, abs_of_nonneg (by omega)]; omega
    · rw [if_neg hlt, abs_of_nonpos (by omega)]; omega
  have hsx : (if x0 < x1 then (1 : Int) else -1) = 1 ∨ (if x0 < x1 then (1 : Int) else -1) = -1 := by
    split <;> simp
  have hsy : (if y0 < y1 then (1 : Int) else -1) = 1 ∨ (if y0 < y1 then (1 : Int) else -1) = -1 := by
    split <;> simp
  have inv : LineInv x0 y0 |x1 - x0| |y1 - y0| (if x0 < x1 then 1 else -1)
      (if y0 < y1 then 1 else -1) { x := x0, y := y0, err := |x1 - x0| - |y1 - y0| } 0 0 := by
    refine ⟨by omega, ha0, by omega, hb0, by simp, by simp, by simp, by simp; omega, by simp; omega⟩
  obtain ⟨pts, img1, hpath, hloop, rest⟩ := drawLoop_spec hsx hsy ha0 hb0 ha hb hx0 hy0 hx1 hy1
    ex1 ey1 fuel _ img 0 0 inv (by omega) g hpx
  refine ⟨pts, img1, ?_, ?_, rest⟩
  · unfold bresenham; rw [hinit]; exact hpath
  · unfold drawLine; rw [hinit]; exact hloop

theorem invariant_geom {img : BMPImage} (h : Invariant img)
    (hint : img.width ≤ 2147483647 ∧ img.height ≤ 2147483647) :
    Geom img img.width.toNat img.height.toNat img.bytesPerPixel.toNat ∧
    img.pixels.length = img.width.toNat * img.height.toNat * img.bytesPerPixel.toNat := by
  obtain ⟨hw, hh, hb, hl⟩ := h
  refine ⟨⟨by omega, by omega, by omega, by omega, by omega, by omega⟩, ?_⟩
  have e1 : img.width = (img.width.toNat : Int) := by omega
  have e2 : img.height = (img.height.toNat : Int) := by omega
  have e3 : img.bytesPerPixel = (img.bytesPerPixel.toNat : Int) := by omega
  rw [e1, e2, e3] at hl
  exact_mod_cast hl

theorem covers_same_pixel {W H b : Nat} (hb : b = 3 ∨ b = 4) {x y px py : Int} {c : Nat}
    (hx0 : 0 ≤ x) (hxW : x < (W : Int)) (hy0 : 0 ≤ y) (hc : c < b)
    (h : covers W H b px py ((y.toNat * W + x.toNat) * b + c)) : px = x ∧ py = y := by
  obtain ⟨p1, p2, p3, p4, p5, p6⟩ := h
  have hq : py.toNat * W + px.toNat = y.toNat * W + x.toNat := by
    rcases hb with rfl | rfl <;> omega
  have hxn : x.toNat < W := by omega
  have hpn : px.toNat < W := by omega
  have hyy : py.toNat = y.toNat := by
    rcases Nat.lt_trichotomy py.toNat y.toNat with hlt | heq | hgt
    · have h1 : (py.toNat + 1) * W ≤ y.toNat * W := Nat.mul_le_mul_right W hlt
      rw [Nat.succ_mul] at h1
      omega
    · exact heq
    · have h1 : (y.toNat + 1) * W ≤ py.toNat * W := Nat.mul_le_mul_right W hgt
      rw [Nat.succ_mul] at h1
      omega
  rw [hyy] at hq
  constructor <;> omega

theorem covers_own_pixel {W H b : Nat} {x y : Int} {c : Nat}
    (hx0 : 0 ≤ x) (hxW : x < (W : Int)) (hy0 : 0 ≤ y) (hyH : y < (H : Int)) (hc : c < b) :
    covers W H b x y ((y.toNat * W + x.toNat) * b + c) :=
  ⟨hx0, hxW, hy0, hyH, by omega, by omega⟩

/-- C10, amended.  For every image that satisfies the invariant and all
endpoints that are values of `int` with `3 * |x1 - x0|` and `3 * |y1 - y0|`
at most `INT_MAX` (endpoints outside the image included), `drawLine`
returns, with no out-of-range access and no overflow, once the model grants
it more than `|x1 - x0| + |y1 - y0|` iterations, and afterwards (a) every
point of the Bresenham path inside the image has its B, G, R bytes 0 and,
at 4 bytes per pixel, its alpha byte 255; (b) every byte of every other
pixel is unchanged; (c) width, height, bytesPerPixel, topDown and the length
of pixels are unchanged. -/
theorem C10_drawLine_clipped (img : BMPImage) (hinv : Invariant img)
    (hint : img.width ≤ 2147483647 ∧ img.height ≤ 2147483647)
    (x0 y0 x1 y1 : Int) (hfit : LineFits x0 y0 x1 y1)
    (fuel : Nat) (hfuel : |x1 - x0| + |y1 - y0| < (fuel : Int)) :
    ∃ pts img1, bresenham fuel x0 y0 x1 y1 = some pts ∧
      drawLine fuel img x0 y0 x1 y1 = .returned img1 ∧
      (∀ x y, (x, y) ∈ pts → 0 ≤ x → x < img.width → 0 ≤ y → y < img.height →
        img1.pixels[pixelAt img x y]? = some 0 ∧ img1.pixels[pixelAt img x y + 1]? = some 0 ∧
        img1.pixels[pixelAt img x y + 2]? = some 0 ∧
        (img.bytesPerPixel = 4 → img1.pixels[pixelAt img x y + 3]? = some 255)) ∧
      (∀ x y, (x, y) ∉ pts → 0 ≤ x → x < img.width → 0 ≤ y → y < img.height →
        ∀ c : Nat, (c : Int) < img.bytesPerPixel →
          img1.pixels[pixelAt img x y + c]? = img.pixels[pixelAt img x y + c]?) ∧
      img1.width = img.width ∧ img1.height = img.height ∧
      img1.bytesPerPixel = img.bytesPerPixel ∧ img1.topDown = img.topDown ∧
      img1.pixels.length = img.pixels.length := by
  obtain ⟨g, hpx⟩ := invariant_geom hinv hint
  obtain ⟨pts, img1, hpath, hdraw, e1, e2, e3, e4, e5, hget⟩ :=
    drawLine_spec g hpx hfit fuel hfuel
  have hw := g.hw
  have hh := g.hh
  have hbb := g.hb
  have hb34 := g.hb34
  refine ⟨pts, img1, hpath, hdraw, ?_, ?_, e1, e2, e4, e3, e5⟩
  · intro x y hmem hx0 hxw hy0 hyh
    have hcov : ∀ c, c < img.bytesPerPixel.toNat →
        painted img.width.toNat img.height.toNat img.bytesPerPixel.toNat pts (pixelAt img x y + c) :=
      fun c hc => ⟨(x, y), hmem, covers_own_pixel hx0 (by omega) hy0 (by omega) hc⟩
    have hmod : ∀ c, img.bytesPerPixel.toNat = 4 → (pixelAt img x y + c) % 4 = c % 4 := by
      intro c h4; unfold pixelAt; rw [h4]; omega
    have hink : ∀ c, c < 3 → inkAt img.bytesPerPixel.toNat (pixelAt img x y + c) = 0 := by
      intro c hc
      unfold inkAt
      rw [if_neg]
      intro ⟨h4, h3⟩
      rw [hmod c h4] at h3
      omega
    have h0 := hget (pixelAt img x y + 0)
    have h1 := hget (pixelAt img x y + 1)
    have h2 := hget (pixelAt img x y + 2)
    rw [if_pos (hcov 0 (by omega)), hink 0 (by omega)] at h0
    rw [if_pos (hcov 1 (by omega)), hink 1 (by omega)] at h1
    rw [if_pos (hcov 2 (by omega)), hink 2 (by omega)] at h2
    refine ⟨h0, h1, h2, ?_⟩
    intro h4
    have h4n : img.bytesPerPixel.toNat = 4 := by omega
    have h3 := hget (pixelAt img x y + 3)
    rw [if_pos (hcov 3 (by omega))] at h3
    rw [h3]
    unfold inkAt
    rw [if_pos ⟨h4n, by rw [hmod 3 h4n]⟩]
  · intro x y hmem hx0 hxw hy0 hyh c hc
    rw [hget (pixelAt img x y + c), if_neg]
    rintro ⟨p, hp, hcov⟩
    have := covers_same_pixel hb34 hx0 (by omega) hy0 (show c < img.bytesPerPixel.toNat by omega)
      hcov
    apply hmem
    have hpe : p = (x, y) := Prod.ext this.1 this.2
    rw [← hpe]; exact hp

/-- C10 as stated fails: from (0, 0) to (1073741824, 0) the first `2 * err`
overflows `int`, and `drawLine` does not return, however many iterations the
model grants it. -/
theorem C10_long_line_overflows :
    ¬ ∃ fuel img1, drawLine fuel sampleImage 0 0 1073741824 0 = .returned img1 := by
  rintro ⟨fuel, img1, h⟩
  cases fuel with
  | zero =>
    have : drawLine 0 sampleImage 0 0 1073741824 0 = .outOfFuel := by rfl
    rw [this] at h
    cases h
  | succ n =>
    have : drawLine (n + 1) sampleImage 0 0 1073741824 0 = .undefined := by rfl
    rw [this] at h
    cases h

/-- C10 amended, at the 2x2 sample image and the line from (-5, -5) to
(7, 7), which leaves the image at both ends: the pixels (0, 0) and (1, 1)
turn black. -/
theorem C10_drawLine_clipped_witness :
    drawLine 25 sampleImage (-5) (-5) 7 7
      = .returned ⟨2, 2, false, 3, [0, 0, 0, 10, 11, 12, 1, 2, 3, 0, 0, 0]⟩ ∧
    ∃ pts img1, bresenham 25 (-5) (-5) 7 7 = some pts ∧
      drawLine 25 sampleImage (-5) (-5) 7 7 = .returned img1 ∧
      (∀ x y, (x, y) ∈ pts → 0 ≤ x → x < sampleImage.width → 0 ≤ y → y < sampleImage.height →
        img1.pixels[pixelAt sampleImage x y]? = some 0 ∧
        img1.pixels[pixelAt sampleImage x y + 1]? = some 0 ∧
        img1.pixels[pixelAt sampleImage x y + 2]? = some 0 ∧
        (sampleImage.bytesPerPixel = 4 → img1.pixels[pixelAt sampleImage x y + 3]? = some 255)) ∧
      (∀ x y, (x, y) ∉ pts → 0 ≤ x → x < sampleImage.width → 0 ≤ y → y < sampleImage.height →
        ∀ c : Nat, (c : Int) < sampleImage.bytesPerPixel →
          img1.pixels[pixelAt sampleImage x y + c]?
            = sampleImage.pixels[pixelAt sampleImage x y + c]?) ∧
      img1.width = sampleImage.width ∧ img1.height = sampleImage.height ∧
      img1.bytesPerPixel = sampleImage.bytesPerPixel ∧ img1.topDown = sampleImage.topDown ∧
      img1.pixels.length = sampleImage.pixels.length :=
  ⟨by decide,
   C10_drawLine_clipped sampleImage (by decide) (by decide) (-5) (-5) 7 7 (by decide) 25
     (by decide)⟩

theorem vecSet_length {v v1 : List Byte} {i : Nat} {a : Byte} (h : vecSet v i a = some v1) :
    v1.length = v.length := by
  unfold vecSet at h
  split at h
  · injection h with h; rw [← h]; simp
  · cases h

theorem setBlack_frame {img img1 : BMPImage} {x y : Int} (h : setBlack img x y = some img1) :
    img1.width = img.width ∧ img1.height = img.height ∧ img1.topDown = img.topDown ∧
    img1.bytesPerPixel = img.bytesPerPixel ∧ img1.pixels.length = img.pixels.length := by
  unfold setBlack at h
  split at h
  · injection h with h; rw [← h]; exact ⟨rfl, rfl, rfl, rfl, rfl⟩
  · simp only [Option.bind_eq_bind, Option.bind_eq_some, Option.pure_def] at h
    obtain ⟨p0, h0, p1, h1, p2, h2, h3⟩ := h
    have l0 := vecSet_length h0
    have l1 := vecSet_length h1
    have l2 := vecSet_length h2
    split at h3
    · simp only [Option.bind_eq_some] at h3
      obtain ⟨p3, h4, h5⟩ := h3
      have l3 := vecSet_length h4
      injection h5 with h5
      rw [← h5]
      exact ⟨rfl, rfl, rfl, rfl, by simp only []; omega⟩
    · injection h3 with h3
      rw [← h3]
      exact ⟨rfl, rfl, rfl, rfl, by simp only []; omega⟩

theorem drawLoop_frame (dx dy sx sy x1 y1 : Int) :
    ∀ (fuel : Nat) (s : LineState) (img img1 : BMPImage),
      drawLoop dx dy sx sy x1 y1 fuel s img = .returned img1 →
      img1.width = img.width ∧ img1.height = img.height ∧ img1.topDown = img.topDown ∧
      img1.bytesPerPixel = img.bytesPerPixel ∧ img1.pixels.length = img.pixels.length := by
  intro fuel
  induction fuel with
  | zero => intro s img img1 h; cases h
  | succ fuel ih =>
    intro s img img1 h
    unfold drawLoop at h
    split at h
    · cases h
    · rename_i img2 hset
      obtain ⟨e1, e2, e3, e4, e5⟩ := setBlack_frame hset
      split at h
      · injection h with h
        rw [← h]; exact ⟨e1, e2, e3, e4, e5⟩
      · split at h
        · cases h
        · obtain ⟨f1, f2, f3, f4, f5⟩ := ih _ _ _ h
          exact ⟨f1.trans e1, f2.trans e2, f3.trans e3, f4.trans e4, f5.trans e5⟩

theorem drawLine_frame {fuel : Nat} {img img1 : BMPImage} {x0 y0 x1 y1 : Int}
    (h : drawLine fuel img x0 y0 x1 y1 = .returned img1) :
    img1.width = img.width ∧ img1.height = img.height ∧ img1.topDown = img.topDown ∧
    img1.bytesPerPixel = img.bytesPerPixel ∧ img1.pixels.length = img.pixels.length := by
  unfold drawLine at h
  split at h
  · cases h
  · exact drawLoop_frame _ _ _ _ _ _ _ _ _ _ h

theorem invariant_of_frame {img img1 : BMPImage} (h : Invariant img)
    (e : img1.width = img.width ∧ img1.height = img.height ∧ img1.topDown = img.topDown ∧
      img1.bytesPerPixel = img.bytesPerPixel ∧ img1.pixels.length = img.pixels.length) :
    Invariant img1 := by
  obtain ⟨e1, e2, _, e4, e5⟩ := e
  unfold Invariant at *
  rw [e1, e2, e4, e5]
  exact h

theorem drawLines_frame (fuel : Nat) :
    ∀ (calls : List (Int × Int × Int × Int)) (img img1 : BMPImage),
      drawLines fuel img calls = .returned img1 →
      img1.width = img.width ∧ img1.height = img.height ∧ img1.topDown = img.topDown ∧
      img1.bytesPerPixel = img.bytesPerPixel ∧ img1.pixels.length = img.pixels.length := by
  intro calls
  induction calls with
  | nil =>
    intro img img1 h
    unfold drawLines at h
    injection h with h
    rw [← h]; exact ⟨rfl, rfl, rfl, rfl, rfl⟩
  | cons c rest ih =>
    intro img img1 h
    obtain ⟨x0, y0, x1, y1⟩ := c
    unfold drawLines at h
    split at h
    · rename_i img2 hd
      obtain ⟨e1, e2, e3, e4, e5⟩ := drawLine_frame hd
      obtain ⟨f1, f2, f3, f4, f5⟩ := ih _ _ h
      exact ⟨f1.trans e1, f2.trans e2, f3.trans e3, f4.trans e4, f5.trans e5⟩
    · rename_i hne
      exact absurd h (by intro h2; exact hne _ h2)

theorem drawLines_returns (fuel : Nat) :
    ∀ (calls : List (Int × Int × Int × Int)) (img : BMPImage), Invariant img →
      img.width ≤ 2147483647 ∧ img.height ≤ 2147483647 →
      (∀ c ∈ calls, LineFits c.1 c.2.1 c.2.2.1 c.2.2.2 ∧
        |c.2.2.1 - c.1| + |c.2.2.2 - c.2.1| < (fuel : Int)) →
      ∃ img1, drawLines fuel img calls = .returned img1 := by
  intro calls
  induction calls with
  | nil => intro img _ _ _; exact ⟨img, rfl⟩
  | cons c rest ih =>
    intro img hinv hint hc
    obtain ⟨x0, y0, x1, y1⟩ := c
    obtain ⟨hfit, hfuel⟩ := hc (x0, y0, x1, y1) (List.mem_cons_self _ _)
    obtain ⟨g, hpx⟩ := invariant_geom hinv hint
    obtain ⟨_, img1, _, hdraw, e1, e2, e3, e4, e5, _⟩ := drawLine_spec g hpx hfit fuel hfuel
    obtain ⟨img2, h2⟩ := ih img1 (invariant_of_frame hinv ⟨e1, e2, e3, e4, e5⟩)
      (by rw [e1, e2]; exact hint) (fun c hc2 => hc c (List.mem_cons_of_mem _ hc2))
    refine ⟨img2, ?_⟩
    unfold drawLines
    simp only [hdraw]
    exact h2

/-- C8. Image invariant: after every successful `load`, and after any
sequence of `drawLine` calls that follows it, the image has positive width
and height, 3 or 4 bytes per pixel, `width * height * bytesPerPixel` pixel
bytes, and `bytesPerPixel` is the bit count of the file divided by 8.  Every
sequence of calls whose lines fit returns, given enough iterations. -/
theorem C8_image_invariant (self : BMPImage) (file : List Byte) (s : BMPImage)
    (h : load self file = (.success, s)) :
    Invariant s ∧ s.bytesPerPixel = ((biBitCount file / 8 : Nat) : Int) ∧
    (∀ (fuel : Nat) (calls : List (Int × Int × Int × Int)) (s1 : BMPImage),
      drawLines fuel s calls = .returned s1 →
      Invariant s1 ∧ s1.bytesPerPixel = ((biBitCount file / 8 : Nat) : Int)) ∧
    (∀ (fuel : Nat) (calls : List (Int × Int × Int × Int)),
      (∀ c ∈ calls, LineFits c.1 c.2.1 c.2.2.1 c.2.2.2 ∧
        |c.2.2.1 - c.1| + |c.2.2.2 - c.2.1| < (fuel : Int)) →
      ∃ s1, drawLines fuel s calls = .returned s1) := by
  obtain ⟨hok, _, _, px, rfl, hpl, _⟩ := load_success self h
  obtain ⟨hW0, hW, hH0, hH, _, _, hb⟩ := headerOk_geom hok
  have hinv : Invariant (decoded file px) := by
    unfold Invariant decoded
    refine ⟨by simp only []; omega, by simp only []; omega, by simp only []; omega, ?_⟩
    simp only []
    rw [hpl]
    push_cast
    rfl
  refine ⟨hinv, rfl, ?_, ?_⟩
  · intro fuel calls s1 hd
    have e := drawLines_frame fuel calls _ _ hd
    exact ⟨invariant_of_frame hinv e, e.2.2.2.1⟩
  · intro fuel calls hc
    exact drawLines_returns fuel calls _ hinv
      (by unfold decoded; simp only []; omega) hc

/-- C8 at the 2x2 sample file, followed by the two diagonals. -/
theorem C8_image_invariant_witness :
    load BMPImage.new sampleFile = (.success, sampleImage) ∧
    Invariant sampleImage ∧ sampleImage.bytesPerPixel = ((biBitCount sampleFile / 8 : Nat) : Int) ∧
    ∃ s1, drawLines 10 sampleImage [(0, 0, 1, 1), (1, 0, 0, 1)] = .returned s1 ∧ Invariant s1 := by
  have h := C8_image_invariant BMPImage.new sampleFile sampleImage (by decide)
  obtain ⟨s1, hs1⟩ := h.2.2.2 10 [(0, 0, 1, 1), (1, 0, 0, 1)] (by decide)
  exact ⟨by decide, h.1, h.2.1, s1, hs1, (h.2.2.1 10 _ s1 hs1).1⟩

/-! ## Encoded size, re-encoding, header size and the failure of `save` -/

theorem load_saved (self : BMPImage) {img : BMPImage} (h : Valid img) {out : List Byte}
    (hsave : save img = (.success, out)) : load self out = (.success, img) := by
  obtain ⟨out1, hsave1, hlen, hpre, hget⟩ := save_spec h
  have heq : out1 = out := by
    rw [hsave] at hsave1
    exact (Prod.mk.inj hsave1).2.symm
  subst heq
  obtain ⟨⟨hok, hfit, hl⟩, eO, eW, eH, eT, eB, eS⟩ := saved_geometry h hlen hpre
  obtain ⟨px, hload, hpl, hpx⟩ := load_ok self hok hfit hl
  obtain ⟨g, hil, hW0, hH0⟩ := valid_geom h
  rw [hload]
  rw [eW, eH, eB] at hpl
  rw [eO, eW, eH, eT, eB, eS] at hpx
  have hb0 : 0 < img.bytesPerPixel.toNat := by have := g.hb34; omega
  have hle := le_rowStride img.width.toNat img.bytesPerPixel.toNat
  have hpe : px = img.pixels := by
    apply pixels_ext hW0 hb0 px img.pixels hpl hil
    intro y x c hy hx hc
    have hfr : fileRow img.topDown img.height.toNat y < img.height.toNat := fileRow_lt hy
    have hj : x * img.bytesPerPixel.toNat + c < img.width.toNat * img.bytesPerPixel.toNat := by
      have := pix_index_lt (show 0 < 1 by omega) hx hc
      simpa using this
    rw [hpx y x c hy hx hc, Nat.add_assoc,
      hget _ _ hfr (by unfold imgStride; omega), if_pos hj, fileRow_fileRow hy]
    have e : fileRow img.topDown img.height.toNat
          (fileRow img.topDown img.height.toNat y) = y := fileRow_fileRow hy
    have e2 : y * img.width.toNat * img.bytesPerPixel.toNat + (x * img.bytesPerPixel.toNat + c)
        = (y * img.width.toNat + x) * img.bytesPerPixel.toNat + c := by
      rw [Nat.add_mul]; omega
    rw [e2]
  subst hpe
  unfold decoded
  rw [eW, eH, eT, eB]
  have e1 := g.hw
  have e2 := g.hh
  have e3 := g.hb
  cases img
  simp only at e1 e2 e3 ⊢
  rw [← e1, ← e2, ← e3]

/-- C11. Encoded size: for every valid image `save` emits exactly
`14 + 40 + row_stride * height` bytes, `row_stride = ceil(width *
bytesPerPixel / 4) * 4`, and that number is the file size written in bytes
2-5 of the header.  The 4x4 24-bit bottom-up image with every pixel byte 255
encodes to 102 bytes, and decoding those bytes gives width 4, height 4, 3
bytes per pixel and every pixel byte 255. -/
theorem C11_encoded_size (img : BMPImage) (h : Valid img) :
    (∃ out, save img = (.success, out) ∧
      out.length = 14 + 40 + imgStride img * img.height.toNat ∧
      imgStride img = (img.width.toNat * img.bytesPerPixel.toNat + 3) / 4 * 4 ∧
      readU32 out 2 = out.length) ∧
    (∃ out s, save white4x4 = (.success, out) ∧ out.length = 102 ∧
      load BMPImage.new out = (.success, s) ∧ s.width = 4 ∧ s.height = 4 ∧
      s.bytesPerPixel = 3 ∧ ∀ v ∈ s.pixels, v = 255) := by
  constructor
  · obtain ⟨out, hsave, hlen, hpre, _⟩ := save_spec h
    obtain ⟨_, f2, _⟩ := save_header h hpre
    refine ⟨out, hsave, ?_, rfl, ?_⟩
    · rw [hlen, Nat.mul_comm]
    · rw [f2, hlen, Nat.mul_comm]
  · have hv : Valid white4x4 := by decide
    obtain ⟨out, hsave, hlen, _, _⟩ := save_spec hv
    refine ⟨out, white4x4, hsave, ?_, load_saved BMPImage.new hv hsave, rfl, rfl, rfl, ?_⟩
    · rw [hlen]; rfl
    · intro v hv2
      exact List.eq_of_mem_replicate hv2

/-- C11 at the 2x2 sample image: 54 + 8 * 2 = 70 bytes. -/
theorem C11_encoded_size_witness :
    Valid sampleImage ∧
    ∃ out, save sampleImage = (.success, out) ∧ out.length = 70 ∧ readU32 out 2 = 70 := by
  refine ⟨by decide, ?_⟩
  obtain ⟨out, h1, h2, _, h4⟩ := (C11_encoded_size sampleImage (by decide)).1
  exact ⟨out, h1, h2, by rw [h4, h2]; rfl⟩

/-- C12. Re-encode is byte-identical: for every valid image, decoding the
output of `save` (into any object) and saving the decoded image writes the
same bytes again; every output of `save` is a fixed point of load-then-save. -/
theorem C12_reencode_identical (self img : BMPImage) (h : Valid img) :
    ∃ out s, save img = (.success, out) ∧ load self out = (.success, s) ∧
      save s = (.success, out) := by
  obtain ⟨out, hsave, _⟩ := save_spec h
  exact ⟨out, img, hsave, load_saved self h hsave, hsave⟩

/-- C12 at the 2x2 sample image stored top-down, decoded into an object that
holds another image. -/
theorem C12_reencode_identical_witness :
    ∃ out s, save { sampleImage with topDown := true } = (.success, out) ∧
      load white4x4 out = (.success, s) ∧ save s = (.success, out) :=
  C12_reencode_identical white4x4 { sampleImage with topDown := true } (by decide)

set_option maxRecDepth 8000 in
/-- C13, as stated, fails: a file whose DIB header declares 108 bytes (all
present, the pixel data behind them) is loaded. -/
theorem C13_larger_header_accepted :
    ¬ (∀ (self : BMPImage) (file : List Byte),
        (load self file).1 = .success → biSize file = 40) := by
  intro h
  have h1 := h BMPImage.new bigHeaderFile (by decide)
  revert h1
  decide

/-- C13, amended: `load` succeeds only if the DIB header-size field (bytes
14-17) is at least 40 and the header it declares is fully present; a buffer
whose header-size field is smaller than 40 is never loaded, and one with the
magic and at least 18 bytes is rejected as UnsupportedHeader.  Larger
headers are accepted. -/
theorem C13_header_size_at_least_40 (self : BMPImage) (file : List Byte) :
    ((load self file).1 = .success → 40 ≤ biSize file ∧ 14 + biSize file ≤ file.length) ∧
    (biSize file < 40 → (load self file).1 ≠ .success) ∧
    (18 ≤ file.length → bfType file = 0x4D42 → biSize file < 40 →
      rejectedAs (load self file).1 .UnsupportedHeader) := by
  have h1 : (load self file).1 = .success → 40 ≤ biSize file ∧ 14 + biSize file ≤ file.length := by
    intro hs
    obtain ⟨hok, _, _⟩ := (load_success_iff self file).mp hs
    exact ⟨hok.2.2.1, hok.1⟩
  refine ⟨h1, ?_, ?_⟩
  · intro hlt hs
    have := (h1 hs).1
    omega
  · intro hlen hm hlt
    rw [load_eq, if_neg (by omega), if_neg (by simp [hm]), if_neg (by omega), if_pos hlt]
    exact ⟨.headerSize, rfl, rfl⟩

set_option maxRecDepth 8000 in
/-- C13 amended, at a file with a 108-byte DIB header, which is loaded, and
at a file that declares 12 bytes, which is rejected. -/
theorem C13_header_size_at_least_40_witness :
    (load BMPImage.new bigHeaderFile).1 = .success ∧
    (40 ≤ biSize bigHeaderFile ∧ 14 + biSize bigHeaderFile ≤ bigHeaderFile.length) ∧
    rejectedAs (load BMPImage.new coreHeaderFile).1 .UnsupportedHeader :=
  ⟨by decide,
   (C13_header_size_at_least_40 BMPImage.new bigHeaderFile).1 (by decide),
   (C13_header_size_at_least_40 BMPImage.new coreHeaderFile).2.2 (by decide) (by decide)
     (by decide)⟩

theorem saveRows_not_failure (self : BMPImage) (b : Nat) (pad : List Byte) (e : SaveError) :
    ∀ (n row : Nat) (out : List Byte), (saveRows self b pad n row out).1 ≠ .failure e := by
  intro n
  induction n with
  | zero => intro row out; unfold saveRows; simp
  | succ n ih =>
    intro row out
    unfold saveRows
    simp only []
    split
    · simp
    · exact ih _ _

theorem save_failure_iff (img : BMPImage) :
    (∃ e, (save img).1 = .failure e) ↔ (img.width ≤ 0 ∨ img.height ≤ 0) := by
  constructor
  · rintro ⟨e, he⟩
    by_contra hpos
    unfold save at he
    rw [if_neg hpos] at he
    simp only [] at he
    split at he
    · simp at he
    · split at he
      · exact saveRows_not_failure _ _ _ _ _ _ _ he
      · exact saveRows_not_failure _ _ _ _ _ _ _ he
  · intro h
    refine ⟨.noImage, ?_⟩
    unfold save
    rw [if_pos h]

theorem save_succeeds {img : BMPImage} {W H b : Nat} (g : Geom img W H b)
    (hpx : img.pixels.length = W * H * b) (hW : 0 < W) (hH : 0 < H) :
    (save img).1 = .success := by
  have hw := g.hw
  have hh := g.hh
  have hb := g.hb
  have hb34 := g.hb34
  unfold save
  rw [if_neg (by omega)]
  simp only []
  rw [int32_of_isInt32 (by unfold isInt32; omega)]
  simp only []
  have hHn : img.height.toNat = H := by omega
  rw [hHn]
  split
  · rename_i h3
    have hb3 : b = 3 := by omega
    subst hb3
    obtain ⟨out1, hrun, _⟩ := saveRows_spec g hpx
      (if (4 - (toU32 img.width * 3) % 4294967296 % 4) % 4 ≠ 0
        then List.replicate ((4 - (toU32 img.width * 3) % 4294967296 % 4) % 4) 0 else [])
      _ rfl H 0
      (fileHeaderBytes 0x4D42
          ((14 + 40 + ((toU32 img.width * 3) % 4294967296
            + (4 - (toU32 img.width * 3) % 4294967296 % 4) % 4) % 4294967296
              * toU32 img.height % 4294967296) % 4294967296) (14 + 40) ++
        infoHeaderBytes 40 (toU32 img.width)
          (toU32 (if img.topDown then -img.height else img.height))
          (toU32 (img.bytesPerPixel * 8) % 65536) 0
          (((toU32 img.width * 3) % 4294967296
            + (4 - (toU32 img.width * 3) % 4294967296 % 4) % 4) % 4294967296
              * toU32 img.height % 4294967296)) (by omega)
    rw [hrun]
  · rename_i h3
    have hb4 : b = 4 := by omega
    subst hb4
    obtain ⟨out1, hrun, _⟩ := saveRows_spec g hpx [] _ rfl H 0
      (fileHeaderBytes 0x4D42
          ((14 + 40 + ((toU32 img.width * 4) % 4294967296 + 0) % 4294967296
              * toU32 img.height % 4294967296) % 4294967296) (14 + 40) ++
        infoHeaderBytes 40 (toU32 img.width)
          (toU32 (if img.topDown then -img.height else img.height))
          (toU32 (img.bytesPerPixel * 8) % 65536) 0
          (((toU32 img.width * 4) % 4294967296 + 0) % 4294967296
              * toU32 img.height % 4294967296)) (by omega)
    rw [hrun]

/-- C14. Encode failure condition: `save` fails exactly when `width <= 0` or
`height <= 0` (I/O failures aside), with the diagnostic "no image to save",
and then emits no bytes; it fails on a default-constructed `BMPImage` and
succeeds on every image a successful `load` has produced. -/
theorem C14_save_failure_condition (img : BMPImage) :
    ((∃ e, (save img).1 = .failure e) ↔ (img.width ≤ 0 ∨ img.height ≤ 0)) ∧
    ((img.width ≤ 0 ∨ img.height ≤ 0) → save img = (.failure .noImage, [])) ∧
    save BMPImage.new = (.failure .noImage, []) ∧
    (∀ (self : BMPImage) (file : List Byte),
      load self file = (.success, img) → (save img).1 = .success) := by
  refine ⟨save_failure_iff img, ?_, rfl, ?_⟩
  · intro h
    unfold save
    rw [if_pos h]
  · intro self file hl
    obtain ⟨hok, _, _, px, rfl, hpl, _⟩ := load_success self hl
    obtain ⟨hW0, _, hH0, _, _, _, _⟩ := headerOk_geom hok
    exact save_succeeds (decoded_geom hok px) hpl hW0 hH0

/-- C14 at a fresh object, which `save` refuses without writing a byte, and
at the image `load` makes of the 2x2 sample file, which it saves. -/
theorem C14_save_failure_condition_witness :
    save BMPImage.new = (.failure .noImage, []) ∧
    load BMPImage.new sampleFile = (.success, sampleImage) ∧
    (save sampleImage).1 = .success :=
  ⟨(C14_save_failure_condition BMPImage.new).2.2.1, by decide,
   (C14_save_failure_condition sampleImage).2.2.2 BMPImage.new sampleFile (by decide)⟩

/-! ## Order of the checks of load -/

/-- The example of the specification: a header with compression 1, 8 bits
per pixel and 0 planes is reported as an unsupported compression. -/
theorem load_allWrongFile :
    firstFailing allWrongFile = some .UnsupportedCompression ∧
    (load BMPImage.new allWrongFile).1 = .failure .compression ∧
    rejectedAs (load BMPImage.new allWrongFile).1 .UnsupportedCompression := by
  refine ⟨by decide, by decide, .compression, by decide, rfl⟩

/-- The function `loadImage` is `loadImageWith` at the negation of `int`. -/
theorem loadImage_eq_with (self : BMPImage) (file : List Byte) (off : Nat) (w h : Int)
    (bc : Nat) :
    loadImage self file off w h bc = loadImageWith (fun v => int32 (-v)) self file off w h bc :=
  rfl

/-- One iteration of the loop of `drawLine` away from the target: no overflow,
the invariants are kept, each counter stays or advances by one, and the
counter of the longer axis advances. -/
theorem lineStep_detail {x0 y0 x1 y1 a b sx sy : Int} {s : LineState} {i j : Int}
    (hsx : sx = 1 ∨ sx = -1) (hsy : sy = 1 ∨ sy = -1) (ha : 0 ≤ a) (hb : 0 ≤ b)
    (h3a : 3 * a ≤ 2147483647) (h3b : 3 * b ≤ 2147483647)
    (hx0 : isInt32 x0) (hy0 : isInt32 y0) (hx1 : isInt32 x1) (hy1 : isInt32 y1)
    (ex1 : x1 = x0 + sx * a) (ey1 : y1 = y0 + sy * b)
    (inv : LineInv x0 y0 a b sx sy s i j) (maj : MajorInv a b i j)
    (hnot : ¬ (i = a ∧ j = b)) :
    ∃ s1 i1 j1, lineStep a (-b) sx sy s = some s1 ∧ LineInv x0 y0 a b sx sy s1 i1 j1 ∧
      MajorInv a b i1 j1 ∧
      (a - i1) + (b - j1) < (a - i) + (b - j) ∧
      (i1 = i ∨ i1 = i + 1) ∧ (j1 = j ∨ j1 = j + 1) ∧
      (b ≤ a → i1 = i + 1) ∧ (a ≤ b → j1 = j + 1) := by
  obtain ⟨hi0, hia, hj0, hjb, hx, hy, herr, hlo, hhi⟩ := inv
  obtain ⟨hm1, hm2⟩ := maj
  unfold MajorInv
  unfold isInt32 at hx0 hy0 hx1 hy1
  have hF1 : j < b → a * j + a ≤ a * b := by
    intro h
    have := Int.mul_le_mul_of_nonneg_left (show j + 1 ≤ b by omega) ha
    rw [Int.mul_add, Int.mul_one] at this
    exact this
  have hF2 : i < a → b * i + b ≤ a * b := by
    intro h
    have := Int.mul_le_mul_of_nonneg_left (show i + 1 ≤ a by omega) hb
    rw [Int.mul_add, Int.mul_one, Int.mul_comm b a] at this
    exact this
  have hF3 : i = a → b * i = a * b := by intro h; rw [h, Int.mul_comm]
  have hF4 : j = b → a * j = a * b := by intro h; rw [h]
  have hQ : b * (i + 1) = b * i + b := by rw [Int.mul_add, Int.mul_one]
  have hP : a * (j + 1) = a * j + a := by rw [Int.mul_add, Int.mul_one]
  have hsxi : sx * (i + 1) = sx * i + sx := by rw [Int.mul_add, Int.mul_one]
  have hsyj : sy * (j + 1) = sy * j + sy := by rw [Int.mul_add, Int.mul_one]
  have hxa : (sx * i = i ∧ sx * a = a ∧ sx = 1) ∨ (sx * i = -i ∧ sx * a = -a ∧ sx = -1) := by
    rcases hsx with h | h
    · left; rw [h]; omega
    · right; rw [h]; omega
  have hyb : (sy * j = j ∧ sy * b = b ∧ sy = 1) ∨ (sy * j = -j ∧ sy * b = -b ∧ sy = -1) := by
    rcases hsy with h | h
    · left; rw [h]; omega
    · right; rw [h]; omega
  generalize hPd : a * j = P at *
  generalize hQd : b * i = Q at *
  generalize hRd : a * b = R at *
  unfold lineStep
  rw [int32_of_isInt32 (by unfold isInt32; omega)]
  simp only [Option.bind_eq_bind, Option.some_bind, Option.pure_def, ge_iff_le]
  by_cases hcx : -b ≤ 2 * s.err
  · have hia2 : i < a := by
      by_contra hge
      have hie : i = a := by omega
      have := hF3 hie
      have hjl : j < b := by omega
      have := hF1 hjl
      omega
    have := hF2 hia2
    rw [if_pos hcx]
    rw [int32_of_isInt32 (by unfold isInt32; omega)]
    simp only [Option.some_bind]
    rw [int32_of_isInt32 (by unfold isInt32; rcases hxa with h | h <;> omega)]
    simp only [Option.some_bind]
    by_cases hcy : 2 * s.err ≤ a
    · have hjb2 : j < b := by
        by_contra hge
        have hje : j = b := by omega
        have := hF4 hje
        omega
      have := hF1 hjb2
      rw [if_pos hcy]
      rw [int32_of_isInt32 (by unfold isInt32; omega)]
      simp only [Option.some_bind]
      rw [int32_of_isInt32 (by unfold isInt32; rcases hyb with h | h <;> omega)]
      simp only [Option.some_bind]
      refine ⟨_, i + 1, j + 1, rfl, ⟨by omega, by omega, by omega, by omega, ?_, ?_, ?_, ?_, ?_⟩,
        ⟨?_, ?_⟩, by omega, by omega, by omega, by omega, by omega⟩
      · simp only []; rw [hsxi]; omega
      · simp only []; rw [hsyj]; omega
      · simp only [hP, hQ, hPd, hQd]; omega
      · simp only [hP, hQ, hPd, hQd]; omega
      · simp only [hP, hQ, hPd, hQd]; omega
      · simp only [hP, hQ, hPd, hQd]; omega
      · simp only [hP, hQ, hPd, hQd]; omega
    · rw [if_neg hcy]
      refine ⟨_, i + 1, j, rfl, ⟨by omega, by omega, by omega, by omega, ?_, ?_, ?_, ?_, ?_⟩,
        ⟨?_, ?_⟩, by omega, by omega, by omega, by omega, by omega⟩
      · simp only []; rw [hsxi]; omega
      · simp only []; omega
      · simp only [hQ, hPd, hQd]; omega
      · simp only [hQ, hPd, hQd]; omega
      · simp only [hQ, hPd, hQd]; omega
      · simp only [hQ, hPd, hQd]; omega
      · simp only [hQ, hPd, hQd]; omega
  · rw [if_neg hcx]
    simp only [Option.some_bind]
    have hcy : 2 * s.err ≤ a := by omega
    have hjb2 : j < b := by
      by_contra hge
      have hje : j = b := by omega
      have := hF4 hje
      have hil : i < a := by omega
      have := hF2 hil
      omega
    have := hF1 hjb2
    rw [if_pos hcy]
    rw [int32_of_isInt32 (by unfold isInt32; omega)]
    simp only [Option.some_bind]
    rw [int32_of_isInt32 (by unfold isInt32; rcases hyb with h | h <;> omega)]
    simp only [Option.some_bind]
    refine ⟨_, i, j + 1, rfl, ⟨by omega, by omega, by omega, by omega, ?_, ?_, ?_, ?_, ?_⟩,
      ⟨?_, ?_⟩, by omega, by omega, by omega, by omega, by omega⟩
    · simp only []; omega
    · simp only []; rw [hsyj]; omega
    · simp only [hP, hPd, hQd]; omega
    · simp only [hP, hPd, hQd]; omega
    · simp only [hP, hPd, hQd]; omega
    · simp only [hP, hPd, hQd]; omega
    · simp only [hP, hPd, hQd]; omega

/-- A step of the counters is a `lineMove` of the points. -/
theorem lineMove_step {sx sy : Int} (hsx : sx = 1 ∨ sx = -1) (hsy : sy = 1 ∨ sy = -1)
    (x0 y0 : Int) {a b i j i1 j1 : Int} (h5 : i1 ≤ a) (h6 : j1 ≤ b)
    (hi1 : i1 = i ∨ i1 = i + 1) (hj1 : j1 = j ∨ j1 = j + 1) (hne : i1 ≠ i ∨ j1 ≠ j) :
    lineMove sx sy (x0 + sx * a) (y0 + sy * b) (x0 + sx * i, y0 + sy * j)
      (x0 + sx * i1, y0 + sy * j1) := by
  have habs : ∀ u v : Int, 0 ≤ u → (v = u ∨ v = -u) → |v| = u := by
    intro u v hu h
    rcases h with h | h
    · rw [h]; exact abs_of_nonneg hu
    · rw [h, abs_neg]; exact abs_of_nonneg hu
  have hxs : (sx * i = i ∧ sx * i1 = i1 ∧ sx * a = a ∧ sx = 1) ∨
      (sx * i = -i ∧ sx * i1 = -i1 ∧ sx * a = -a ∧ sx = -1) := by
    rcases hsx with h | h
    · left; rw [h]; omega
    · right; rw [h]; omega
  have hys : (sy * j = j ∧ sy * j1 = j1 ∧ sy * b = b ∧ sy = 1) ∨
      (sy * j = -j ∧ sy * j1 = -j1 ∧ sy * b = -b ∧ sy = -1) := by
    rcases hsy with h | h
    · left; rw [h]; omega
    · right; rw [h]; omega
  have A1 : |x0 + sx * a - (x0 + sx * i1)| = a - i1 :=
    habs _ _ (by omega) (by rcases hxs with h | h <;> omega)
  have A2 : |x0 + sx * a - (x0 + sx * i)| = a - i :=
    habs _ _ (by omega) (by rcases hxs with h | h <;> omega)
  have B1 : |y0 + sy * b - (y0 + sy * j1)| = b - j1 :=
    habs _ _ (by omega) (by rcases hys with h | h <;> omega)
  have B2 : |y0 + sy * b - (y0 + sy * j)| = b - j :=
    habs _ _ (by omega) (by rcases hys with h | h <;> omega)
  unfold lineMove
  simp only [ne_eq, Prod.mk.injEq]
  rw [A1, A2, B1, B2]
  refine ⟨?_, ?_, ?_, ?_, ?_, ?_, ?_⟩
  · rcases hxs with h | h <;> omega
  · rcases hys with h | h <;> omega
  · rcases hxs with h | h <;> rcases hys with h2 | h2 <;> omega
  · rw [abs_le]; rcases hxs with h | h <;> omega
  · rw [abs_le]; rcases hys with h | h <;> omega
  · omega
  · omega

/-- More iterations granted do not change a path found. -/
theorem linePath_mono (dx dy sx sy x1 y1 : Int) :
    ∀ (fuel : Nat) (s : LineState) (pts : List (Int × Int)),
      linePath dx dy sx sy x1 y1 fuel s = some pts →
      ∀ n, linePath dx dy sx sy x1 y1 (fuel + n) s = some pts := by
  intro fuel
  induction fuel with
  | zero => intro s pts h; simp [linePath] at h
  | succ fuel ih =>
    intro s pts h n
    rw [show fuel + 1 + n = (fuel + n) + 1 by omega]
    unfold linePath at h ⊢
    by_cases hfin : s.x = x1 ∧ s.y = y1
    · rw [if_pos hfin] at h ⊢; exact h
    · rw [if_neg hfin] at h ⊢
      cases hstep : lineStep dx dy sx sy s with
      | none => rw [hstep] at h; simp at h
      | some s1 =>
        rw [hstep] at h
        simp only [] at h ⊢
        cases hrest : linePath dx dy sx sy x1 y1 fuel s1 with
        | none => rw [hrest] at h; simp at h
        | some r =>
          rw [hrest] at h
          rw [ih s1 r hrest n]
          exact h

/-- The path of the loop of `drawLine` from a state that satisfies the
invariants: it exists once the iterations granted exceed the steps left, starts
at the state, ends at the target, has one point per step left on the longer
axis and one more, and each move is a `lineMove`; its points in the
coordinates of the loop. -/
theorem linePath_spec {x0 y0 x1 y1 a b sx sy : Int}
    (hsx : sx = 1 ∨ sx = -1) (hsy : sy = 1 ∨ sy = -1) (ha : 0 ≤ a) (hb : 0 ≤ b)
    (h3a : 3 * a ≤ 2147483647) (h3b : 3 * b ≤ 2147483647)
    (hx0 : isInt32 x0) (hy0 : isInt32 y0) (hx1 : isInt32 x1) (hy1 : isInt32 y1)
    (ex1 : x1 = x0 + sx * a) (ey1 : y1 = y0 + sy * b) :
    ∀ (fuel : Nat) (s : LineState) (i j : Int),
      LineInv x0 y0 a b sx sy s i j → MajorInv a b i j → (a - i) + (b - j) < (fuel : Int) →
      ∃ pts, linePath a (-b) sx sy x1 y1 fuel s = some pts ∧
        pts.head? = some (s.x, s.y) ∧ pts.getLast? = some (x1, y1) ∧
        (pts.length : Int) = (if b ≤ a then a - i else b - j) + 1 ∧
        List.Chain' (lineMove sx sy x1 y1) pts ∧
        (∀ p ∈ pts, ∃ i1 j1, i ≤ i1 ∧ i1 ≤ a ∧ j ≤ j1 ∧ j1 ≤ b ∧
          p = (x0 + sx * i1, y0 + sy * j1) ∧ (a = b → i1 - j1 = i - j)) ∧
        (b ≤ a → ∀ t, i ≤ t → t ≤ a → ∃ p ∈ pts, p.1 = x0 + sx * t) ∧
        (a ≤ b → ∀ t, j ≤ t → t ≤ b → ∃ p ∈ pts, p.2 = y0 + sy * t) := by
  intro fuel
  induction fuel with
  | zero =>
    intro s i j inv _ hm
    have := inv.hia
    have := inv.hjb
    omega
  | succ fuel ih =>
    intro s i j inv maj hm
    have hend : (s.x = x1 ∧ s.y = y1) ↔ (i = a ∧ j = b) := by
      rw [inv.hx, inv.hy, ex1, ey1]
      rcases hsx with h | h <;> rcases hsy with h2 | h2 <;> rw [h, h2] <;> omega
    unfold linePath
    by_cases hfin : s.x = x1 ∧ s.y = y1
    · rw [if_pos hfin]
      obtain ⟨hi, hj⟩ := hend.mp hfin
      refine ⟨_, rfl, rfl, ?_, ?_, List.chain'_singleton _, ?_, ?_, ?_⟩
      · rw [hfin.1, hfin.2]; rfl
      · simp only [List.length_singleton]; split <;> omega
      · intro p hp
        rw [List.mem_singleton] at hp
        exact ⟨i, j, le_refl _, inv.hia, le_refl _, inv.hjb, by rw [hp, inv.hx, inv.hy],
          fun _ => rfl⟩
      · intro _ t ht1 ht2
        have : t = i := by omega
        exact ⟨(s.x, s.y), List.mem_singleton.mpr rfl, by rw [this]; exact inv.hx⟩
      · intro _ t ht1 ht2
        have : t = j := by omega
        exact ⟨(s.x, s.y), List.mem_singleton.mpr rfl, by rw [this]; exact inv.hy⟩
    · rw [if_neg hfin]
      obtain ⟨s1, i1, j1, hstep, inv1, maj1, hdec, hi1, hj1, hmi, hmj⟩ :=
        lineStep_detail hsx hsy ha hb h3a h3b hx0 hy0 hx1 hy1 ex1 ey1 inv maj
          (fun h => hfin (hend.mpr h))
      obtain ⟨pts, hpath, hhead, hlast, hlen, hchain, hmem, hcx, hcy⟩ :=
        ih s1 i1 j1 inv1 maj1 (by omega)
      rw [hstep]
      simp only [hpath, Option.map_some']
      have hne : pts ≠ [] := by
        intro h; rw [h] at hhead; simp at hhead
      refine ⟨_, rfl, rfl, ?_, ?_, ?_, ?_, ?_, ?_⟩
      · obtain ⟨q, r, hqr⟩ := List.exists_cons_of_ne_nil hne
        rw [hqr, List.getLast?_cons_cons, ← hqr]; exact hlast
      · rw [List.length_cons]; push_cast; rw [hlen]
        by_cases hab : b ≤ a
        · rw [if_pos hab, if_pos hab, hmi hab]; omega
        · rw [if_neg hab, if_neg hab, hmj (by omega)]; omega
      · rw [List.chain'_cons']
        refine ⟨?_, hchain⟩
        intro q hq
        rw [hhead] at hq
        have hq2 : q = (s1.x, s1.y) := by simpa using hq.symm
        rw [hq2]
        rw [inv.hx, inv.hy, inv1.hx, inv1.hy, ex1, ey1]
        exact lineMove_step hsx hsy x0 y0 inv1.hia inv1.hjb hi1 hj1 (by omega)
      · intro p hp
        rw [List.mem_cons] at hp
        rcases hp with hp | hp
        · exact ⟨i, j, le_refl _, inv.hia, le_refl _, inv.hjb, by rw [hp, inv.hx, inv.hy],
            fun _ => rfl⟩
        · obtain ⟨i2, j2, q1, q2, q3, q4, q5, q6⟩ := hmem p hp
          refine ⟨i2, j2, by omega, q2, by omega, q4, q5, ?_⟩
          intro hab
          have := q6 hab
          have := hmi (by omega)
          have := hmj (by omega)
          omega
      · intro hab t ht1 ht2
        by_cases hti : t = i
        · exact ⟨(s.x, s.y), List.mem_cons_self _ _, by rw [hti]; exact inv.hx⟩
        · obtain ⟨p, hp, hpe⟩ := hcx hab t (by have := hmi hab; omega) ht2
          exact ⟨p, List.mem_cons_of_mem _ hp, hpe⟩
      · intro hab t ht1 ht2
        by_cases hti : t = j
        · exact ⟨(s.x, s.y), List.mem_cons_self _ _, by rw [hti]; exact inv.hy⟩
        · obtain ⟨p, hp, hpe⟩ := hcy hab t (by have := hmj hab; omega) ht2
          exact ⟨p, List.mem_cons_of_mem _ hp, hpe⟩

/-- The path of `drawLine` for endpoints that fit: one path for every
number of iterations above `|x1 - x0| + |y1 - y0|`, from `(x0, y0)` to
`(x1, y1)`, of `max |x1 - x0| |y1 - y0| + 1` points, each move a `lineMove`;
its points in the coordinates of the loop. -/
theorem bresenham_spec {x0 y0 x1 y1 : Int} (h : LineFits x0 y0 x1 y1) :
    ∃ pts, (∀ fuel : Nat, |x1 - x0| + |y1 - y0| < (fuel : Int) →
        bresenham fuel x0 y0 x1 y1 = some pts) ∧
      pts.head? = some (x0, y0) ∧ pts.getLast? = some (x1, y1) ∧
      (pts.length : Int) = max |x1 - x0| |y1 - y0| + 1 ∧
      List.Chain' (lineMove (if x0 < x1 then 1 else -1) (if y0 < y1 then 1 else -1) x1 y1) pts ∧
      (∀ p ∈ pts, ∃ i j, 0 ≤ i ∧ i ≤ |x1 - x0| ∧ 0 ≤ j ∧ j ≤ |y1 - y0| ∧
        p = (x0 + (if x0 < x1 then 1 else -1) * i, y0 + (if y0 < y1 then 1 else -1) * j) ∧
        (|x1 - x0| = |y1 - y0| → i = j)) ∧
      (|y1 - y0| ≤ |x1 - x0| → ∀ t, 0 ≤ t → t ≤ |x1 - x0| →
        ∃ p ∈ pts, p.1 = x0 + (if x0 < x1 then 1 else -1) * t) ∧
      (|x1 - x0| ≤ |y1 - y0| → ∀ t, 0 ≤ t → t ≤ |y1 - y0| →
        ∃ p ∈ pts, p.2 = y0 + (if y0 < y1 then 1 else -1) * t) := by
  have hinit := lineInit_spec h
  obtain ⟨hx0, hy0, hx1, hy1, ha, hb⟩ := h
  have ha0 : 0 ≤ |x1 - x0| := abs_nonneg _
  have hb0 : 0 ≤ |y1 - y0| := abs_nonneg _
  have ex1 : x1 = x0 + (if x0 < x1 then 1 else -1) * |x1 - x0| := by
    by_cases hlt : x0 < x1
    · rw [if_pos hlt, abs_of_nonneg (by omega)]; omega
    · rw [if_neg hlt, abs_of_nonpos (by omega)]; omega
  have ey1 : y1 = y0 + (if y0 < y1 then 1 else -1) * |y1 - y0| := by
    by_cases hlt : y0 < y1
    · rw [if_pos hlt, abs_of_nonneg (by omega)]; omega
    · rw [if_neg hlt, abs_of_nonpos (by omega)]; omega
  have hsx : (if x0 < x1 then (1 : Int) else -1) = 1 ∨ (if x0 < x1 then (1 : Int) else -1) = -1 := by
    split <;> simp
  have hsy : (if y0 < y1 then (1 : Int) else -1) = 1 ∨ (if y0 < y1 then (1 : Int) else -1) = -1 := by
    split <;> simp
  have inv : LineInv x0 y0 |x1 - x0| |y1 - y0| (if x0 < x1 then 1 else -1)
      (if y0 < y1 then 1 else -1) { x := x0, y := y0, err := |x1 - x0| - |y1 - y0| } 0 0 := by
    refine ⟨by omega, ha0, by omega, hb0, by simp, by simp, by simp, by simp; omega, by simp; omega⟩
  have maj : MajorInv |x1 - x0| |y1 - y0| 0 0 := by
    unfold MajorInv; simp only [mul_zero, sub_self]; constructor <;> intro _ <;> omega
  obtain ⟨pts, hpath, hhead, hlast, hlen, hchain, hmem, hcx, hcy⟩ :=
    linePath_spec hsx hsy ha0 hb0 ha hb hx0 hy0 hx1 hy1 ex1 ey1
      ((|x1 - x0| + |y1 - y0|).toNat + 1) _ 0 0 inv maj (by omega)
  refine ⟨pts, ?_, hhead, hlast, ?_, hchain, ?_, hcx, hcy⟩
  · intro fuel hfuel
    unfold bresenham
    rw [hinit]
    simp only []
    have := linePath_mono _ _ _ _ _ _ _ _ _ hpath (fuel - ((|x1 - x0| + |y1 - y0|).toNat + 1))
    rw [show (|x1 - x0| + |y1 - y0|).toNat + 1 + (fuel - ((|x1 - x0| + |y1 - y0|).toNat + 1))
      = fuel by omega] at this
    exact this
  · rw [hlen]
    by_cases hab : |y1 - y0| ≤ |x1 - x0|
    · rw [if_pos hab, max_eq_left hab]; omega
    · rw [if_neg hab, max_eq_right (by omega)]; omega
  · intro p hp
    obtain ⟨i, j, q1, q2, q3, q4, q5, q6⟩ := hmem p hp
    exact ⟨i, j, q1, q2, q3, q4, q5, fun hab => by have := q6 hab; omega⟩

/-- C16 as stated fails: the differences of the endpoints (0, 0) and
(1073741824, 0) are values of `int`, yet the first `2 * err` of the loop
overflows and the loop has no sequence of visited points, however many
iterations the model grants it. -/
theorem C16_long_line_no_path :
    isInt32 (1073741824 - 0) ∧ isInt32 (0 - 0) ∧
    ¬ ∃ fuel pts, bresenham fuel 0 0 1073741824 0 = some pts := by
  refine ⟨by decide, by decide, ?_⟩
  rintro ⟨fuel, pts, h⟩
  cases fuel with
  | zero =>
    have : bresenham 0 0 0 1073741824 0 = none := by rfl
    rw [this] at h
    cases h
  | succ n =>
    have : bresenham (n + 1) 0 0 1073741824 0 = none := by rfl
    rw [this] at h
    cases h

/-- C16 amended: for endpoints that are values of `int` with
`3 * |x1 - x0|` and `3 * |y1 - y0|` at most `INT_MAX`, the loop of `drawLine`
terminates: there is one sequence of visited points that the loop produces
for every number of granted iterations above `|x1 - x0| + |y1 - y0|`; it
starts at `(x0, y0)`, ends at `(x1, y1)`, has exactly
`max |x1 - x0| |y1 - y0| + 1` points, and from each point to the next `x`
stays or moves by `sx`, `y` stays or moves by `sy`, the point changes, by at
most 1 in each coordinate, and neither coordinate gets farther from the
target. -/
theorem C16_bresenham_path (x0 y0 x1 y1 : Int) (hfit : LineFits x0 y0 x1 y1) :
    ∃ pts, (∀ fuel : Nat, |x1 - x0| + |y1 - y0| < (fuel : Int) →
        bresenham fuel x0 y0 x1 y1 = some pts) ∧
      pts.head? = some (x0, y0) ∧ pts.getLast? = some (x1, y1) ∧
      (pts.length : Int) = max |x1 - x0| |y1 - y0| + 1 ∧
      List.Chain' (lineMove (if x0 < x1 then 1 else -1) (if y0 < y1 then 1 else -1) x1 y1)
        pts := by
  obtain ⟨pts, h1, h2, h3, h4, h5, _⟩ := bresenham_spec hfit
  exact ⟨pts, h1, h2, h3, h4, h5⟩

/-- C16 amended, at the line from (0, 0) to (2, 1), whose path is
(0, 0), (1, 1), (2, 1). -/
theorem C16_bresenham_path_witness :
    LineFits 0 0 2 1 ∧ bresenham 4 0 0 2 1 = some [(0, 0), (1, 1), (2, 1)] ∧
    ∃ pts, (∀ fuel : Nat, |(2 : Int) - 0| + |(1 : Int) - 0| < (fuel : Int) →
        bresenham fuel 0 0 2 1 = some pts) ∧
      pts.head? = some (0, 0) ∧ pts.getLast? = some (2, 1) ∧
      (pts.length : Int) = max |(2 : Int) - 0| |(1 : Int) - 0| + 1 ∧
      List.Chain' (lineMove (if (0 : Int) < 2 then 1 else -1) (if (0 : Int) < 1 then 1 else -1) 2 1)
        pts :=
  ⟨by decide, by decide, C16_bresenham_path 0 0 2 1 (by decide)⟩

/-! ## The direction of a line -/

/-- The condition `LineFits` does not depend on the direction. -/
theorem lineFits_swap {x0 y0 x1 y1 : Int} (h : LineFits x0 y0 x1 y1) : LineFits x1 y1 x0 y0 := by
  obtain ⟨hx0, hy0, hx1, hy1, ha, hb⟩ := h
  exact ⟨hx1, hy1, hx0, hy0, by rw [abs_sub_comm]; exact ha, by rw [abs_sub_comm]; exact hb⟩

/-- On a horizontal, vertical or exactly diagonal line, every point of the
path from `(x0, y0)` to `(x1, y1)` is a point of the path from `(x1, y1)` to
`(x0, y0)`. -/
theorem bresenham_straight_sub {x0 y0 x1 y1 : Int} (h : LineFits x0 y0 x1 y1)
    (hs : x0 = x1 ∨ y0 = y1 ∨ |x1 - x0| = |y1 - y0|) (fuel : Nat)
    (hfuel : |x1 - x0| + |y1 - y0| < (fuel : Int)) {pts qts : List (Int × Int)}
    (hp : bresenham fuel x0 y0 x1 y1 = some pts) (hq : bresenham fuel x1 y1 x0 y0 = some qts) :
    ∀ p ∈ pts, p ∈ qts := by
  obtain ⟨pts1, e1, _, _, _, _, hmem, _, _⟩ := bresenham_spec h
  obtain ⟨qts1, e2, _, _, _, _, hmem2, hcx, hcy⟩ := bresenham_spec (lineFits_swap h)
  have hfuel2 : |x0 - x1| + |y0 - y1| < (fuel : Int) := by
    rw [abs_sub_comm x0 x1, abs_sub_comm y0 y1]; exact hfuel
  have := e1 fuel hfuel
  rw [hp] at this
  have hpe : pts = pts1 := by simpa using this
  have := e2 fuel hfuel2
  rw [hq] at this
  have hqe : qts = qts1 := by simpa using this
  subst hpe hqe
  clear e1 e2 hp hq
  intro p hpm
  obtain ⟨i, j, hi0, hia, hj0, hjb, hpe, hij⟩ := hmem p hpm
  have hX : (x0 < x1 ∧ |x1 - x0| = x1 - x0 ∧ |x0 - x1| = x1 - x0 ∧
        (if x0 < x1 then (1 : Int) else -1) = 1 ∧ (if x1 < x0 then (1 : Int) else -1) = -1) ∨
      (x1 < x0 ∧ |x1 - x0| = x0 - x1 ∧ |x0 - x1| = x0 - x1 ∧
        (if x0 < x1 then (1 : Int) else -1) = -1 ∧ (if x1 < x0 then (1 : Int) else -1) = 1) ∨
      (x0 = x1 ∧ |x1 - x0| = 0 ∧ |x0 - x1| = 0 ∧
        (if x0 < x1 then (1 : Int) else -1) = -1 ∧ (if x1 < x0 then (1 : Int) else -1) = -1) := by
    rcases lt_trichotomy x0 x1 with hx | hx | hx
    · left
      exact ⟨hx, abs_of_nonneg (by omega), by rw [abs_of_nonpos (by omega)]; omega,
        if_pos hx, if_neg (by omega)⟩
    · right; right; subst hx; simp
    · right; left
      exact ⟨hx, by rw [abs_of_nonpos (by omega)]; omega, abs_of_nonneg (by omega),
        if_neg (by omega), if_pos hx⟩
  have hY : (y0 < y1 ∧ |y1 - y0| = y1 - y0 ∧ |y0 - y1| = y1 - y0 ∧
        (if y0 < y1 then (1 : Int) else -1) = 1 ∧ (if y1 < y0 then (1 : Int) else -1) = -1) ∨
      (y1 < y0 ∧ |y1 - y0| = y0 - y1 ∧ |y0 - y1| = y0 - y1 ∧
        (if y0 < y1 then (1 : Int) else -1) = -1 ∧ (if y1 < y0 then (1 : Int) else -1) = 1) ∨
      (y0 = y1 ∧ |y1 - y0| = 0 ∧ |y0 - y1| = 0 ∧
        (if y0 < y1 then (1 : Int) else -1) = -1 ∧ (if y1 < y0 then (1 : Int) else -1) = -1) := by
    rcases lt_trichotomy y0 y1 with hy | hy | hy
    · left
      exact ⟨hy, abs_of_nonneg (by omega), by rw [abs_of_nonpos (by omega)]; omega,
        if_pos hy, if_neg (by omega)⟩
    · right; right; subst hy; simp
    · right; left
      exact ⟨hy, by rw [abs_of_nonpos (by omega)]; omega, abs_of_nonneg (by omega),
        if_neg (by omega), if_pos hy⟩
  generalize (if x0 < x1 then (1 : Int) else -1) = sx at *
  generalize (if y0 < y1 then (1 : Int) else -1) = sy at *
  generalize (if x1 < x0 then (1 : Int) else -1) = tx at *
  generalize (if y1 < y0 then (1 : Int) else -1) = ty at *
  generalize |x1 - x0| = a at *
  generalize |y1 - y0| = b at *
  generalize |x0 - x1| = a2 at *
  generalize |y0 - y1| = b2 at *
  clear hmem hpm h hfuel hfuel2
  by_cases hab : b ≤ a
  · have hab2 : b2 ≤ a2 := by
      rcases hX with ⟨_, c1, c2, _⟩ | ⟨_, c1, c2, _⟩ | ⟨_, c1, c2, _⟩ <;>
        rcases hY with ⟨_, d1, d2, _⟩ | ⟨_, d1, d2, _⟩ | ⟨_, d1, d2, _⟩ <;> omega
    have hia2 : a - i ≤ a2 := by
      rcases hX with ⟨_, c1, c2, _⟩ | ⟨_, c1, c2, _⟩ | ⟨_, c1, c2, _⟩ <;> omega
    obtain ⟨q, hqm, hq1⟩ := hcx hab2 (a - i) (by omega) hia2
    obtain ⟨i2, j2, hi20, hi2a, hj20, hj2b, hqe, hij2⟩ := hmem2 q hqm
    have : q = p := by
      rw [hqe, hpe]
      rw [hqe] at hq1
      simp only at hq1
      rw [Prod.mk.injEq]
      clear hcx hcy hmem2 hqm hqe hpe
      rcases hX with ⟨c0, c1, c2, c3, c4⟩ | ⟨c0, c1, c2, c3, c4⟩ | ⟨c0, c1, c2, c3, c4⟩ <;>
        rcases hY with ⟨d0, d1, d2, d3, d4⟩ | ⟨d0, d1, d2, d3, d4⟩ | ⟨d0, d1, d2, d3, d4⟩ <;>
        subst c1 c2 c3 c4 d1 d2 d3 d4 <;>
        rcases hs with hs | hs | hs <;> omega
    rw [← this]; exact hqm
  · have hab2 : a2 ≤ b2 := by
      rcases hX with ⟨_, c1, c2, _⟩ | ⟨_, c1, c2, _⟩ | ⟨_, c1, c2, _⟩ <;>
        rcases hY with ⟨_, d1, d2, _⟩ | ⟨_, d1, d2, _⟩ | ⟨_, d1, d2, _⟩ <;> omega
    have hjb2 : b - j ≤ b2 := by
      rcases hY with ⟨_, c1, c2, _⟩ | ⟨_, c1, c2, _⟩ | ⟨_, c1, c2, _⟩ <;> omega
    obtain ⟨q, hqm, hq1⟩ := hcy hab2 (b - j) (by omega) hjb2
    obtain ⟨i2, j2, hi20, hi2a, hj20, hj2b, hqe, hij2⟩ := hmem2 q hqm
    have : q = p := by
      rw [hqe, hpe]
      rw [hqe] at hq1
      simp only at hq1
      rw [Prod.mk.injEq]
      clear hcx hcy hmem2 hqm hqe hpe
      rcases hX with ⟨c0, c1, c2, c3, c4⟩ | ⟨c0, c1, c2, c3, c4⟩ | ⟨c0, c1, c2, c3, c4⟩ <;>
        rcases hY with ⟨d0, d1, d2, d3, d4⟩ | ⟨d0, d1, d2, d3, d4⟩ | ⟨d0, d1, d2, d3, d4⟩ <;>
        subst c1 c2 c3 c4 d1 d2 d3 d4 <;>
        rcases hs with hs | hs | hs <;> omega
    rw [← this]; exact hqm

/-- On a horizontal, vertical or exactly diagonal line `drawLine` returns
the same object in both directions. -/
theorem drawLine_straight_swap {img : BMPImage} (hinv : Invariant img)
    (hint : img.width ≤ 2147483647 ∧ img.height ≤ 2147483647)
    {x0 y0 x1 y1 : Int} (hfit : LineFits x0 y0 x1 y1)
    (hs : x0 = x1 ∨ y0 = y1 ∨ |x1 - x0| = |y1 - y0|)
    (fuel : Nat) (hfuel : |x1 - x0| + |y1 - y0| < (fuel : Int)) :
    ∃ img1, drawLine fuel img x0 y0 x1 y1 = .returned img1 ∧
      drawLine fuel img x1 y1 x0 y0 = .returned img1 := by
  obtain ⟨g, hpx⟩ := invariant_geom hinv hint
  have hfuel2 : |x0 - x1| + |y0 - y1| < (fuel : Int) := by
    rw [abs_sub_comm x0 x1, abs_sub_comm y0 y1]; exact hfuel
  have hs2 : x1 = x0 ∨ y1 = y0 ∨ |x0 - x1| = |y0 - y1| := by
    rw [abs_sub_comm x0 x1, abs_sub_comm y0 y1]
    rcases hs with h | h | h
    · exact Or.inl h.symm
    · exact Or.inr (Or.inl h.symm)
    · exact Or.inr (Or.inr h)
  obtain ⟨pts, img1, hpath, hdraw, e1, e2, e3, e4, e5, hget⟩ :=
    drawLine_spec g hpx hfit fuel hfuel
  obtain ⟨qts, img2, hpath2, hdraw2, f1, f2, f3, f4, f5, hget2⟩ :=
    drawLine_spec g hpx (lineFits_swap hfit) fuel hfuel2
  have hsub := bresenham_straight_sub hfit hs fuel hfuel hpath hpath2
  have hsub2 := bresenham_straight_sub (lineFits_swap hfit) hs2 fuel hfuel2 hpath2 hpath
  have hpaint : ∀ k, painted img.width.toNat img.height.toNat img.bytesPerPixel.toNat pts k ↔
      painted img.width.toNat img.height.toNat img.bytesPerPixel.toNat qts k := by
    intro k
    constructor
    · rintro ⟨p, hp, hc⟩; exact ⟨p, hsub p hp, hc⟩
    · rintro ⟨p, hp, hc⟩; exact ⟨p, hsub2 p hp, hc⟩
  have hpix : img1.pixels = img2.pixels := by
    apply List.ext_getElem?
    intro k
    rw [hget k, hget2 k]
    by_cases hk : painted img.width.toNat img.height.toNat img.bytesPerPixel.toNat pts k
    · rw [if_pos hk, if_pos ((hpaint k).mp hk)]
    · rw [if_neg hk, if_neg (fun h => hk ((hpaint k).mpr h))]
  have heq : img2 = img1 := by
    obtain ⟨w1, h1, t1, b1, p1⟩ := img1
    obtain ⟨w2, h2, t2, b2, p2⟩ := img2
    simp only at e1 e2 e3 e4 f1 f2 f3 f4 hpix
    rw [e1, e2, e3, e4, f1, f2, f3, f4, hpix]
  refine ⟨img1, hdraw, ?_⟩
  rw [hdraw2, heq]

/-- C19: `drawLine` depends on the direction. On a white 3x2 image the line
from (0, 0) to (2, 1) visits (0, 0), (1, 1), (2, 1) and the line from (2, 1)
to (0, 0) visits (2, 1), (1, 0), (0, 0); both calls return, with different
pixel buffers. On a horizontal, vertical or exactly diagonal line whose
endpoints fit, on an image that satisfies the invariant, both directions
return the same object. -/
theorem C19_direction_dependent :
    bresenham 4 0 0 2 1 = some [(0, 0), (1, 1), (2, 1)] ∧
    bresenham 4 2 1 0 0 = some [(2, 1), (1, 0), (0, 0)] ∧
    drawLine 4 white3x2 0 0 2 1 = .returned ⟨3, 2, false, 3,
      [0, 0, 0, 255, 255, 255, 255, 255, 255, 255, 255, 255, 0, 0, 0, 0, 0, 0]⟩ ∧
    drawLine 4 white3x2 2 1 0 0 = .returned ⟨3, 2, false, 3,
      [0, 0, 0, 0, 0, 0, 255, 255, 255, 255, 255, 255, 255, 255, 255, 0, 0, 0]⟩ ∧
    (∃ (img : BMPImage) (x0 y0 x1 y1 : Int) (fuel : Nat) (r1 r2 : BMPImage),
      drawLine fuel img x0 y0 x1 y1 = .returned r1 ∧
      drawLine fuel img x1 y1 x0 y0 = .returned r2 ∧ r1.pixels ≠ r2.pixels) ∧
    (∀ (img : BMPImage) (x0 y0 x1 y1 : Int) (fuel : Nat), Invariant img →
      img.width ≤ 2147483647 ∧ img.height ≤ 2147483647 → LineFits x0 y0 x1 y1 →
      x0 = x1 ∨ y0 = y1 ∨ |x1 - x0| = |y1 - y0| →
      |x1 - x0| + |y1 - y0| < (fuel : Int) →
      ∃ img1, drawLine fuel img x0 y0 x1 y1 = .returned img1 ∧
        drawLine fuel img x1 y1 x0 y0 = .returned img1) := by
  refine ⟨by decide, by decide, by decide, by decide, ?_, ?_⟩
  · exact ⟨white3x2, 0, 0, 2, 1, 4,
      ⟨3, 2, false, 3, [0, 0, 0, 255, 255, 255, 255, 255, 255, 255, 255, 255, 0, 0, 0, 0, 0, 0]⟩,
      ⟨3, 2, false, 3, [0, 0, 0, 0, 0, 0, 255, 255, 255, 255, 255, 255, 255, 255, 255, 0, 0, 0]⟩,
      by decide, by decide, by decide⟩
  · intro img x0 y0 x1 y1 fuel hinv hint hfit hs hfuel
    exact drawLine_straight_swap hinv hint hfit hs fuel hfuel

/-- C19, the second part at the 2x2 sample image and the diagonal between
(0, 0) and (1, 1): both directions return the same object. -/
theorem C19_direction_dependent_witness :
    Invariant sampleImage ∧ LineFits 0 0 1 1 ∧
    ∃ img1, drawLine 3 sampleImage 0 0 1 1 = .returned img1 ∧
      drawLine 3 sampleImage 1 1 0 0 = .returned img1 :=
  ⟨by decide, by decide,
   C19_direction_dependent.2.2.2.2.2 sampleImage 0 0 1 1 3 (by decide) (by decide) (by decide)
     (by decide) (by decide)⟩

/-! ## createTestBMP -/

/-- The checkerboard image is valid when its sizes fit. -/
theorem checkerImage_valid {w h : Int} (hw : 0 < w) (hh : 0 < h) (hfit : TestFits w h) :
    Valid (checkerImage w h) := by
  obtain ⟨h1, h2, h3, h4⟩ := hfit
  refine ⟨⟨hw, hh, Or.inl rfl, ?_⟩, h1, h2, h3, h4⟩
  show ((List.map _ (List.range (w.toNat * h.toNat * 3))).length : Int) = w * h * 3
  rw [List.length_map, List.length_range]
  have e1 : w = (w.toNat : Int) := by omega
  have e2 : h = (h.toNat : Int) := by omega
  rw [e1, e2]
  simp only [Int.toNat_ofNat]
  push_cast
  rfl

/-- The bytes of pixel `(x, y)` of the checkerboard image. -/
theorem checkerImage_pixel {w h : Int} {x y c : Nat} (hx : x < w.toNat) (hy : y < h.toNat)
    (hc : c < 3) :
    (checkerImage w h).pixels[(y * w.toNat + x) * 3 + c]? = some (checkerByte h.toNat x y) := by
  have hlt : (y * w.toNat + x) * 3 + c < w.toNat * h.toNat * 3 := by
    have := row_bound hy hx
    rw [Nat.mul_comm h.toNat w.toNat] at this
    omega
  show (List.map _ (List.range (w.toNat * h.toNat * 3)))[_]? = _
  rw [List.getElem?_map, List.getElem?_range hlt]
  simp only [Option.map_some']
  have e1 : ((y * w.toNat + x) * 3 + c) / 3 = y * w.toNat + x := by omega
  rw [e1]
  have e2 : (y * w.toNat + x) % w.toNat = x := by
    rw [Nat.add_comm, Nat.add_mul_mod_self_right, Nat.mod_eq_of_lt hx]
  have e3 : (y * w.toNat + x) / w.toNat = y := by
    rw [Nat.add_comm, Nat.add_mul_div_right _ _ (by omega), Nat.div_eq_of_lt hx, Nat.zero_add]
  rw [e2, e3]

/-- A monadic fold whose steps all succeed is a fold. -/
theorem foldlM_eq_foldl {α β : Type} (f : β → α → Option β) (g : β → α → β) :
    ∀ (l : List α) (b : β), (∀ a ∈ l, ∀ b, f b a = some (g b a)) →
      l.foldlM f b = some (l.foldl g b) := by
  intro l
  induction l with
  | nil => intro b _; rfl
  | cons a l ih =>
    intro b h
    rw [List.foldlM_cons, h a (List.mem_cons_self _ _) b]
    simp only [Option.bind_eq_bind, Option.some_bind, List.foldl_cons]
    exact ih _ (fun a2 ha2 => h a2 (List.mem_cons_of_mem _ ha2))

/-- On the checkerboard image one step of the inner loop of `save` writes what
the inner loop of `createTestBMP` writes. -/
theorem putPixel_checker {w h : Int} (hw : 0 < w) (hh : 0 < h) (hfit : TestFits w h)
    {x row : Nat} (hx : x < w.toNat) (hr : row < h.toNat) (out : List Byte) :
    putPixel (checkerImage w h) 3 (((h.toNat - 1 - row : Nat) : Int)) out x
      = some (testPixel row out x) := by
  obtain ⟨g, hpx, _, _⟩ := valid_geom (checkerImage_valid hw hh hfit)
  have hD : h.toNat - 1 - row < h.toNat := by omega
  have hidx : (checkerImage w h).idx (x : Int) ((h.toNat - 1 - row : Nat) : Int)
      = ((h.toNat - 1 - row) * w.toNat + x) * 3 := geom_idx_eq g hx hD
  have hrow : h.toNat - 1 - (h.toNat - 1 - row) = row := by omega
  unfold putPixel
  simp only [hidx]
  unfold vecGet
  rw [checkerImage_pixel hx hD (show 0 < 3 by omega), checkerImage_pixel hx hD (show 1 < 3 by omega),
    checkerImage_pixel hx hD (show 2 < 3 by omega)]
  simp only [Option.bind_eq_bind, Option.some_bind, show ¬ ((3 : Nat) = 4) by omega, if_false,
    Option.pure_def]
  unfold testPixel checkerByte
  rw [hrow]
  by_cases hb : (x / 4 + row / 4) % 2 = 0
  · simp [hb]
  · simp [hb]

/-- On the checkerboard image the inner loop of `save` writes what the inner
loop of `createTestBMP` writes. -/
theorem putRow_checker {w h : Int} (hw : 0 < w) (hh : 0 < h) (hfit : TestFits w h)
    {row : Nat} (hr : row < h.toNat) (out : List Byte) :
    putRow (checkerImage w h) 3 (((h.toNat - 1 - row : Nat) : Int)) out
      = some (testRow w.toNat row out) := by
  unfold putRow testRow
  apply foldlM_eq_foldl
  intro x hx b
  exact putPixel_checker hw hh hfit (List.mem_range.mp hx) hr b

/-- On the checkerboard image the row loop of `save` writes what the row loop
of `createTestBMP` writes. -/
theorem saveRows_checker {w h : Int} (hw : 0 < w) (hh : 0 < h) (hfit : TestFits w h)
    (pad : List Byte) :
    ∀ (n row : Nat) (out : List Byte), row + n ≤ h.toNat →
      saveRows (checkerImage w h) 3 pad n row out = (.success, testRows w.toNat pad n row out) := by
  intro n
  induction n with
  | zero => intro row out _; rfl
  | succ n ih =>
    intro row out hle
    unfold saveRows testRows
    have hfr : (if (checkerImage w h).topDown then (row : Int)
        else (checkerImage w h).height - 1 - (row : Int)) = ((h.toNat - 1 - row : Nat) : Int) := by
      show (if false = true then (row : Int) else h - 1 - (row : Int)) = _
      simp only [Bool.false_eq_true, if_false]
      omega
    simp only [hfr]
    rw [putRow_checker hw hh hfit (by omega)]
    exact ih (row + 1) _ (by omega)

/-- The bytes `createTestBMP` writes are those `save` writes for the
checkerboard image. -/
theorem createTestBMP_eq_save {w h : Int} (hw : 0 < w) (hh : 0 < h) (hfit : TestFits w h) :
    ∃ out, createTestBMP w h = (true, out) ∧ save (checkerImage w h) = (.success, out) := by
  have hv := checkerImage_valid hw hh hfit
  obtain ⟨h1, h2, hs, hf⟩ := hfit
  have hWu : toU32 w = w.toNat := by unfold toU32; omega
  have hHu : toU32 h = h.toNat := by unfold toU32; omega
  have hmul : rowStride w.toNat 3 * 1 ≤ rowStride w.toNat 3 * h.toNat :=
    Nat.mul_le_mul_left _ (by omega)
  have hS1 : rowStride w.toNat 3 % 4294967296 = rowStride w.toNat 3 :=
    Nat.mod_eq_of_lt (by omega)
  have hI1 : rowStride w.toNat 3 * h.toNat % 4294967296 = rowStride w.toNat 3 * h.toNat :=
    Nat.mod_eq_of_lt (by omega)
  have hF1 : (14 + 40 + rowStride w.toNat 3 * h.toNat) % 4294967296
      = 54 + rowStride w.toNat 3 * h.toNat := by
    rw [Nat.mod_eq_of_lt (by omega)]
  have hst : w.toNat * 3 + (4 - (w.toNat * 3) % 4) % 4 = rowStride w.toNat 3 := by
    unfold rowStride; omega
  have hpad : (4 - (w.toNat * 3) % 4) % 4 = rowStride w.toNat 3 - w.toNat * 3 := by
    omega
  have hr : (w.toNat * 3) % 4294967296 = w.toNat * 3 := by
    omega
  have hbits : toU32 (3 * 8) % 65536 = 3 * 8 := by decide
  refine ⟨testRows w.toNat (List.replicate (rowStride w.toNat 3 - w.toNat * 3) 0) h.toNat 0
    (fileHeaderBytes 0x4D42 (54 + rowStride w.toNat 3 * h.toNat) 54 ++
      infoHeaderBytes 40 w.toNat h.toNat (3 * 8) 0 (rowStride w.toNat 3 * h.toNat)), ?_, ?_⟩
  · unfold createTestBMP
    rw [if_neg (by omega)]
    simp only [hWu, hHu, hr, hst, hS1, hI1, hF1, hbits]
    rw [hpad, pad_replicate]
  · rw [save_rows hv]
    show saveRows (checkerImage w h) 3 (List.replicate (rowStride w.toNat 3 - w.toNat * 3) 0)
      h.toNat 0 (fileHeaderBytes 0x4D42 (54 + rowStride w.toNat 3 * h.toNat) 54 ++
        infoHeaderBytes 40 w.toNat (toU32 h) (3 * 8) 0 (rowStride w.toNat 3 * h.toNat)) = _
    rw [hHu]
    exact saveRows_checker hw hh ⟨h1, h2, hs, hf⟩ _ _ _ _ (Nat.le_of_eq (Nat.zero_add _))

/-- C18: for `w > 0` and `h > 0` within 32-bit size limits, `createTestBMP`
returns true and `load`, on any object, accepts the bytes it has written,
giving width `w`, height `h`, 3 bytes per pixel, bottom-up, and every byte
of canonical pixel `(x, y)` equal to 0 if `(x / 4 + (h - 1 - y) / 4) mod 2 = 0`
and to 255 otherwise; `save` of that decoded image writes the same bytes.
When `w <= 0` or `h <= 0`, `createTestBMP` returns false and writes nothing. -/
theorem C18_generator_agrees (w h : Int) :
    (0 < w → 0 < h → TestFits w h →
      ∃ out, createTestBMP w h = (true, out) ∧
        ∀ self, ∃ s, load self out = (.success, s) ∧
          s.width = w ∧ s.height = h ∧ s.bytesPerPixel = 3 ∧ s.topDown = false ∧
          s.pixels.length = w.toNat * h.toNat * 3 ∧
          (∀ x y c : Nat, (x : Int) < w → (y : Int) < h → c < 3 →
            s.pixels[(y * w.toNat + x) * 3 + c]? =
              some (if (x / 4 + (h.toNat - 1 - y) / 4) % 2 = 0 then 0 else 255)) ∧
          save s = (.success, out)) ∧
    (w ≤ 0 ∨ h ≤ 0 → createTestBMP w h = (false, [])) := by
  constructor
  · intro hw hh hfit
    obtain ⟨out, hc, hsave⟩ := createTestBMP_eq_save hw hh hfit
    have hv := checkerImage_valid hw hh hfit
    refine ⟨out, hc, fun self => ⟨checkerImage w h, load_saved self hv hsave, rfl, rfl, rfl, rfl,
      ?_, ?_, hsave⟩⟩
    · show (List.map _ (List.range (w.toNat * h.toNat * 3))).length = _
      rw [List.length_map, List.length_range]
    · intro x y c hx hy hc3
      exact checkerImage_pixel (by omega) (by omega) hc3
  · intro hbad
    unfold createTestBMP
    rw [if_pos hbad]

set_option maxRecDepth 8000 in
/-- C18 at `w = 5`, `h = 5`, and at `w = 0`; the bytes written for `w = 5`,
`h = 1`: the headers, four black pixels, a white one and one byte of
padding. -/
theorem C18_generator_agrees_witness :
    createTestBMP 5 1 = (true, fileHeaderBytes 0x4D42 70 54 ++ infoHeaderBytes 40 5 1 24 0 16 ++
      [0, 0, 0, 0, 0, 0, 0, 0, 0, 0, 0, 0, 255, 255, 255, 0]) ∧
    (∃ out, createTestBMP 5 5 = (true, out) ∧
      ∀ self, ∃ s, load self out = (.success, s) ∧
        s.width = 5 ∧ s.height = 5 ∧ s.bytesPerPixel = 3 ∧ s.topDown = false ∧
        s.pixels.length = (5 : Int).toNat * (5 : Int).toNat * 3 ∧
        (∀ x y c : Nat, (x : Int) < 5 → (y : Int) < 5 → c < 3 →
          s.pixels[(y * (5 : Int).toNat + x) * 3 + c]? =
            some (if (x / 4 + ((5 : Int).toNat - 1 - y) / 4) % 2 = 0 then 0 else 255)) ∧
        save s = (.success, out)) ∧
    createTestBMP 0 3 = (false, []) :=
  ⟨by decide, (C18_generator_agrees 5 5).1 (by decide) (by decide) (by decide),
   (C18_generator_agrees 0 3).2 (by decide)⟩

/-! ## The bytes load does not depend on -/

/-- Monadic folds with pointwise equal steps are equal. -/
theorem foldlM_congr {α β : Type} (f g : β → α → Option β) :
    ∀ (l : List α) (b : β), (∀ a ∈ l, ∀ b, f b a = g b a) →
      l.foldlM f b = l.foldlM g b := by
  intro l
  induction l with
  | nil => intro b _; rfl
  | cons a l ih =>
    intro b h
    rw [List.foldlM_cons, List.foldlM_cons, h a (List.mem_cons_self _ _) b]
    cases g b a with
    | none => rfl
    | some b1 =>
      simp only [Option.bind_eq_bind, Option.some_bind]
      exact ih _ (fun a2 ha2 => h a2 (List.mem_cons_of_mem _ ha2))

/-- One step of the inner loop of `load` reads the row buffer only below
`width * b`. -/
theorem copyPixel_congr {self : BMPImage} {b : Nat} (hb : b = 3 ∨ b = 4) {rb1 rb2 : List Byte}
    {x : Nat} (hx : x < self.width.toNat) (hW : self.width.toNat < 2147483648)
    (h : ∀ i, i < self.width.toNat * b → rb1[i]? = rb2[i]?) (D : Int) (px : List Byte) :
    copyPixel self b rb1 D px x = copyPixel self b rb2 D px x := by
  have hs : (toSizeT (x : Int) * b) % 18446744073709551616 = x * b := by
    rw [toSizeT_natCast x (by omega)]
    apply Nat.mod_eq_of_lt
    have : x * b ≤ 2147483648 * 4 := Nat.mul_le_mul (by omega) (by omega)
    omega
  have hlt : x * b + b ≤ self.width.toNat * b := by
    have := Nat.mul_le_mul_right b (show x + 1 ≤ self.width.toNat from hx)
    rw [Nat.add_mul, Nat.one_mul] at this
    exact this
  unfold copyPixel vecGet
  simp only [hs]
  clear hs
  rcases hb with rfl | rfl
  · rw [h (x * 3 + 0) (by omega), h (x * 3 + 1) (by omega), h (x * 3 + 2) (by omega)]
    simp only [show ¬ ((3 : Nat) = 4) by omega, if_false]
  · rw [h (x * 4 + 0) (by omega), h (x * 4 + 1) (by omega), h (x * 4 + 2) (by omega),
      h (x * 4 + 3) (by omega)]

/-- The inner loop of `load` reads the row buffer only below `width * b`. -/
theorem copyRow_congr {self : BMPImage} {b : Nat} (hb : b = 3 ∨ b = 4) {rb1 rb2 : List Byte}
    (hW : self.width.toNat < 2147483648)
    (h : ∀ i, i < self.width.toNat * b → rb1[i]? = rb2[i]?) (D : Int) (px : List Byte) :
    copyRow self b rb1 D px = copyRow self b rb2 D px := by
  unfold copyRow
  apply foldlM_congr
  intro x hx px1
  exact copyPixel_congr hb (List.mem_range.mp hx) hW h D px1

/-- The row loop of `load` gives the same result on two files of equal length
that agree on the pixel bytes of each row. -/
theorem loadRows_congr {self : BMPImage} {b : Nat} (hb : b = 3 ∨ b = 4) {f1 f2 : List Byte}
    (hlen : f1.length = f2.length) (hW : self.width.toNat < 2147483648) (size : Nat)
    (hsz : self.width.toNat * b ≤ size) :
    ∀ (n row pos : Nat) (px : List Byte),
      (∀ r j, r < n → j < self.width.toNat * b →
        f1[pos + r * size + j]? = f2[pos + r * size + j]?) →
      loadRows self f1 b size n row pos px = loadRows self f2 b size n row pos px := by
  intro n
  induction n with
  | zero => intro row pos px _; rfl
  | succ n ih =>
    intro row pos px h
    unfold loadRows
    by_cases hfit : pos + size ≤ f1.length
    · rw [streamRead_of_le hfit, streamRead_of_le (by rw [← hlen]; exact hfit)]
      simp only []
      have hrow : ∀ i, i < self.width.toNat * b →
          ((f1.drop pos).take size)[i]? = ((f2.drop pos).take size)[i]? := by
        intro i hi
        rw [getElem?_streamRow f1 pos size i (by omega),
          getElem?_streamRow f2 pos size i (by omega)]
        have := h 0 i (by omega) hi
        rw [Nat.zero_mul, Nat.add_zero] at this
        exact this
      rw [copyRow_congr hb hW hrow]
      cases copyRow self b ((f2.drop pos).take size)
        (if self.topDown then (row : Int) else self.height - 1 - (row : Int)) px with
      | none => rfl
      | some px1 =>
        simp only []
        apply ih
        intro r j hr hj
        have := h (r + 1) j (by omega) hj
        rw [Nat.add_mul, Nat.one_mul] at this
        rw [show pos + size + r * size + j = pos + (r * size + size) + j by omega]
        exact this
    · rw [streamRead_of_lt (by omega), streamRead_of_lt (by rw [← hlen]; omega)]

/-- The function `readU32` depends on the four bytes it reads. -/
theorem readU32_congr_at {a b : List Byte} (o : Nat)
    (h : ∀ i, o ≤ i → i < o + 4 → a[i]? = b[i]?) : readU32 a o = readU32 b o := by
  unfold readU32
  rw [getD_congr (h o (by omega) (by omega)), getD_congr (h (o + 1) (by omega) (by omega)),
    getD_congr (h (o + 2) (by omega) (by omega)), getD_congr (h (o + 3) (by omega) (by omega))]

/-- The function `readU16` depends on the two bytes it reads. -/
theorem readU16_congr_at {a b : List Byte} (o : Nat)
    (h : ∀ i, o ≤ i → i < o + 2 → a[i]? = b[i]?) : readU16 a o = readU16 b o := by
  unfold readU16
  rw [getD_congr (h o (by omega) (by omega)), getD_congr (h (o + 1) (by omega) (by omega))]

/-- What `load` depends on: the length of the file, the magic (bytes 0-1),
the pixel-data offset and the fields of the first 20 bytes of the DIB header
(bytes 10-33), and the `width * bytesPerPixel` pixel bytes of each row, the
rows located by the header fields. -/
theorem load_congr (self : BMPImage) (f1 f2 : List Byte) (hlen : f1.length = f2.length)
    (hhdr : ∀ p, (p < 2 ∨ (10 ≤ p ∧ p < 34)) → f1[p]? = f2[p]?)
    (hpix : ∀ r j, r < fileHeight f1 → j < fileWidth f1 * fileBpp f1 →
      f1[bfOffBits f1 + r * fileStride f1 + j]? = f2[bfOffBits f1 + r * fileStride f1 + j]?) :
    load self f1 = load self f2 := by
  have e0 : bfType f2 = bfType f1 :=
    (readU16_congr_at 0 (fun i _ _ => hhdr i (by omega))).symm
  have e1 : bfOffBits f2 = bfOffBits f1 :=
    (readU32_congr_at 10 (fun i _ _ => hhdr i (by omega))).symm
  have e2 : biSize f2 = biSize f1 :=
    (readU32_congr_at 14 (fun i _ _ => hhdr i (by omega))).symm
  have e3 : biWidth f2 = biWidth f1 := by
    unfold biWidth; rw [readU32_congr_at 18 (fun i _ _ => hhdr i (by omega))]
  have e4 : biHeight f2 = biHeight f1 := by
    unfold biHeight; rw [readU32_congr_at 22 (fun i _ _ => hhdr i (by omega))]
  have e5 : biPlanes f2 = biPlanes f1 :=
    (readU16_congr_at 26 (fun i _ _ => hhdr i (by omega))).symm
  have e6 : biBitCount f2 = biBitCount f1 :=
    (readU16_congr_at 28 (fun i _ _ => hhdr i (by omega))).symm
  have e7 : biCompression f2 = biCompression f1 :=
    (readU32_congr_at 30 (fun i _ _ => hhdr i (by omega))).symm
  rw [load_eq self f1, load_eq self f2, ← hlen, e0, e1, e2, e3, e4, e5, e6, e7]
  by_cases h1 : f1.length < 14
  · rw [if_pos h1, if_pos h1]
  rw [if_neg h1, if_neg h1]
  by_cases h2 : bfType f1 ≠ 0x4D42
  · rw [if_pos h2, if_pos h2]
  rw [if_neg h2, if_neg h2]
  by_cases h3 : f1.length < 18
  · rw [if_pos h3, if_pos h3]
  rw [if_neg h3, if_neg h3]
  by_cases h4 : biSize f1 < 40
  · rw [if_pos h4, if_pos h4]
  rw [if_neg h4, if_neg h4]
  by_cases h5 : f1.length < 14 + biSize f1
  · rw [if_pos h5, if_pos h5]
  rw [if_neg h5, if_neg h5]
  by_cases h6 : biCompression f1 ≠ 0
  · rw [if_pos h6, if_pos h6]
  rw [if_neg h6, if_neg h6]
  by_cases h7 : biBitCount f1 ≠ 24 ∧ biBitCount f1 ≠ 32
  · rw [if_pos h7, if_pos h7]
  rw [if_neg h7, if_neg h7]
  by_cases h8 : biPlanes f1 ≠ 1
  · rw [if_pos h8, if_pos h8]
  rw [if_neg h8, if_neg h8]
  have hr := biHeight_range f1
  by_cases hmin : biHeight f1 = -2147483648
  · rw [hmin, loadImage_intMin, loadImage_intMin]
  by_cases hbad : biWidth f1 ≤ 0 ∨ biHeight f1 = 0
  · rw [loadImage_dims self f1 _ _ _ _ (by omega) hbad,
      loadImage_dims self f2 _ _ _ _ (by omega) hbad]
  have hok : HeaderOk f1 := by
    unfold HeaderOk
    exact ⟨by omega, by simpa using h2, by omega, by simpa using h6, by omega,
      by simpa using h8, by omega, by omega, hmin⟩
  obtain ⟨g1, g2, g3, g4, g5, g6, g7⟩ := headerOk_geom hok
  rw [g5, g6]
  have hcong : ∀ b, (b = 3 ∨ b = 4) → fileBpp f1 = b →
      loadRows ⟨fileWidth f1, fileHeight f1, fileTopDown f1, b,
          List.replicate (fileWidth f1 * fileHeight f1 * b) 0⟩ f1 b
        (rowStride (fileWidth f1) b) (fileHeight f1) 0 (bfOffBits f1)
        (List.replicate (fileWidth f1 * fileHeight f1 * b) 0)
      = loadRows ⟨fileWidth f1, fileHeight f1, fileTopDown f1, b,
          List.replicate (fileWidth f1 * fileHeight f1 * b) 0⟩ f2 b
        (rowStride (fileWidth f1) b) (fileHeight f1) 0 (bfOffBits f1)
        (List.replicate (fileWidth f1 * fileHeight f1 * b) 0) := by
    intro b hb hbpp
    apply loadRows_congr hb hlen
    · show (fileWidth f1 : Int).toNat < 2147483648
      rw [Int.toNat_ofNat]; exact g2
    · show (fileWidth f1 : Int).toNat * b ≤ _
      rw [Int.toNat_ofNat]; exact le_rowStride _ _
    · intro r j hr hj
      have hj2 : j < fileWidth f1 * b := by
        have : (fileWidth f1 : Int).toNat = fileWidth f1 := Int.toNat_ofNat _
        rw [← this]; exact hj
      have := hpix r j hr (by rw [hbpp]; exact hj2)
      unfold fileStride at this
      rw [hbpp] at this
      exact this
  rcases g7 with ⟨hbc, hb3⟩ | ⟨hbc, hb4⟩
  · rw [hbc]
    by_cases hfit : rowStride (fileWidth f1) 3 ≤ 2147483647
    · rw [loadImage_eq self f1 _ _ _ _ 24 3 g1 g2 g3 g4 (Or.inl ⟨rfl, rfl⟩) (fun _ => hfit),
        loadImage_eq self f2 _ _ _ _ 24 3 g1 g2 g3 g4 (Or.inl ⟨rfl, rfl⟩) (fun _ => hfit),
        hcong 3 (Or.inl rfl) hb3]
    · rw [loadImage_overflow self f1 _ _ _ _ g1 g2 g3 g4 (by omega),
        loadImage_overflow self f2 _ _ _ _ g1 g2 g3 g4 (by omega)]
  · rw [hbc]
    rw [loadImage_eq self f1 _ _ _ _ 32 4 g1 g2 g3 g4 (Or.inr ⟨rfl, rfl⟩)
        (fun h => absurd h (by omega)),
      loadImage_eq self f2 _ _ _ _ 32 4 g1 g2 g3 g4 (Or.inr ⟨rfl, rfl⟩)
        (fun h => absurd h (by omega)),
      hcong 4 (Or.inr rfl) hb4]

/-- C17 as stated fails: `overlapFile` and `overlapFileChanged` have the
same length and differ at byte 54 only, which lies in the DIB header beyond
its first 40 bytes; the pixel-data offset 54 makes it the first byte of the
pixel, and `load` succeeds on both files with different pixels. -/
theorem C17_header_tail_read_as_pixels :
    overlapFile.length = overlapFileChanged.length ∧
    (∀ p, ¬ ignoredByte overlapFile p → overlapFile[p]? = overlapFileChanged[p]?) ∧
    load BMPImage.new overlapFile = (.success, ⟨1, 1, false, 3, [10, 20, 30]⟩) ∧
    load BMPImage.new overlapFileChanged = (.success, ⟨1, 1, false, 3, [99, 20, 30]⟩) ∧
    load BMPImage.new overlapFile ≠ load BMPImage.new overlapFileChanged := by
  refine ⟨by decide, ?_, by decide, by decide, by decide⟩
  intro p hp
  by_cases h54 : p = 54
  · subst h54
    exact absurd (by decide) hp
  · unfold overlapFileChanged
    rw [List.getElem?_set_ne (fun h => h54 h.symm)]

/-- C17 amended: for two files of equal length whose pixel data starts
behind the headers (the pixel-data offset is at least 54 and at least
14 + the DIB header size) and which agree on all bytes except possibly the
file-size field, the reserved field, the DIB header beyond its first 40
bytes and the padding of the rows, `load` ends the same way and leaves the
same object. -/
theorem C17_ignored_bytes (self : BMPImage) (f1 f2 : List Byte)
    (hlen : f1.length = f2.length)
    (hoff : 54 ≤ bfOffBits f1 ∧ 14 + biSize f1 ≤ bfOffBits f1)
    (hagree : ∀ p, ¬ ignoredByte f1 p → f1[p]? = f2[p]?) :
    load self f1 = load self f2 := by
  apply load_congr self f1 f2 hlen
  · intro p hp
    apply hagree
    unfold ignoredByte paddingByte
    omega
  · intro r j hr hj
    apply hagree
    have hle := le_rowStride (fileWidth f1) (fileBpp f1)
    have hS : fileStride f1 = rowStride (fileWidth f1) (fileBpp f1) := rfl
    have hmod : (r * fileStride f1 + j) % fileStride f1 = j := by
      rw [Nat.add_comm, Nat.add_mul_mod_self_right]
      exact Nat.mod_eq_of_lt (by omega)
    unfold ignoredByte paddingByte
    rw [show bfOffBits f1 + r * fileStride f1 + j - bfOffBits f1 = r * fileStride f1 + j by omega,
      hmod]
    omega

set_option maxRecDepth 8000 in
/-- C17 amended, at `bigHeaderFile` (108-byte DIB header, pixel data at
122) and its copy with a byte changed in each of the four ignored fields:
both load as the same 1x1 image. -/
theorem C17_ignored_bytes_witness :
    bigHeaderFile ≠ bigHeaderFileChanged ∧
    load BMPImage.new bigHeaderFile = (.success, ⟨1, 1, false, 3, [10, 20, 30]⟩) ∧
    load BMPImage.new bigHeaderFile = load BMPImage.new bigHeaderFileChanged :=
  ⟨by decide, by decide,
   C17_ignored_bytes BMPImage.new bigHeaderFile bigHeaderFileChanged (by decide) (by decide)
    (by
      intro p hp
      have h3 : p ≠ 3 := fun h => hp (by subst h; decide)
      have h8 : p ≠ 8 := fun h => hp (by subst h; decide)
      have h60 : p ≠ 60 := fun h => hp (by subst h; decide)
      have h125 : p ≠ 125 := fun h => hp (by subst h; decide)
      unfold bigHeaderFileChanged
      rw [List.getElem?_set_ne (fun h => h125 h.symm), List.getElem?_set_ne (fun h => h60 h.symm),
        List.getElem?_set_ne (fun h => h8 h.symm), List.getElem?_set_ne (fun h => h3 h.symm)])⟩

end BMP
